import Mathlib

/-!
# Verification of the `ondrovic/common` table renderer / sorter / formatters

Shallow embedding of the Go source in `utils/results` (table renderer,
`GenericSortInterface`, `createDataRow`, `createFooterRow`,
`getHeadersAndFields`) and `utils/formatters` (`FormatSize`), together with
the parts of the Go standard library those functions call
(`strings.EqualFold`, `reflect.Value.FieldByNameFunc`, `sort.Slice`).

Modelling conventions:
* Go runtime panics are modelled by `Option`: a function that can panic
  returns `none` exactly when the Go original panics.
* Machine integers (`int64`, `uint64`) are modelled by `Int`/`Nat`; none of
  the modelled code paths overflow.
* `float64` field values are modelled by `GFloat`: a finite value carried as
  an exact rational, plus the two infinities and NaN.  The sorter only ever
  *compares* floats, and IEEE-754 comparison on these payloads is captured
  exactly by `GFloat.lt`.
* Strings are Lean `String`s; Go's byte-wise `<` on UTF-8 strings coincides
  with Lean's code-point lexicographic `<` because UTF-8 preserves
  code-point order.
* `strings.EqualFold` is modelled by ASCII case folding (`foldChar`), which
  agrees with Go's Unicode simple folding on ASCII strings; all field names
  appearing in the repository are ASCII.
-/

/-- ASCII case folding of one character: `'A'..'Z'` map to `'a'..'z'`,
everything else is fixed.  Models the effect of Go's `strings.EqualFold`
folding on ASCII input. -/
def foldChar (c : Char) : Char :=
  if 'A' ≤ c ∧ c ≤ 'Z' then Char.ofNat (c.toNat + 32) else c

/-- Model of Go `strings.EqualFold s t` (restricted to ASCII folding):
the two strings are equal after case folding each character. -/
def eqFold (s t : String) : Bool :=
  s.toList.map foldChar == t.toList.map foldChar

/-- Model of a Go `float64` value as seen by comparisons: a finite value
(exact rational payload), `+Inf`, `-Inf`, or `NaN`. -/
inductive GFloat where
  | val (q : ℚ)
  | pinf
  | ninf
  | nan
  deriving Repr

/-- IEEE-754 `<` on modelled floats: any comparison involving NaN is false. -/
def GFloat.lt : GFloat → GFloat → Bool
  | .nan, _ => false
  | _, .nan => false
  | .val a, .val b => a < b
  | .val _, .pinf => true
  | .val _, .ninf => false
  | .pinf, _ => false
  | .ninf, .ninf => false
  | .ninf, _ => true

/-- IEEE-754 `≤` on modelled floats (used only to state "non-decreasing"
claims, not by the embedded code). -/
def GFloat.le : GFloat → GFloat → Bool
  | .nan, _ => false
  | _, .nan => false
  | .val a, .val b => a ≤ b
  | .val _, .pinf => true
  | .val _, .ninf => false
  | .pinf, .pinf => true
  | .pinf, _ => false
  | .ninf, _ => true

/-- A Go value as far as the reflective table code observes it: a string,
signed integer, unsigned integer, float, bool, or a struct.  A struct is an
ordered list of fields `(name, anonymous?, value)`; Go's anonymous
(embedded) fields still carry their type name as the field name. -/
inductive GValue where
  | vString (s : String)
  | vInt (n : Int)
  | vUint (n : Nat)
  | vFloat (x : GFloat)
  | vBool (b : Bool)
  | vStruct (fields : List (String × Bool × GValue))
  deriving Repr

namespace GoModel

/-! ## `types.SizeUnits` and `formatters.FormatSize`

From `src/types/types.go` (`SizeUnits`) and
`src/utils/formatters/formatters.go` (`FormatSize`).  `FormatSize` walks the
unit table from petabytes down and returns at the first unit whose size is
`≤ bytes`; the quotient is rounded to two decimals (`math.Round(v*100)/100`,
i.e. half away from zero — all values here are nonnegative) and printed with
`"%.2f %s"`.  The source's `float64` pipeline is modelled bit-exactly over
the integers.  The two inexact IEEE-754 steps are the `int64`-to-`float64`
conversion of `bytes` and the product `value*100`, both rounded to 53
significant bits with ties to even (`fl53i`); the division
`float64(bytes)/float64(size)` is exact because every unit size is a power
of two (it only shifts the exponent; no overflow or subnormals arise on
this range), so it commutes with the 53-bit roundings and the rounded
product is `fl53i (100 * fl53i bytes) / size`.  `math.Round` on the result
is half-away-from-zero on a nonnegative value, i.e.
`cent = ⌊fl53i (100 * fl53i bytes) / size + 1/2⌋` (`goCent`).  The final
`math.Round(...)/100` and `"%.2f"` print exactly the two-decimal value
`cent/100`: `cent ≤ 819200`, so the nearest `float64` to `cent/100` is
within `2⁻³⁹` of it while the neighbouring two-decimal values are `1/100`
away, and no `float64` lies exactly on a `.005` tie (those have denominator
`200`, which is not a power of two). -/

/-- Model of `types.SizeUnits`: label and size of each unit, largest first. -/
def SizeUnits : List (String × Int) :=
  [("PB", 1 <<< 50), ("TB", 1 <<< 40), ("GB", 1 <<< 30),
   ("MB", 1 <<< 20), ("KB", 1 <<< 10), ("B", 1)]

/-- Two-digit rendering of `n` (`0 ≤ n < 100`), used for the decimals. -/
def pad2 (n : Int) : String :=
  if n < 10 then "0" ++ toString n else toString n

/-- `⌊x / p⌋` rounded to the nearest integer with ties to even (`p > 0`):
the rounding mode of every IEEE-754 operation in `FormatSize`. -/
def rneDiv (x p : Int) : Int :=
  let q := x / p
  let r := x % p
  if 2 * r < p then q
  else if p < 2 * r then q + 1
  else if q % 2 = 0 then q else q + 1

/-- Fuel-driven `⌊log₂ n⌋` (`0` at `0` and `1`); the explicit fuel makes it
structurally recursive, hence kernel-computable (unlike `Nat.log2`). -/
def log2f : Nat → Nat → Nat
  | 0, _ => 0
  | fuel + 1, n => if n ≤ 1 then 0 else log2f fuel (n / 2) + 1

/-- `⌊log₂ n⌋` with the fuel instantiated. -/
def nlog2 (n : Nat) : Nat := log2f n n

/-- Rounding of a nonnegative integer to 53 significant bits, nearest with
ties to even: the value of the `float64` nearest to `x` (model of Go's
`int64`-to-`float64` conversion and of the last rounding of `value*100`,
whose exact products are integers on this range). -/
def fl53i (x : Int) : Int :=
  if x < 2 ^ 53 then x
  else rneDiv x (2 ^ (nlog2 x.toNat - 52)) * 2 ^ (nlog2 x.toNat - 52)

/-- The integer `math.Round(float64(bytes)/float64(size)*100)` of the
source, for a power-of-two `size = 2^k`: `float64(bytes)` is
`fl53i bytes`; dividing by `2^k` is exact in `float64` and commutes with
the 53-bit rounding of the `*100` product, so the rounded product is
`u / 2^k` with `u = fl53i (100 * fl53i bytes)`; `math.Round` on the
nonnegative result is `⌊u/2^k + 1/2⌋ = (2*u + 2^k) / 2^(k+1)`. -/
def goCent (bytes size : Int) : Int :=
  (2 * fl53i (100 * fl53i bytes) + 2 ^ nlog2 size.toNat) /
    2 ^ (nlog2 size.toNat + 1)

/-- The `"%.2f"` rendering of `math.Round(bytes/size*100)/100` for a
power-of-two unit size, printed as `cent/100.cent%100` — exact for the
final steps, since on this range no `float64` sits on a `.005` tie and the
nearest `float64` to `cent/100` is far closer to it than to any other
two-decimal value. -/
def renderSize (bytes size : Int) : String :=
  let cent : Int := goCent bytes size
  toString (cent / 100) ++ "." ++ pad2 (cent % 100)

/-- Model of `formatters.FormatSize` (identical to `utils.FormatSize`):
first unit with `bytes ≥ size` wins; if none (i.e. `bytes ≤ 0`), `"0 B"`. -/
def FormatSize (bytes : Int) : String :=
  match SizeUnits.find? (fun u => u.2 ≤ bytes) with
  | some u => renderSize bytes u.2 ++ " " ++ u.1
  | none => "0 B"

/-! ## `reflect.Value.FieldByNameFunc`

`createDataRow` and the sorter's comparator look fields up with
`v.FieldByNameFunc(match)`.  Go's algorithm (reflect `type.go`) is a
breadth-first search through anonymous embedded structs: at each depth it
collects every field whose name satisfies the predicate; exactly one match
at the shallowest matching depth wins, several matches make the lookup
ambiguous (no result), and when there is no match the search descends into
the anonymous struct fields of that level.  Calling it on a non-struct
value panics.  (Go additionally deduplicates by *type* identity when the
same embedded type occurs twice; in this value-level model each occurrence
is scanned, which agrees with Go whenever no embedded type repeats.) -/

mutual

/-- Executable size of a value, used as a depth bound (fuel) for the BFS. -/
def GValue.fsize : GValue → Nat
  | .vStruct fs => fsizeFields fs + 1
  | _ => 1

def fsizeFields : List (String × Bool × GValue) → Nat
  | [] => 0
  | (_, _, v) :: rest => GValue.fsize v + fsizeFields rest + 1

end

/-- Scan one struct's field list: `(matching field values, embedded struct
field lists for the next BFS level)`, both in declaration order. -/
def scanFields (p : String → Bool) :
    List (String × Bool × GValue) → List GValue × List (List (String × Bool × GValue))
  | [] => ([], [])
  | (name, anon, v) :: rest =>
    let r := scanFields p rest
    if p name then (v :: r.1, r.2)
    else
      match anon, v with
      | true, .vStruct gs => (r.1, gs :: r.2)
      | _, _ => r

/-- Breadth-first search over levels of embedded structs.  The fuel is an
upper bound on the remaining nesting depth; the entry point passes
`sizeOf v`, which strictly exceeds the depth of `v`, so fuel never runs
out on a call made by `fieldByNameFunc`. -/
def bfsLevels (p : String → Bool) : Nat → List (List (String × Bool × GValue)) → Option GValue
  | _, [] => none
  | 0, _ :: _ => none
  | fuel + 1, level =>
    let scanned := level.foldr
      (fun fs acc => ((scanFields p fs).1 ++ acc.1, (scanFields p fs).2 ++ acc.2))
      ([], [])
    match scanned.1 with
    | [v] => some v
    | [] => bfsLevels p fuel scanned.2
    | _ => none

/-- Model of `reflect.Value.FieldByNameFunc`: `none` = the Go call panics
(receiver is not a struct); `some none` = zero `Value` (no unambiguous
match); `some (some f)` = the field's value. -/
def fieldByNameFunc (v : GValue) (p : String → Bool) : Option (Option GValue) :=
  match v with
  | .vStruct fs => some (bfsLevels p (GValue.fsize v) [fs])
  | _ => none

/-! ## `results.getHeadersAndFields`

Walks the declared fields in order; an anonymous field of struct kind is
replaced by its own (recursively computed) headers and fields; every other
field contributes its name to both lists.  Non-struct input yields two
empty lists.  (The source recurses on `reflect.New(field.Type).Elem()`,
the zero value of the embedded type, which has the same field names.)
The fuel decreases on both recursive calls and strictly bounds the
recursion: `fsizeFields` shrinks when dropping the head field and when
descending into an embedded struct, so the entry point's
`fsizeFields fs + 1` never runs out (`hfFields_fuel_irrel` below). -/

def hfFields : Nat → List (String × Bool × GValue) → List String × List String
  | 0, _ => ([], [])
  | _, [] => ([], [])
  | fuel + 1, (name, anon, v) :: rest =>
    let tail := hfFields fuel rest
    match anon, v with
    | true, .vStruct gs =>
      let emb := hfFields fuel gs
      (emb.1 ++ tail.1, emb.2 ++ tail.2)
    | _, _ => (name :: tail.1, name :: tail.2)

def getHeadersAndFields : GValue → List String × List String
  | .vStruct fs => hfFields (fsizeFields fs + 1) fs
  | _ => ([], [])

/-! ## `results.createDataRow` and `results.createFooterRow` -/

/-- Model of `results.createDataRow`: one cell per requested field key.
A found field whose key case-insensitively equals `"size"` is rendered
with `formatters.FormatSize(f.Int())` — which panics (`none`) unless the
field has signed-integer kind; any other found field is emitted unchanged;
a missing field becomes the empty string.  `none` also models the
`FieldByNameFunc` panic when `data` is not a struct (and at least one key
is requested). -/
def createDataRow (data : GValue) : List String → Option (List GValue)
  | [] => some []
  | field :: rest =>
    let cell : Option GValue :=
      match fieldByNameFunc data (fun name => eqFold name field) with
      | none => none
      | some none => some (.vString "")
      | some (some f) =>
        if eqFold field "Size" then
          match f with
          | .vInt n => some (.vString (FormatSize n))
          | _ => none
        else some f
    match cell, createDataRow data rest with
    | some c, some cs => some (c :: cs)
    | _, _ => none

/-- Model of `results.createFooterRow`: exact (case-sensitive) lookup of
each header in the totals map, empty string when absent. -/
def createFooterRow (headers : List String) (totalValues : List (String × GValue)) :
    List GValue :=
  headers.map (fun header =>
    match totalValues.lookup header with
    | some v => v
    | none => .vString "")

/-- The structurally meaningful output of the renderer: the header row,
the data rows, and the optional footer row (styling is presentation). -/
structure RenderedTable where
  header : List String
  rows : List (List GValue)
  footer : Option (List GValue)
  deriving Repr

/-- The per-record data-row loop of the renderer (one row per record,
aborted — `none` — by the first panicking row). -/
def buildRows (fields : List String) : List GValue → Option (List (List GValue))
  | [] => some []
  | x :: rest =>
    match createDataRow x fields, buildRows fields rest with
    | some r, some rs => some (r :: rs)
    | _, _ => none

/-- Model of `results.GenericRenderResultsTableInterface` on a slice value
(the early-returning non-slice branch prints a diagnostic and emits no
table, so it is outside this model's input type).  On an *empty* slice the
source calls `value.Index(0)` which panics: `none`.  Headers and fields
come from the first element; one data row per element; a footer row is
appended iff `totalValues` is non-empty. -/
def GenericRenderResultsTableInterface (slice : List GValue)
    (totalValues : List (String × GValue)) : Option RenderedTable :=
  match slice with
  | [] => none
  | first :: _ =>
    let hf := getHeadersAndFields first
    match buildRows hf.2 slice with
    | none => none
    | some rows =>
      some { header := hf.1, rows := rows,
             footer := if totalValues.length > 0
                       then some (createFooterRow hf.1 totalValues) else none }


/-! ## Go's `sort.Slice` (pdqsort)

`GenericSortInterface` delegates the reordering to `sort.Slice`, which since
Go 1.19 is the pattern-defeating quicksort of `src/sort/zsortfunc.go`
(`pdqsort_func` and its helpers); the repository's CI pins `go-version:
stable`.  The functions below embed that algorithm over the slice's backing
store, modelled as a `List α` read through `rd` (out-of-range positions
read the default element and are never touched by calls reachable from the
entry point), with a comparator `c : α → α → Bool` (`data.Less` reads the
store at call time, as the reflect-based swapper mutates the same backing
array).  Every Go loop is a structurally recursive function; loops whose
counter does not directly count toward a bound carry explicit fuel, and
each call site passes fuel that the loop provably cannot exhaust (each
iteration moves the counter toward the bound, which the fuel covers).
Go's `int` indices are `Nat` here; `scanDown` uses the `jj = j + 1`
encoding so that its `j = -1` exit is `jj = 0`. -/

variable {α : Type} [Inhabited α] {σ : Type}

/-- Read position `i` of the backing store. -/
def rd (l : List α) (i : Nat) : α := l.getD i default

/-- Go's `data.Swap(i, j)` on the backing store. -/
def swapL (l : List α) (i j : Nat) : List α :=
  (l.set i (rd l j)).set j (rd l i)

/-- Descending loop combinator: applies `step` at `stop+num-1, …, stop`
(i.e. `for i := stop+num-1; i >= stop; i--` for nonnegative indices). -/
def loopDown (step : Nat → σ → σ) (stop : Nat) : Nat → σ → σ
  | 0, s => s
  | num + 1, s => loopDown step stop num (step (stop + num) s)

/-- The inner loop of `insertionSort_func`:
`for j := i; j > a && data.Less(j, j-1); j--`, started at `j = i`. -/
def insertInner (c : α → α → Bool) (a : Nat) : Nat → List α → List α
  | 0, l => l
  | j + 1, l =>
    if a < j + 1 ∧ c (rd l (j + 1)) (rd l j)
    then insertInner c a j (swapL l (j + 1) j) else l

/-- The outer loop of `insertionSort_func` (`for i := a+1; i < b; i++`). -/
def insLoop (c : α → α → Bool) (a b : Nat) : Nat → Nat → List α → List α
  | 0, _i, l => l
  | fuel + 1, i, l =>
    if i < b then insLoop c a b fuel (i + 1) (insertInner c a i l) else l

/-- Model of `insertionSort_func(data, a, b)`. -/
def insertionSort (c : α → α → Bool) (a b : Nat) (l : List α) : List α :=
  insLoop c a b b (a + 1) l

/-- Model of `siftDown_func(data, root, hi, first)`; the fuel covers the root's
strict descent toward `hi`. -/
def siftDown (c : α → α → Bool) (hi first : Nat) : Nat → Nat → List α → List α
  | 0, _root, l => l
  | fuel + 1, root, l =>
    if 2 * root + 1 < hi then
      let child :=
        if 2 * root + 2 < hi ∧ c (rd l (first + (2 * root + 1))) (rd l (first + (2 * root + 2)))
        then 2 * root + 2 else 2 * root + 1
      if c (rd l (first + root)) (rd l (first + child))
      then siftDown c hi first fuel child (swapL l (first + root) (first + child))
      else l
    else l

/-- Model of `heapSort_func(data, a, b)`: build a max-heap, then pop to the end. -/
def heapSort (c : α → α → Bool) (a b : Nat) (l : List α) : List α :=
  let hi := b - a
  let l := loopDown (fun i l => siftDown c hi a hi i l) 0 ((hi - 1) / 2 + 1) l
  loopDown (fun i l => siftDown c i a i 0 (swapL l a (a + i))) 1 (hi - 1) l

/-- Pure upward scan `for i <= j && cond(i) { i++ }` in the `jj = j + 1`
encoding; the fuel covers the distance to `jj`. -/
def scanUp (cond : Nat → Bool) (jj : Nat) : Nat → Nat → Nat
  | 0, i => i
  | fuel + 1, i => if i + 1 ≤ jj ∧ cond i then scanUp cond jj fuel (i + 1) else i

/-- Pure downward scan `for i <= j && cond(j) { j-- }` in the `jj = j + 1`
encoding (`jj = 0` is Go's `j = -1`); returns the final `jj`. -/
def scanDown (cond : Nat → Bool) (i : Nat) : Nat → Nat
  | 0 => 0
  | jj + 1 => if i ≤ jj ∧ cond jj then scanDown cond i jj else jj + 1

/-- The swapping loop of `partition_func` after the first exchange; each
iteration advances `i`, so fuel `b` at the call site suffices. -/
def partitionLoop (c : α → α → Bool) (a : Nat) :
    Nat → Nat → Nat → List α → Nat × List α
  | 0, _i, jj, l => (jj - 1, l)
  | fuel + 1, i, jj, l =>
    let i := scanUp (fun k => c (rd l k) (rd l a)) jj jj i
    let jj := scanDown (fun k => ¬ c (rd l k) (rd l a)) i jj
    if jj ≤ i then (jj - 1, swapL l (jj - 1) a)
    else partitionLoop c a fuel (i + 1) (jj - 1) (swapL l i (jj - 1))

/-- Model of `partition_func(data, a, b, pivot)`: returns
`(newpivot, alreadyPartitioned, data')`. -/
def partition (c : α → α → Bool) (a b pivot : Nat) (l : List α) :
    Nat × Bool × List α :=
  let l := swapL l a pivot
  let i := scanUp (fun k => c (rd l k) (rd l a)) b b (a + 1)
  let jj := scanDown (fun k => ¬ c (rd l k) (rd l a)) i b
  if jj ≤ i then (jj - 1, true, swapL l (jj - 1) a)
  else
    let r := partitionLoop c a b (i + 1) (jj - 1) (swapL l i (jj - 1))
    (r.1, false, r.2)

/-- The swapping loop of `partitionEqual_func`; same fuel discipline. -/
def partitionEqualLoop (c : α → α → Bool) (a : Nat) :
    Nat → Nat → Nat → List α → Nat × List α
  | 0, i, _jj, l => (i, l)
  | fuel + 1, i, jj, l =>
    let i := scanUp (fun k => ¬ c (rd l a) (rd l k)) jj jj i
    let jj := scanDown (fun k => c (rd l a) (rd l k)) i jj
    if jj ≤ i then (i, l)
    else partitionEqualLoop c a fuel (i + 1) (jj - 1) (swapL l i (jj - 1))

/-- Model of `partitionEqual_func(data, a, b, pivot)`: moves elements equal to the
pivot to the front, returns `(newpivot, data')`. -/
def partitionEqual (c : α → α → Bool) (a b pivot : Nat) (l : List α) :
    Nat × List α :=
  let l := swapL l a pivot
  partitionEqualLoop c a b (a + 1) b l

/-- The scan of `partialInsertionSort_func`:
`for i < b && !data.Less(i, i-1) { i++ }`. -/
def partialScan (c : α → α → Bool) (b : Nat) : Nat → Nat → List α → Nat
  | 0, i, _l => i
  | fuel + 1, i, l =>
    if i < b ∧ ¬ c (rd l i) (rd l (i - 1)) then partialScan c b fuel (i + 1) l else i

/-- The left shift of `partialInsertionSort_func`:
`for j := i-1; j >= 1; j-- { if !Less(j, j-1) break; Swap(j, j-1) }`
(note the Go bound is `j >= 1`, not `j > a`). -/
def shiftLeft (c : α → α → Bool) : Nat → List α → List α
  | 0, l => l
  | j + 1, l =>
    if c (rd l (j + 1)) (rd l j) then shiftLeft c j (swapL l (j + 1) j) else l

/-- The right shift of `partialInsertionSort_func`:
`for j := i+1; j < b; j++ { if !Less(j, j-1) break; Swap(j, j-1) }`. -/
def shiftRight (c : α → α → Bool) (b : Nat) : Nat → Nat → List α → List α
  | 0, _j, l => l
  | fuel + 1, j, l =>
    if j < b ∧ c (rd l j) (rd l (j - 1))
    then shiftRight c b fuel (j + 1) (swapL l j (j - 1)) else l

/-- The `maxSteps`-bounded outer loop of `partialInsertionSort_func`
(`maxSteps = 5`, `shortestShifting = 50`). -/
def pisLoop (c : α → α → Bool) (a b : Nat) : Nat → Nat → List α → Bool × List α
  | 0, _i, l => (false, l)
  | steps + 1, i, l =>
    let i := partialScan c b b i l
    if i = b then (true, l)
    else if b - a < 50 then (false, l)
    else
      let l := swapL l i (i - 1)
      let l := if 2 ≤ i - a then shiftLeft c (i - 1) l else l
      let l := if 2 ≤ b - i then shiftRight c b b (i + 1) l else l
      pisLoop c a b steps i l

/-- Model of `partialInsertionSort_func(data, a, b)`: returns `(sorted?, data')`. -/
def partialInsertionSort (c : α → α → Bool) (a b : Nat) (l : List α) :
    Bool × List α :=
  pisLoop c a b 5 (a + 1) l

/-- The loop of `reverseRange_func`. -/
def revLoop : Nat → Nat → Nat → List α → List α
  | 0, _i, _j, l => l
  | fuel + 1, i, j, l => if i < j then revLoop fuel (i + 1) (j - 1) (swapL l i j) else l

/-- Model of `reverseRange_func(data, a, b)`. -/
def reverseRange (a b : Nat) (l : List α) : List α :=
  revLoop b a (b - 1) l

/-- Go's `bits.Len` for nonnegative input. -/
def bitsLen (n : Nat) : Nat := if n = 0 then 0 else Nat.log2 n + 1

/-- Truncation to 64 bits. -/
def mask64 (n : Nat) : Nat := n % (2 ^ 64)

/-- Go's `xorshift.Next` on a `uint64` state. -/
def xorshiftNext (r : Nat) : Nat :=
  let r := mask64 (Nat.xor r (mask64 (r <<< 13)))
  let r := Nat.xor r (r >>> 7)
  mask64 (Nat.xor r (mask64 (r <<< 17)))

/-- Model of `breakPatterns_func(data, a, b)`: scatter three elements using the
xorshift generator seeded with the length (`nextPowerOfTwo` is
`1 << bits.Len`). -/
def breakPatterns (a b : Nat) (l : List α) : List α :=
  let length := b - a
  if 8 ≤ length then
    let modulus := 1 <<< bitsLen length
    let idx := a + length / 4 * 2 - 1
    let step := fun (st : Nat × List α) (i : Nat) =>
      let random := xorshiftNext st.1
      let other := random &&& (modulus - 1)
      let other := if length ≤ other then other - length else other
      (random, swapL st.2 (idx - 1 + i) (a + other))
    let st := step (length, l) 0
    let st := step st 1
    (step st 2).2
  else l

/-- Sortedness hints of `choosePivot_func`. -/
inductive SortHint where
  | increasing
  | decreasing
  | unknown
  deriving DecidableEq, Repr

/-- Model of `order2_func`: order two indices by the data, counting swaps. -/
def order2 (c : α → α → Bool) (l : List α) (a b : Nat) (swaps : Nat) :
    Nat × Nat × Nat :=
  if c (rd l b) (rd l a) then (b, a, swaps + 1) else (a, b, swaps)

/-- Model of `median_func`: index of the median of three, counting swaps. -/
def median (c : α → α → Bool) (l : List α) (a b cc : Nat) (swaps : Nat) :
    Nat × Nat :=
  let r1 := order2 c l a b swaps
  let r2 := order2 c l r1.2.1 cc r1.2.2
  let r3 := order2 c l r1.1 r2.1 r2.2.2
  (r3.2.1, r3.2.2)

/-- Model of `medianAdjacent_func`: median of `data[a-1], data[a], data[a+1]`. -/
def medianAdjacent (c : α → α → Bool) (l : List α) (a : Nat) (swaps : Nat) :
    Nat × Nat :=
  median c l (a - 1) a (a + 1) swaps

/-- Model of `choosePivot_func(data, a, b)` (`shortestNinther = 50`,
`maxSwaps = 12`): pivot index and sortedness hint. -/
def choosePivot (c : α → α → Bool) (a b : Nat) (l : List α) : Nat × SortHint :=
  let len := b - a
  let i := a + len / 4 * 1
  let j := a + len / 4 * 2
  let k := a + len / 4 * 3
  let r :=
    if 8 ≤ len then
      if 50 ≤ len then
        let ri := medianAdjacent c l i 0
        let rj := medianAdjacent c l j ri.2
        let rk := medianAdjacent c l k rj.2
        median c l ri.1 rj.1 rk.1 rk.2
      else
        median c l i j k 0
    else (j, 0)
  let hint := if r.2 = 0 then SortHint.increasing
              else if r.2 = 12 then SortHint.decreasing
              else SortHint.unknown
  (r.1, hint)

/-- The main loop of `pdqsort_func(data, a, b, limit)`
(`maxInsertion = 12`).  Fuel decreases once per loop iteration and per
recursive call; every such step strictly shrinks `b - a`, so the entry
point's `fuel = n + 1` can never run out. -/
def pdqsortLoop (c : α → α → Bool) :
    Nat → Nat → Nat → Nat → Bool → Bool → List α → List α
  | 0, _a, _b, _limit, _wasBalanced, _wasPartitioned, l => l
  | fuel + 1, a, b, limit, wasBalanced, wasPartitioned, l =>
    let length := b - a
    if length ≤ 12 then insertionSort c a b l
    else if limit = 0 then heapSort c a b l
    else
      let gl := if ¬ wasBalanced then (breakPatterns a b l, limit - 1) else (l, limit)
      let l := gl.1
      let limit := gl.2
      let ph := choosePivot c a b l
      let phl := if ph.2 = SortHint.decreasing
                 then ((b - 1) - (ph.1 - a), SortHint.increasing, reverseRange a b l)
                 else (ph.1, ph.2, l)
      let pivot := phl.1
      let hint := phl.2.1
      let l := phl.2.2
      let pres := if wasBalanced ∧ wasPartitioned ∧ hint = SortHint.increasing
                  then partialInsertionSort c a b l
                  else (false, l)
      if pres.1 then pres.2
      else
        let l := pres.2
        if 0 < a ∧ ¬ c (rd l (a - 1)) (rd l pivot) then
          let pe := partitionEqual c a b pivot l
          pdqsortLoop c fuel pe.1 b limit wasBalanced wasPartitioned pe.2
        else
          let pr := partition c a b pivot l
          let mid := pr.1
          let wasPartitioned := pr.2.1
          let l := pr.2.2
          let leftLen := mid - a
          let rightLen := b - mid
          let wasBalanced := decide (length / 8 ≤ min leftLen rightLen)
          if leftLen < rightLen then
            let l := pdqsortLoop c fuel a mid limit true true l
            pdqsortLoop c fuel (mid + 1) b limit wasBalanced wasPartitioned l
          else
            let l := pdqsortLoop c fuel (mid + 1) b limit true true l
            pdqsortLoop c fuel a mid limit wasBalanced wasPartitioned l

/-- Entry point: `sort.Slice`'s call `pdqsort_func(data, 0, n, bits.Len(uint(n)))`. -/
def pdqsort (c : α → α → Bool) (n : Nat) (l : List α) : List α :=
  pdqsortLoop c (n + 1) 0 n (bitsLen n) true true l

/-! ## `results.GenericSortInterface` -/

/-- Model of `reflect.Value.String()`: the string payload for string kinds, and the
diagnostic `"<T Value>"` for every other kind (it never panics).  The model
labels each kind with its widest Go type name; the modelled code only ever
reaches the non-string branches on kind-mixed data. -/
def reflectString : GValue → String
  | .vString s => s
  | .vInt _ => "<int64 Value>"
  | .vUint _ => "<uint64 Value>"
  | .vFloat _ => "<float64 Value>"
  | .vBool _ => "<bool Value>"
  | .vStruct _ => "<struct Value>"

/-- The comparator closure of `GenericSortInterface` for elements `x, y`:
field lookup by case-insensitive name on both sides, early `false` when
either lookup has no result, kind dispatch on the left field (`.Int()`,
`.Uint()`, `.Float()` panic — `none` — when the right field's kind does
not match; the `default` case returns `false` *before* the descending
inversion), and `!less` under `sortDescending`. -/
def sortLess (col : String) (desc : Bool) (x y : GValue) : Option Bool :=
  let inv := fun (b : Bool) => if desc then !b else b
  match fieldByNameFunc x (fun name => eqFold name col),
        fieldByNameFunc y (fun name => eqFold name col) with
  | none, _ => none
  | some _, none => none
  | some fi, some fj =>
    match fi, fj with
    | some fi, some fj =>
      match fi with
      | .vString s => some (inv (decide (s < reflectString fj)))
      | .vInt n =>
        match fj with
        | .vInt m => some (inv (decide (n < m)))
        | _ => none
      | .vUint n =>
        match fj with
        | .vUint m => some (inv (decide (n < m)))
        | _ => none
      | .vFloat xf =>
        match fj with
        | .vFloat yf => some (inv (GFloat.lt xf yf))
        | _ => none
      | _ => some false
    | _, _ => some false

instance : Inhabited GValue := ⟨GValue.vBool false⟩

/-- Model of `results.GenericSortInterface` on a slice value (the
non-slice branch returns without touching the input and is outside this
model's input type).  `none` models a Go panic raised by the comparator:
`FieldByNameFunc` on a non-struct element, or a `.Int()`/`.Uint()`/
`.Float()` call on a field of mismatched kind.  `sort.Slice` evaluates the
comparator on data-dependent index pairs; the model instead checks every
pair up front, which is exact whenever all elements share one shape (in
particular for every slice of a homogeneous Go element type, and for all
inputs analysed in this development) and otherwise errs toward reporting a
panic.  With fewer than two elements the comparator is never invoked. -/
def GenericSortInterface (slice : List GValue) (col : String) (desc : Bool) :
    Option (List GValue) :=
  if slice.length ≤ 1 then some slice
  else if slice.all (fun x => slice.all (fun y => (sortLess col desc x y).isSome)) then
    some (pdqsort (fun x y => (sortLess col desc x y).getD false) slice.length slice)
  else none

end GoModel

/-! # Claim-side (specification) definitions -/

namespace SpecSide

open GoModel

/-- Claim-side unit selection, following the spec text: the largest unit
whose size is `≤` the value, among B = 1, KB = 2^10, MB = 2^20, GB = 2^30,
TB = 2^40, PB = 2^50. -/
def specUnit (b : Int) : String × Int :=
  if 2 ^ 50 ≤ b then ("PB", 2 ^ 50)
  else if 2 ^ 40 ≤ b then ("TB", 2 ^ 40)
  else if 2 ^ 30 ≤ b then ("GB", 2 ^ 30)
  else if 2 ^ 20 ≤ b then ("MB", 2 ^ 20)
  else if 2 ^ 10 ≤ b then ("KB", 2 ^ 10)
  else ("B", 1)

/-- Claim-side rendering for positive byte counts: divide by the selected
unit, round to two decimals (Mathlib's `round`, i.e. half up — identical
to half away from zero on these positive values), and print the exact
two-decimal result as `"<value> <UNIT>"`. -/
def specFormatSize (b : Int) : String :=
  let u := specUnit b
  let cent : Int := round ((b : ℚ) * 100 / u.2)
  toString (cent / 100) ++ "." ++ pad2 (cent % 100) ++ " " ++ u.1

/-- Claim-side field access: the value of the field named `col`
(case-insensitively) on record `r`, when the lookup neither panics nor
misses. -/
def fieldOf (r : GValue) (col : String) : Option GValue :=
  match GoModel.fieldByNameFunc r (fun n => eqFold n col) with
  | some (some f) => some f
  | _ => none

/-- Claim-side per-kind `≤` on field values (IEEE `≤` for floats,
lexicographic for strings); `false` across kinds. -/
def vLe : GValue → GValue → Bool
  | .vInt n, .vInt m => n ≤ m
  | .vUint n, .vUint m => n ≤ m
  | .vFloat x, .vFloat y => GFloat.le x y
  | .vString s, .vString t => s ≤ t
  | _, _ => false

/-- Claim-side `≤` between two records on the field `col`. -/
def keyLe (col : String) (x y : GValue) : Bool :=
  match fieldOf x col, fieldOf y col with
  | some a, some b => vLe a b
  | _, _ => false

/-- Claim-side "the list is non-decreasing in the field `col`". -/
def chainLe (col : String) : List GValue → Bool
  | [] => true
  | [_] => true
  | x :: y :: rest => keyLe col x y && chainLe col (y :: rest)

/-- Claim-side "the list is non-increasing in the field `col`". -/
def chainGe (col : String) : List GValue → Bool
  | [] => true
  | [_] => true
  | x :: y :: rest => keyLe col y x && chainGe col (y :: rest)

/-- Claim-side "record `r`'s `col` field compares equal to the value `k`"
(mutually `≤`, which on the supported kinds is exactly "neither is less
than the other"; unsupported kinds are never tied). -/
def sameKey (col : String) (k : GValue) (r : GValue) : Bool :=
  match fieldOf r col with
  | some v => vLe v k && vLe k v
  | none => false

end SpecSide

namespace GoModel

section SortApparatus

variable {α : Type} [Inhabited α]

/-! ## Sortedness proof apparatus -/

/-- Comparator `c` decides the total preorder `R` on values satisfying `S`. -/
structure RelOK (c : α → α → Bool) (S : α → Prop) (R : α → α → Prop) : Prop where
  h1 : ∀ x y, S x → S y → c x y = true → R x y
  h2 : ∀ x y, S x → S y → c x y = false → R y x
  tr : ∀ x y z, S x → S y → S z → R x y → R y z → R x z

/-- Every position below `b` holds a value satisfying `S`. -/
def Good (S : α → Prop) (b : Nat) (l : List α) : Prop :=
  ∀ k, k < b → S (rd l k)

/-- Every value left of `a` is an `R`-lower bound of the segment `[a, b)`. -/
def LbOn (R : α → α → Prop) (a b : Nat) (l : List α) : Prop :=
  ∀ k, k < a → ∀ m, a ≤ m → m < b → R (rd l k) (rd l m)

/-- Adjacent positions of `[a, b)` are `R`-related upward. -/
def ChainOn (R : α → α → Prop) (a b : Nat) (l : List α) : Prop :=
  ∀ i, a ≤ i → i + 1 < b → R (rd l i) (rd l (i + 1))

/-- How a sorting pass may transform the store: length and the suffix from `b`
are untouched, positions left of `a` are only replaced by `R`-equivalent
values, `R`-bounds of the segment `[a, b)` are preserved in both directions,
and so is every pointwise property of the values below `b`. -/
structure SegInv (S : α → Prop) (R : α → α → Prop) (a b : Nat) (l0 l1 : List α) : Prop where
  len : l1.length = l0.length
  outer : ∀ k, b ≤ k → rd l1 k = rd l0 k
  leftF : ∀ k, k < a → R (rd l1 k) (rd l0 k)
  leftB : ∀ k, k < a → R (rd l0 k) (rd l1 k)
  ub : ∀ v, S v → (∀ k, a ≤ k → k < b → R (rd l0 k) v) →
      ∀ k, a ≤ k → k < b → R (rd l1 k) v
  lb : ∀ v, S v → (∀ k, a ≤ k → k < b → R v (rd l0 k)) →
      ∀ k, a ≤ k → k < b → R v (rd l1 k)
  keep : ∀ P : α → Prop, (∀ k, k < b → P (rd l0 k)) → ∀ k, k < b → P (rd l1 k)

end SortApparatus

/-- The numeric field kinds named by the sortedness claim. -/
inductive NKind where
  | int
  | uint
  | flt

/-- Whether a field value has the given numeric kind; every float except NaN
qualifies as numeric for ordering purposes. -/
def kindIs : NKind → GValue → Bool
  | .int, .vInt _ => true
  | .uint, .vUint _ => true
  | .flt, .vFloat (.val _) => true
  | .flt, .vFloat .pinf => true
  | .flt, .vFloat .ninf => true
  | _, _ => false

/-- The record has a field case-insensitively named `col` whose value has
numeric kind `K`. -/
def recOK (col : String) (K : NKind) (r : GValue) : Bool :=
  match SpecSide.fieldOf r col with
  | some v => kindIs K v
  | none => false

end GoModel

namespace GoModel

/-! # Supporting lemmas -/

theorem sizeUnits_expand :
    SizeUnits = [("PB", 2 ^ 50), ("TB", 2 ^ 40), ("GB", 2 ^ 30),
                 ("MB", 2 ^ 20), ("KB", 2 ^ 10), ("B", 1)] := by decide

theorem cent_eq (b s : Int) (hb : 1 ≤ b) (hs : 1 ≤ s) :
    (200 * b + s) / (2 * s) = round ((b : ℚ) * 100 / s) := by
  have hs0 : (s : ℚ) ≠ 0 := Int.cast_ne_zero.mpr (by omega)
  have hd : ((2 * s).toNat : ℤ) = 2 * s := Int.toNat_of_nonneg (by omega)
  have key : (b : ℚ) * 100 / s + 1 / 2 = ((200 * b + s : ℤ) : ℚ) / (((2 * s).toNat : ℕ) : ℚ) := by
    have hcast : (((2 * s).toNat : ℕ) : ℚ) = ((2 * s : ℤ) : ℚ) := by
      exact_mod_cast congrArg (fun z : ℤ => (z : ℚ)) hd
    rw [hcast]
    have h2s : ((2 * s : ℤ) : ℚ) ≠ 0 := Int.cast_ne_zero.mpr (by omega)
    field_simp
    push_cast
    ring
  rw [round_eq, key, Rat.floor_intCast_div_natCast, hd]

theorem specUnit_pos (b : Int) : 1 ≤ (SpecSide.specUnit b).2 := by
  unfold SpecSide.specUnit
  repeat' split
  all_goals norm_num

theorem fl53i_small (x : Int) (hx : x < 2 ^ 53) : fl53i x = x := by
  rw [fl53i, if_pos hx]

theorem goCent_small (b s : Int) (k : ℕ) (hb : 1 ≤ b)
    (hsm : 100 * b < 2 ^ 53) (hs : s = 2 ^ k) (hk : nlog2 s.toNat = k) :
    goCent b s = (200 * b + s) / (2 * s) := by
  have h53 : (2 : ℤ) ^ 53 = 9007199254740992 := by norm_num
  have hb53 : b < 2 ^ 53 := by omega
  rw [goCent, hk, fl53i_small b hb53, fl53i_small _ hsm, hs]
  congr 1
  · ring
  · rw [pow_succ]; ring

theorem specUnit_pow (b : Int) :
    ∃ k : ℕ, (SpecSide.specUnit b).2 = 2 ^ k ∧
      nlog2 (SpecSide.specUnit b).2.toNat = k := by
  unfold SpecSide.specUnit
  repeat' split
  exacts [⟨50, by norm_num, by decide⟩, ⟨40, by norm_num, by decide⟩,
    ⟨30, by norm_num, by decide⟩, ⟨20, by norm_num, by decide⟩,
    ⟨10, by norm_num, by decide⟩, ⟨0, by norm_num, by decide⟩]

theorem find?_eq_specUnit (b : Int) (hb : 1 ≤ b) :
    SizeUnits.find? (fun u => u.2 ≤ b) = some (SpecSide.specUnit b) := by
  rw [sizeUnits_expand]; unfold SpecSide.specUnit
  by_cases h50 : (2 : Int) ^ 50 ≤ b
  · rw [List.find?_cons_of_pos _ (by simpa using h50), if_pos h50]
  · rw [List.find?_cons_of_neg _ (by simpa using h50), if_neg h50]
    by_cases h40 : (2 : Int) ^ 40 ≤ b
    · rw [List.find?_cons_of_pos _ (by simpa using h40), if_pos h40]
    · rw [List.find?_cons_of_neg _ (by simpa using h40), if_neg h40]
      by_cases h30 : (2 : Int) ^ 30 ≤ b
      · rw [List.find?_cons_of_pos _ (by simpa using h30), if_pos h30]
      · rw [List.find?_cons_of_neg _ (by simpa using h30), if_neg h30]
        by_cases h20 : (2 : Int) ^ 20 ≤ b
        · rw [List.find?_cons_of_pos _ (by simpa using h20), if_pos h20]
        · rw [List.find?_cons_of_neg _ (by simpa using h20), if_neg h20]
          by_cases h10 : (2 : Int) ^ 10 ≤ b
          · rw [List.find?_cons_of_pos _ (by simpa using h10), if_pos h10]
          · rw [List.find?_cons_of_neg _ (by simpa using h10), if_neg h10]
            rw [List.find?_cons_of_pos _ (by simpa using hb)]

theorem formatSize_eq_spec (b : Int) (hb : 1 ≤ b) (hsm : 100 * b < 2 ^ 53) :
    FormatSize b = SpecSide.specFormatSize b := by
  obtain ⟨k, hs, hk⟩ := specUnit_pow b
  rw [FormatSize, find?_eq_specUnit b hb]
  unfold SpecSide.specFormatSize renderSize
  dsimp only
  rw [goCent_small b _ k hb hsm hs hk, cent_eq b _ hb (specUnit_pos b)]

end GoModel

/-! # Claim theorems -/

/-- C5, refuted as stated: the claimed rule — divide by the largest unit
whose size is `≤ b` and round the quotient to two decimals — does not hold
for every `b ≥ 1`.  At `b = 360546355422167` the product `value*100`
computed in `float64` needs 56 bits and its 53-bit rounding ties to even
*upwards*, landing exactly on `32791.5`, which `math.Round` lifts to
`32792`: the program prints `"327.92 TB"` while the exact rule gives
`⌊b*100/2^40 + 1/2⌋ = 32791`, i.e. `"327.91 TB"`. -/
theorem C5_counterexample :
    1 ≤ (360546355422167 : Int) ∧
    GoModel.FormatSize 360546355422167 = "327.92 TB" ∧
    SpecSide.specFormatSize 360546355422167 = "327.91 TB" ∧
    GoModel.FormatSize 360546355422167 ≠ SpecSide.specFormatSize 360546355422167 := by
  have hspec : SpecSide.specFormatSize 360546355422167 = "327.91 TB" := by
    unfold SpecSide.specFormatSize
    rw [show SpecSide.specUnit 360546355422167 = ("TB", 2 ^ 40) from by decide]
    dsimp only
    rw [← GoModel.cent_eq 360546355422167 (2 ^ 40) (by decide) (by decide)]
    decide
  exact ⟨by decide, by decide, hspec, by rw [hspec]; decide⟩

/-- C5 (amended): the claimed selection, rounding and rendering rule holds
for every `b ≥ 1` with `100 * b < 2^53` (i.e. up to `90071992547409` bytes,
about 81.9 TB), where the `float64` pipeline computes `b*100/size` exactly;
and the claim's concrete scenarios hold: `FormatSize 0 = "0 B"` with no
decimals, `FormatSize 1024 = "1.00 KB"`, and
`FormatSize 1125899906842624 = "1.00 PB"`. -/
theorem C5_amended_formatSize :
    (∀ b : Int, 1 ≤ b → 100 * b < 2 ^ 53 →
      GoModel.FormatSize b = SpecSide.specFormatSize b) ∧
    GoModel.FormatSize 0 = "0 B" ∧
    GoModel.FormatSize 1024 = "1.00 KB" ∧
    GoModel.FormatSize 1125899906842624 = "1.00 PB" :=
  ⟨fun b hb hsm => GoModel.formatSize_eq_spec b hb hsm, by decide, by decide, by decide⟩

/-- Witness for the amended C5 at `b = 1024`. -/
theorem C5_amended_formatSize_witness :
    (1 ≤ (1024 : Int) ∧ 100 * 1024 < (2 : Int) ^ 53) ∧
    GoModel.FormatSize 1024 = SpecSide.specFormatSize 1024 :=
  ⟨⟨by decide, by decide⟩, C5_amended_formatSize.1 1024 (by decide) (by decide)⟩

/-- C10: for every negative byte count, `FormatSize` returns `"0 B"` — the
same rendering as for exact zero — because no unit threshold down to
B = 1 is met. -/
theorem C10_formatSize_negative :
    (∀ b : Int, b < 0 → GoModel.FormatSize b = "0 B") ∧
    GoModel.FormatSize 0 = "0 B" := by
  constructor
  · intro b hbneg
    rw [GoModel.FormatSize]
    have hnone : GoModel.SizeUnits.find? (fun u => u.2 ≤ b) = none := by
      rw [GoModel.sizeUnits_expand]
      refine List.find?_eq_none.mpr ?_
      intro u hu
      fin_cases hu <;> simp only [decide_eq_true_eq] <;> omega
    rw [hnone]
  · decide

/-- Witness for C10 at `b = -7`. -/
theorem C10_formatSize_negative_witness :
    (-7 : Int) < 0 ∧ GoModel.FormatSize (-7) = "0 B" :=
  ⟨by decide, C10_formatSize_negative.1 (-7) (by decide)⟩

namespace GoModel

theorem fsize_pos (v : GValue) : 1 ≤ GValue.fsize v := by
  cases v <;> simp [GValue.fsize]

theorem hfFields_nil (fuel : Nat) : hfFields fuel [] = ([], []) := by
  cases fuel <;> rfl

theorem hfFields_cons_false (fuel : Nat) (name : String) (v : GValue)
    (rest : List (String × Bool × GValue)) :
    hfFields (fuel + 1) ((name, false, v) :: rest) =
      (name :: (hfFields fuel rest).1, name :: (hfFields fuel rest).2) := by
  simp [hfFields]

theorem hfFields_cons_emb (fuel : Nat) (name : String)
    (gs rest : List (String × Bool × GValue)) :
    hfFields (fuel + 1) ((name, true, GValue.vStruct gs) :: rest) =
      ((hfFields fuel gs).1 ++ (hfFields fuel rest).1,
       (hfFields fuel gs).2 ++ (hfFields fuel rest).2) := by
  simp [hfFields]

end GoModel

/-- C7: on a record with one anonymous embedded substructure holding two
plain fields `A`, `B`, followed by one direct field `C`, the introspector
yields headers (and keys) `[A, B, C]`: the embed's fields are spliced in
place of the embedded field, in declared order, followed by the remaining
direct field, with no prefixing. -/
theorem C7_introspector_flattens (embName nA nB nC : String) (va vb vc : GValue) :
    GoModel.getHeadersAndFields
        (GValue.vStruct
          [(embName, true, GValue.vStruct [(nA, false, va), (nB, false, vb)]),
           (nC, false, vc)]) =
      ([nA, nB, nC], [nA, nB, nC]) := by
  have h1 := GoModel.fsize_pos va
  have h2 := GoModel.fsize_pos vb
  have h3 := GoModel.fsize_pos vc
  simp only [GoModel.getHeadersAndFields]
  obtain ⟨m, hm⟩ : ∃ m,
      GoModel.fsizeFields
        [(embName, true, GValue.vStruct [(nA, false, va), (nB, false, vb)]),
         (nC, false, vc)] = m + 8 := by
    refine ⟨GoModel.GValue.fsize va + GoModel.GValue.fsize vb + GoModel.GValue.fsize vc - 3, ?_⟩
    simp [GoModel.fsizeFields, GoModel.GValue.fsize]
    omega
  rw [hm]
  rw [GoModel.hfFields_cons_emb, GoModel.hfFields_cons_false,
      GoModel.hfFields_cons_false, GoModel.hfFields_nil,
      GoModel.hfFields_cons_false, GoModel.hfFields_nil]
  simp

/-- C6: the row materializer emits, per key: the raw field value when found
and not the size special case; the `FormatSize` rendering when the key
case-insensitively equals `"size"` and the field holds a signed integer;
and an empty string when no field matches.  In particular
`{Name:"test.txt", Size:1024}` against `[Name, Size]` gives
`["test.txt", "1.00 KB"]`, and `{Name:"Bob", Age:25}` against
`[Name, Age, NonExistentField]` gives `["Bob", 25, ""]`. -/
theorem C6_rowMaterializer :
    (GoModel.createDataRow
        (GValue.vStruct
          [("Name", false, GValue.vString "test.txt"), ("Size", false, GValue.vInt 1024)])
        ["Name", "Size"]
      = some [GValue.vString "test.txt", GValue.vString "1.00 KB"]) ∧
    (GoModel.createDataRow
        (GValue.vStruct
          [("Name", false, GValue.vString "Bob"), ("Age", false, GValue.vInt 25)])
        ["Name", "Age", "NonExistentField"]
      = some [GValue.vString "Bob", GValue.vInt 25, GValue.vString ""]) ∧
    (∀ data key, GoModel.fieldByNameFunc data (fun n => eqFold n key) = some none →
      GoModel.createDataRow data [key] = some [GValue.vString ""]) ∧
    (∀ data key f, GoModel.fieldByNameFunc data (fun n => eqFold n key) = some (some f) →
      eqFold key "Size" = false →
      GoModel.createDataRow data [key] = some [f]) ∧
    (∀ data key n, GoModel.fieldByNameFunc data (fun m => eqFold m key) = some (some (GValue.vInt n)) →
      eqFold key "Size" = true →
      GoModel.createDataRow data [key] = some [GValue.vString (GoModel.FormatSize n)]) := by
  refine ⟨by rfl, by rfl, ?_, ?_, ?_⟩
  · intro data key h
    simp [GoModel.createDataRow, h]
  · intro data key f h hsz
    simp [GoModel.createDataRow, h, hsz]
  · intro data key n h hsz
    simp [GoModel.createDataRow, h, hsz]

/-- Witness for C6's conditional parts, at the missing-field scenario of
the claim (`{Name:"Bob", Age:25}`, key `"NonExistentField"`). -/
theorem C6_rowMaterializer_witness :
    GoModel.fieldByNameFunc
        (GValue.vStruct [("Name", false, GValue.vString "Bob"), ("Age", false, GValue.vInt 25)])
        (fun n => eqFold n "NonExistentField") = some none ∧
    GoModel.createDataRow
        (GValue.vStruct [("Name", false, GValue.vString "Bob"), ("Age", false, GValue.vInt 25)])
        ["NonExistentField"] = some [GValue.vString ""] :=
  ⟨by rfl, C6_rowMaterializer.2.2.1 _ "NonExistentField" (by rfl)⟩

/-- C9: for a non-empty footer map, the renderer emits exactly one footer
row; each position of that row holds the footer map's value under an
exact, case-sensitive match of the header's display name, and an empty
string when there is no exact match — unlike the case-insensitive row
lookup, as the last two conjuncts demonstrate on a case-variant header:
the footer row yields the placeholder while the data row finds the field. -/
theorem C9_footerRow :
    (∀ (headers : List String) (totals : List (String × GValue)) (i : Nat),
      i < headers.length →
      (GoModel.createFooterRow headers totals).getD i default =
        (match totals.lookup (headers.getD i "") with
         | some v => v
         | none => GValue.vString "")) ∧
    (∀ (headers : List String) (totals : List (String × GValue)),
      (GoModel.createFooterRow headers totals).length = headers.length) ∧
    (∀ (first : GValue) (rest : List GValue) (totals : List (String × GValue))
       (rows : List (List GValue)), totals ≠ [] →
      GoModel.buildRows (GoModel.getHeadersAndFields first).2 (first :: rest) = some rows →
      GoModel.GenericRenderResultsTableInterface (first :: rest) totals =
        some { header := (GoModel.getHeadersAndFields first).1, rows := rows,
               footer := some (GoModel.createFooterRow
                                 (GoModel.getHeadersAndFields first).1 totals) }) ∧
    (GoModel.createFooterRow ["name"] [("Name", GValue.vString "x")]
       = [GValue.vString ""]) ∧
    (GoModel.createDataRow (GValue.vStruct [("Name", false, GValue.vString "x")]) ["name"]
       = some [GValue.vString "x"]) := by
  refine ⟨?_, ?_, ?_, by rfl, by rfl⟩
  · intro headers totals i hi
    induction headers generalizing i with
    | nil => simp at hi
    | cons h t ih =>
      cases i with
      | zero => simp [GoModel.createFooterRow]
      | succ j =>
        simp only [GoModel.createFooterRow, List.map_cons, List.getD_cons_succ]
        exact ih j (by simpa using hi)
  · intro headers totals
    simp [GoModel.createFooterRow]
  · intro first rest totals rows hne hrows
    simp only [GoModel.GenericRenderResultsTableInterface, hrows]
    have : totals.length > 0 := List.length_pos.mpr hne
    simp [this]

/-- Witness for C9's conditional parts at a one-record, one-total
instance. -/
theorem C9_footerRow_witness :
    ((0 : Nat) < (["Name"] : List String).length ∧
      (GoModel.createFooterRow ["Name"] [("Name", GValue.vString "Total")]).getD 0 default =
        (match ([("Name", GValue.vString "Total")] : List (String × GValue)).lookup
            ((["Name"] : List String).getD 0 "") with
         | some v => v
         | none => GValue.vString "")) ∧
    (([("Name", GValue.vString "Total")] : List (String × GValue)) ≠ [] ∧
      GoModel.buildRows
          (GoModel.getHeadersAndFields (GValue.vStruct [("Name", false, GValue.vString "x")])).2
          [GValue.vStruct [("Name", false, GValue.vString "x")]] =
        some [[GValue.vString "x"]] ∧
      GoModel.GenericRenderResultsTableInterface
          [GValue.vStruct [("Name", false, GValue.vString "x")]]
          [("Name", GValue.vString "Total")] =
        some { header := (GoModel.getHeadersAndFields
                            (GValue.vStruct [("Name", false, GValue.vString "x")])).1,
               rows := [[GValue.vString "x"]],
               footer := some (GoModel.createFooterRow
                  (GoModel.getHeadersAndFields
                     (GValue.vStruct [("Name", false, GValue.vString "x")])).1
                  [("Name", GValue.vString "Total")]) }) :=
  ⟨⟨by decide, C9_footerRow.1 ["Name"] [("Name", GValue.vString "Total")] 0 (by decide)⟩,
   ⟨by simp, by rfl,
    C9_footerRow.2.2.1 _ [] [("Name", GValue.vString "Total")] [[GValue.vString "x"]]
      (by simp) (by rfl)⟩⟩

/-- C8: on `[{Name:"John", Age:30}, {Name:"Alice", Age:25}]`, sorting
ascending by `"Age"` yields `[{Alice,25}, {John,30}]`; the case variant
`"aGe"` gives the same result (field-name matching is case-insensitive);
sorting by `"NonExistent"` leaves the order unchanged. -/
theorem C8_sort_scenarios :
    (GoModel.GenericSortInterface
        [GValue.vStruct [("Name", false, GValue.vString "John"), ("Age", false, GValue.vInt 30)],
         GValue.vStruct [("Name", false, GValue.vString "Alice"), ("Age", false, GValue.vInt 25)]]
        "Age" false
      = some
        [GValue.vStruct [("Name", false, GValue.vString "Alice"), ("Age", false, GValue.vInt 25)],
         GValue.vStruct [("Name", false, GValue.vString "John"), ("Age", false, GValue.vInt 30)]]) ∧
    (GoModel.GenericSortInterface
        [GValue.vStruct [("Name", false, GValue.vString "John"), ("Age", false, GValue.vInt 30)],
         GValue.vStruct [("Name", false, GValue.vString "Alice"), ("Age", false, GValue.vInt 25)]]
        "aGe" false
      = some
        [GValue.vStruct [("Name", false, GValue.vString "Alice"), ("Age", false, GValue.vInt 25)],
         GValue.vStruct [("Name", false, GValue.vString "John"), ("Age", false, GValue.vInt 30)]]) ∧
    (GoModel.GenericSortInterface
        [GValue.vStruct [("Name", false, GValue.vString "John"), ("Age", false, GValue.vInt 30)],
         GValue.vStruct [("Name", false, GValue.vString "Alice"), ("Age", false, GValue.vInt 25)]]
        "NonExistent" false
      = some
        [GValue.vStruct [("Name", false, GValue.vString "John"), ("Age", false, GValue.vInt 30)],
         GValue.vStruct [("Name", false, GValue.vString "Alice"), ("Age", false, GValue.vInt 25)]]) :=
  ⟨by rfl, by rfl, by rfl⟩

/-- C1 counterexample: the claim fails on the code at three explicit
inputs — the renderer panics on an empty collection
(`value.Index(0)` out of range), the row materializer panics when a
size-named field holds a non-signed-integer (`reflect.Value.Int`), and
the sorter panics when the elements are not record-shaped
(`reflect.Value.FieldByNameFunc` on a non-struct); `none` is the model's
rendering of a Go panic, so none of the three returns normally. -/
theorem C1_counterexample :
    GoModel.GenericRenderResultsTableInterface [] [] = none ∧
    GoModel.createDataRow (GValue.vStruct [("Size", false, GValue.vString "big")]) ["Size"]
      = none ∧
    GoModel.GenericSortInterface [GValue.vInt 1, GValue.vInt 2] "x" false = none :=
  ⟨by rfl, by rfl, by rfl⟩

/-- C1 amended: outside the three panic situations exhibited by
`C1_counterexample`, the operations return normally and degrade to
empty/placeholder/no-op results: the sorter returns normally whenever every
pairwise comparison is defined (in particular on every slice of uniformly
shaped records) and always on slices with fewer than two elements, where
the comparator is never invoked; the introspector returns two empty lists
on non-struct input; the row materializer returns normally whenever the
record is a struct and every size-named key that finds a field finds a
signed integer; and the renderer returns normally on every non-empty slice
whose rows materialize. -/
theorem C1_amended_no_panic :
    (∀ (slice : List GValue) (col : String) (desc : Bool),
      (∀ x ∈ slice, ∀ y ∈ slice, (GoModel.sortLess col desc x y).isSome = true) →
      (GoModel.GenericSortInterface slice col desc).isSome = true) ∧
    (∀ (slice : List GValue) (col : String) (desc : Bool),
      slice.length ≤ 1 → GoModel.GenericSortInterface slice col desc = some slice) ∧
    (∀ (v : GValue), (∀ fs, v ≠ GValue.vStruct fs) →
      GoModel.getHeadersAndFields v = ([], [])) ∧
    (∀ (fs : List (String × Bool × GValue)) (fields : List String),
      (∀ key ∈ fields, eqFold key "Size" = true →
        ∀ v, GoModel.fieldByNameFunc (GValue.vStruct fs) (fun n => eqFold n key)
               = some (some v) → ∃ n, v = GValue.vInt n) →
      (GoModel.createDataRow (GValue.vStruct fs) fields).isSome = true) ∧
    (∀ (first : GValue) (rest : List GValue) (totals : List (String × GValue)),
      (GoModel.buildRows (GoModel.getHeadersAndFields first).2 (first :: rest)).isSome = true →
      (GoModel.GenericRenderResultsTableInterface (first :: rest) totals).isSome = true) := by
  refine ⟨?_, ?_, ?_, ?_, ?_⟩
  · intro slice col desc h
    rw [GoModel.GenericSortInterface]
    split
    · rfl
    · rw [if_pos]
      · rfl
      · show slice.all
            (fun x => slice.all (fun y => (GoModel.sortLess col desc x y).isSome)) = true
        rw [List.all_eq_true]
        intro x hx
        rw [List.all_eq_true]
        intro y hy
        exact h x hx y hy
  · intro slice col desc h
    rw [GoModel.GenericSortInterface, if_pos h]
  · intro v hv
    cases v with
    | vStruct fs => exact absurd rfl (hv fs)
    | _ => rfl
  · intro fs fields h
    induction fields with
    | nil => rfl
    | cons key rest ih =>
      rw [GoModel.createDataRow]
      have hrest : (GoModel.createDataRow (GValue.vStruct fs) rest).isSome = true :=
        ih (fun k hk => h k (List.mem_cons_of_mem _ hk))
      obtain ⟨tail, htail⟩ := Option.isSome_iff_exists.mp hrest
      cases hbfs : GoModel.fieldByNameFunc (GValue.vStruct fs) (fun n => eqFold n key) with
      | none => simp [GoModel.fieldByNameFunc] at hbfs
      | some o =>
        cases o with
        | none => simp [hbfs, htail]
        | some f =>
          by_cases hsz : eqFold key "Size" = true
          · obtain ⟨n, rfl⟩ := h key (List.mem_cons_self key rest) hsz f hbfs
            simp [hbfs, hsz, htail]
          · simp [hbfs, hsz, htail]
  · intro first rest totals h
    rw [GoModel.GenericRenderResultsTableInterface]
    obtain ⟨rows, hrows⟩ := Option.isSome_iff_exists.mp h
    simp [hrows]

/-- Witness for C1's amended statement: the sorter on a one-element slice
of a non-record value returns it unchanged (the comparator is never
invoked). -/
theorem C1_amended_no_panic_witness :
    ([GValue.vInt 5] : List GValue).length ≤ 1 ∧
    GoModel.GenericSortInterface [GValue.vInt 5] "x" false = some [GValue.vInt 5] :=
  ⟨by decide, C1_amended_no_panic.2.1 [GValue.vInt 5] "x" false (by decide)⟩

namespace GoModel

theorem length_swapL [Inhabited α] (l : List α) (i j : Nat) :
    (swapL l i j).length = l.length := by
  simp [swapL]

theorem swapL_cons_succ [Inhabited α] (z : α) (l : List α) (i j : Nat) :
    swapL (z :: l) (i + 1) (j + 1) = z :: swapL l i j := by
  simp [swapL, rd]

theorem filter_swap_adj [Inhabited α] (p : α → Bool) :
    ∀ (j : Nat) (l : List α), j + 1 < l.length →
    (p (rd l j) = false ∨ p (rd l (j + 1)) = false) →
    (swapL l (j + 1) j).filter p = l.filter p := by
  intro j
  induction j with
  | zero =>
    intro l hlen hp
    match l, hlen with
    | x :: y :: rest, _ =>
      have hs : swapL (x :: y :: rest) 1 0 = y :: x :: rest := by
        simp [swapL, rd]
      rw [hs]
      rcases hp with hp | hp
      · simp only [rd, List.getD_cons_zero] at hp
        simp [List.filter, hp]
      · simp only [rd, List.getD_cons_succ, List.getD_cons_zero] at hp
        simp [List.filter, hp]
  | succ j ih =>
    intro l hlen hp
    match l, hlen with
    | z :: l', hlen =>
      rw [swapL_cons_succ]
      simp only [List.filter_cons]
      have hlen' : j + 1 < l'.length := by simpa using hlen
      have hp' : p (rd l' j) = false ∨ p (rd l' (j + 1)) = false := by
        simpa [rd, List.getD_cons_succ] using hp
      rw [ih l' hlen' hp']

end GoModel

namespace GoModel

variable {α : Type} [Inhabited α]

theorem length_insertInner (c : α → α → Bool) (a : Nat) :
    ∀ (j : Nat) (l : List α), (insertInner c a j l).length = l.length := by
  intro j
  induction j with
  | zero => intro l; rfl
  | succ j ih =>
    intro l
    rw [insertInner]
    split
    · rw [ih, length_swapL]
    · rfl

theorem filter_insertInner (c : α → α → Bool) (p : α → Bool)
    (hc : ∀ x y, c x y = true → p x = false ∨ p y = false) :
    ∀ (j : Nat) (l : List α), j < l.length →
    (insertInner c 0 j l).filter p = l.filter p := by
  intro j
  induction j with
  | zero => intro l _; rfl
  | succ j ih =>
    intro l hj
    rw [insertInner]
    split
    · next h =>
      have hswap := filter_swap_adj p j l hj (Or.symm (hc _ _ h.2))
      rw [ih (swapL l (j + 1) j) (by rw [length_swapL]; omega), hswap]
    · rfl

theorem length_insLoop (c : α → α → Bool) (b : Nat) :
    ∀ (fuel i : Nat) (l : List α), (insLoop c 0 b fuel i l).length = l.length := by
  intro fuel
  induction fuel with
  | zero => intro i l; rfl
  | succ fuel ih =>
    intro i l
    rw [insLoop]
    split
    · rw [ih, length_insertInner]
    · rfl

theorem filter_insLoop (c : α → α → Bool) (p : α → Bool)
    (hc : ∀ x y, c x y = true → p x = false ∨ p y = false) (b : Nat) :
    ∀ (fuel i : Nat) (l : List α), b ≤ l.length →
    (insLoop c 0 b fuel i l).filter p = l.filter p := by
  intro fuel
  induction fuel with
  | zero => intro i l _; rfl
  | succ fuel ih =>
    intro i l hb
    rw [insLoop]
    split
    · next h =>
      rw [ih (i + 1) _ (by rw [length_insertInner]; omega),
          filter_insertInner c p hc i l (by omega)]
    · rfl

theorem filter_insertionSort (c : α → α → Bool) (p : α → Bool)
    (hc : ∀ x y, c x y = true → p x = false ∨ p y = false)
    (b : Nat) (l : List α) (hb : b ≤ l.length) :
    (insertionSort c 0 b l).filter p = l.filter p :=
  filter_insLoop c p hc b b 1 l hb

end GoModel

namespace GoModel

theorem fieldOf_eq_some {r : GValue} {col : String} {v : GValue}
    (h : SpecSide.fieldOf r col = some v) :
    fieldByNameFunc r (fun n => eqFold n col) = some (some v) := by
  unfold SpecSide.fieldOf at h
  cases hb : fieldByNameFunc r (fun n => eqFold n col) with
  | none => rw [hb] at h; exact absurd h (by simp)
  | some o =>
    cases o with
    | none => rw [hb] at h; exact absurd h (by simp)
    | some f => rw [hb] at h; simp at h; rw [h]

theorem sortLess_tie {col : String} {k x y fx fy : GValue} (desc : Bool)
    (hfx : SpecSide.fieldOf x col = some fx) (hfy : SpecSide.fieldOf y col = some fy)
    (hx1 : SpecSide.vLe fx k = true) (hx2 : SpecSide.vLe k fx = true)
    (hy1 : SpecSide.vLe fy k = true) (hy2 : SpecSide.vLe k fy = true) :
    sortLess col desc x y = some desc := by
  have hbx := fieldOf_eq_some hfx
  have hby := fieldOf_eq_some hfy
  unfold sortLess
  rw [hbx, hby]
  cases fx with
  | vString s =>
    cases k with
    | vString ks =>
      cases fy with
      | vString t =>
        simp only [SpecSide.vLe, decide_eq_true_eq] at hx1 hx2 hy1 hy2
        dsimp only
        have hts : ¬ s < t := not_lt.mpr (le_trans hy1 hx2)
        simp [reflectString, hts]
      | _ => simp [SpecSide.vLe] at hy1
    | _ => simp [SpecSide.vLe] at hx1
  | vInt n =>
    cases k with
    | vInt kn =>
      cases fy with
      | vInt m =>
        simp only [SpecSide.vLe, decide_eq_true_eq] at hx1 hx2 hy1 hy2
        dsimp only
        have hnm : ¬ n < m := by omega
        simp [hnm]
      | _ => simp [SpecSide.vLe] at hy1
    | _ => simp [SpecSide.vLe] at hx1
  | vUint n =>
    cases k with
    | vUint kn =>
      cases fy with
      | vUint m =>
        simp only [SpecSide.vLe, decide_eq_true_eq] at hx1 hx2 hy1 hy2
        dsimp only
        have hnm : ¬ n < m := by omega
        simp [hnm]
      | _ => simp [SpecSide.vLe] at hy1
    | _ => simp [SpecSide.vLe] at hx1
  | vFloat a =>
    cases k with
    | vFloat kf =>
      cases fy with
      | vFloat bq =>
        cases a with
        | val qa =>
          cases kf with
          | val qk =>
            cases bq with
            | val qb =>
              simp only [SpecSide.vLe, GFloat.le, decide_eq_true_eq] at hx1 hx2 hy1 hy2
              dsimp only
              have hlt : GFloat.lt (GFloat.val qa) (GFloat.val qb) = false := by
                simp only [GFloat.lt, decide_eq_false_iff_not, not_lt]
                linarith
              simp [hlt]
            | _ => simp [SpecSide.vLe, GFloat.le] at hy1 hy2
          | _ => simp [SpecSide.vLe, GFloat.le] at hx1 hx2
        | pinf =>
          cases kf with
          | pinf =>
            cases bq with
            | pinf =>
              dsimp only
              have hlt : GFloat.lt GFloat.pinf GFloat.pinf = false := rfl
              simp [hlt]
            | _ => simp [SpecSide.vLe, GFloat.le] at hy1 hy2
          | _ => simp [SpecSide.vLe, GFloat.le] at hx1 hx2
        | ninf =>
          cases kf with
          | ninf =>
            cases bq with
            | ninf =>
              dsimp only
              have hlt : GFloat.lt GFloat.ninf GFloat.ninf = false := rfl
              simp [hlt]
            | _ => simp [SpecSide.vLe, GFloat.le] at hy1 hy2
          | _ => simp [SpecSide.vLe, GFloat.le] at hx1 hx2
        | nan => simp [SpecSide.vLe, GFloat.le] at hx1
      | _ => simp [SpecSide.vLe] at hy1
    | _ => simp [SpecSide.vLe] at hx1
  | vBool b => simp [SpecSide.vLe] at hx1
  | vStruct fs => simp [SpecSide.vLe] at hx1

end GoModel

namespace GoModel

theorem insertionSort_two (c : GValue → GValue → Bool) (x y : GValue)
    (h : c y x = true) : insertionSort c 0 2 [x, y] = [y, x] := by
  rw [insertionSort, insLoop]
  norm_num
  rw [insertInner]
  have hrd1 : rd [x, y] 1 = y := rfl
  have hrd0 : rd [x, y] 0 = x := rfl
  rw [hrd1, hrd0, if_pos ⟨by omega, h⟩]
  have hsw : swapL [x, y] 1 0 = [y, x] := rfl
  rw [hsw]
  rw [insLoop]
  norm_num
  rfl

end GoModel

namespace GoModel

theorem genericSort_two_desc_tie {col : String} {k x y fx fy : GValue}
    (hfx : SpecSide.fieldOf x col = some fx) (hfy : SpecSide.fieldOf y col = some fy)
    (hx1 : SpecSide.vLe fx k = true) (hx2 : SpecSide.vLe k fx = true)
    (hy1 : SpecSide.vLe fy k = true) (hy2 : SpecSide.vLe k fy = true) :
    GenericSortInterface [x, y] col true = some [y, x] := by
  have hxy := sortLess_tie (k := k) true hfx hfy hx1 hx2 hy1 hy2
  have hyx := sortLess_tie (k := k) true hfy hfx hy1 hy2 hx1 hx2
  have hxx := sortLess_tie (k := k) true hfx hfx hx1 hx2 hx1 hx2
  have hyy := sortLess_tie (k := k) true hfy hfy hy1 hy2 hy1 hy2
  rw [GenericSortInterface]
  rw [if_neg (by simp)]
  rw [if_pos]
  · have hc : (fun a b => (sortLess col true a b).getD false) y x = true := by
      simp only [hyx, Option.getD_some]
    rw [show ([x, y] : List GValue).length = 2 from rfl]
    rw [pdqsort, pdqsortLoop]
    rw [if_pos (by norm_num : (2 : Nat) - 0 ≤ 12)]
    rw [insertionSort_two _ x y hc]
  · show ([x, y] : List GValue).all
        (fun a => ([x, y] : List GValue).all
          (fun b => (sortLess col true a b).isSome)) = true
    simp only [List.all_cons, List.all_nil, hxy, hyx, hxx, hyy,
      Option.isSome_some, Bool.and_true, Bool.and_self]

end GoModel

namespace GoModel

theorem tie_pair_not_less (col : String) (k : GValue) :
    ∀ x y : GValue, (sortLess col false x y).getD false = true →
      SpecSide.sameKey col k x = false ∨ SpecSide.sameKey col k y = false := by
  intro x y h
  by_contra hcon
  push_neg at hcon
  obtain ⟨hx, hy⟩ := hcon
  replace hx : SpecSide.sameKey col k x = true := by
    cases hb : SpecSide.sameKey col k x
    · exact absurd hb hx
    · rfl
  replace hy : SpecSide.sameKey col k y = true := by
    cases hb : SpecSide.sameKey col k y
    · exact absurd hb hy
    · rfl
  unfold SpecSide.sameKey at hx hy
  cases hfx : SpecSide.fieldOf x col with
  | none => rw [hfx] at hx; exact absurd hx (by simp)
  | some fx =>
    cases hfy : SpecSide.fieldOf y col with
    | none => rw [hfy] at hy; exact absurd hy (by simp)
    | some fy =>
      rw [hfx] at hx
      rw [hfy] at hy
      simp only [Bool.and_eq_true] at hx hy
      have htie := sortLess_tie (k := k) false hfx hfy hx.1 hx.2 hy.1 hy.2
      rw [htie] at h
      simp at h

theorem genericSort_asc_stable_small (slice : List GValue) (col : String)
    (k : GValue) (out : List GValue) (hlen : slice.length ≤ 12)
    (hsort : GenericSortInterface slice col false = some out) :
    out.filter (SpecSide.sameKey col k) = slice.filter (SpecSide.sameKey col k) := by
  rw [GenericSortInterface] at hsort
  by_cases h1 : slice.length ≤ 1
  · rw [if_pos h1] at hsort
    obtain rfl : slice = out := Option.some.inj hsort
    rfl
  · rw [if_neg h1] at hsort
    by_cases h2 : slice.all (fun x => slice.all fun y => (sortLess col false x y).isSome) = true
    · rw [if_pos h2] at hsort
      obtain rfl : pdqsort (fun x y => (sortLess col false x y).getD false)
          slice.length slice = out := Option.some.inj hsort
      rw [pdqsort, pdqsortLoop]
      rw [if_pos (by omega : slice.length - 0 ≤ 12)]
      exact filter_insertionSort _ _ (tie_pair_not_less col k) slice.length slice le_rfl
    · rw [if_neg h2] at hsort
      exact absurd hsort (by simp)

end GoModel

set_option maxHeartbeats 4000000 in
set_option maxRecDepth 8000 in
/-- C2 counterexample: the sort is not stable.  Descending on a two-record
tie (`Age = 1` on both) returns the pair reversed — `sortDescending`
negates the less-than result, so insertion sort swaps elements that
compare equal — and ascending on a 13-element slice (the first length on
which Go's pdqsort leaves pure insertion sort) also reorders elements with
equal keys; in both cases the tied elements' relative order changes, as
the filtered tie-class disequalities state. -/
theorem C2_counterexample :
    (GoModel.GenericSortInterface
        [GValue.vStruct [("Name", false, GValue.vString "A"), ("Age", false, GValue.vInt 1)],
         GValue.vStruct [("Name", false, GValue.vString "B"), ("Age", false, GValue.vInt 1)]]
        "Age" true
      = some
        [GValue.vStruct [("Name", false, GValue.vString "B"), ("Age", false, GValue.vInt 1)],
         GValue.vStruct [("Name", false, GValue.vString "A"), ("Age", false, GValue.vInt 1)]]) ∧
    ([GValue.vStruct [("Name", false, GValue.vString "B"), ("Age", false, GValue.vInt 1)],
      GValue.vStruct [("Name", false, GValue.vString "A"), ("Age", false, GValue.vInt 1)]].filter
        (SpecSide.sameKey "Age" (GValue.vInt 1)) ≠
     [GValue.vStruct [("Name", false, GValue.vString "A"), ("Age", false, GValue.vInt 1)],
      GValue.vStruct [("Name", false, GValue.vString "B"), ("Age", false, GValue.vInt 1)]].filter
        (SpecSide.sameKey "Age" (GValue.vInt 1))) ∧
    (GoModel.GenericSortInterface
      [GValue.vStruct [("Name", false, GValue.vString "T0"), ("K", false, GValue.vInt 1)],
       GValue.vStruct [("Name", false, GValue.vString "T1"), ("K", false, GValue.vInt 1)],
       GValue.vStruct [("Name", false, GValue.vString "T2"), ("K", false, GValue.vInt 1)],
       GValue.vStruct [("Name", false, GValue.vString "T3"), ("K", false, GValue.vInt 1)],
       GValue.vStruct [("Name", false, GValue.vString "T4"), ("K", false, GValue.vInt 1)],
       GValue.vStruct [("Name", false, GValue.vString "T5"), ("K", false, GValue.vInt 1)],
       GValue.vStruct [("Name", false, GValue.vString "T6"), ("K", false, GValue.vInt 1)],
       GValue.vStruct [("Name", false, GValue.vString "T7"), ("K", false, GValue.vInt 1)],
       GValue.vStruct [("Name", false, GValue.vString "T8"), ("K", false, GValue.vInt 1)],
       GValue.vStruct [("Name", false, GValue.vString "T9"), ("K", false, GValue.vInt 1)],
       GValue.vStruct [("Name", false, GValue.vString "T10"), ("K", false, GValue.vInt 1)],
       GValue.vStruct [("Name", false, GValue.vString "T11"), ("K", false, GValue.vInt 1)],
       GValue.vStruct [("Name", false, GValue.vString "Z"), ("K", false, GValue.vInt 0)]]
      "K" false
      = some
      [GValue.vStruct [("Name", false, GValue.vString "Z"), ("K", false, GValue.vInt 0)],
       GValue.vStruct [("Name", false, GValue.vString "T6"), ("K", false, GValue.vInt 1)],
       GValue.vStruct [("Name", false, GValue.vString "T2"), ("K", false, GValue.vInt 1)],
       GValue.vStruct [("Name", false, GValue.vString "T3"), ("K", false, GValue.vInt 1)],
       GValue.vStruct [("Name", false, GValue.vString "T4"), ("K", false, GValue.vInt 1)],
       GValue.vStruct [("Name", false, GValue.vString "T5"), ("K", false, GValue.vInt 1)],
       GValue.vStruct [("Name", false, GValue.vString "T0"), ("K", false, GValue.vInt 1)],
       GValue.vStruct [("Name", false, GValue.vString "T7"), ("K", false, GValue.vInt 1)],
       GValue.vStruct [("Name", false, GValue.vString "T8"), ("K", false, GValue.vInt 1)],
       GValue.vStruct [("Name", false, GValue.vString "T9"), ("K", false, GValue.vInt 1)],
       GValue.vStruct [("Name", false, GValue.vString "T10"), ("K", false, GValue.vInt 1)],
       GValue.vStruct [("Name", false, GValue.vString "T11"), ("K", false, GValue.vInt 1)],
       GValue.vStruct [("Name", false, GValue.vString "T1"), ("K", false, GValue.vInt 1)]]) ∧
    ([GValue.vStruct [("Name", false, GValue.vString "Z"), ("K", false, GValue.vInt 0)],
       GValue.vStruct [("Name", false, GValue.vString "T6"), ("K", false, GValue.vInt 1)],
       GValue.vStruct [("Name", false, GValue.vString "T2"), ("K", false, GValue.vInt 1)],
       GValue.vStruct [("Name", false, GValue.vString "T3"), ("K", false, GValue.vInt 1)],
       GValue.vStruct [("Name", false, GValue.vString "T4"), ("K", false, GValue.vInt 1)],
       GValue.vStruct [("Name", false, GValue.vString "T5"), ("K", false, GValue.vInt 1)],
       GValue.vStruct [("Name", false, GValue.vString "T0"), ("K", false, GValue.vInt 1)],
       GValue.vStruct [("Name", false, GValue.vString "T7"), ("K", false, GValue.vInt 1)],
       GValue.vStruct [("Name", false, GValue.vString "T8"), ("K", false, GValue.vInt 1)],
       GValue.vStruct [("Name", false, GValue.vString "T9"), ("K", false, GValue.vInt 1)],
       GValue.vStruct [("Name", false, GValue.vString "T10"), ("K", false, GValue.vInt 1)],
       GValue.vStruct [("Name", false, GValue.vString "T11"), ("K", false, GValue.vInt 1)],
       GValue.vStruct [("Name", false, GValue.vString "T1"), ("K", false, GValue.vInt 1)]].filter (SpecSide.sameKey "K" (GValue.vInt 1)) ≠
     [GValue.vStruct [("Name", false, GValue.vString "T0"), ("K", false, GValue.vInt 1)],
       GValue.vStruct [("Name", false, GValue.vString "T1"), ("K", false, GValue.vInt 1)],
       GValue.vStruct [("Name", false, GValue.vString "T2"), ("K", false, GValue.vInt 1)],
       GValue.vStruct [("Name", false, GValue.vString "T3"), ("K", false, GValue.vInt 1)],
       GValue.vStruct [("Name", false, GValue.vString "T4"), ("K", false, GValue.vInt 1)],
       GValue.vStruct [("Name", false, GValue.vString "T5"), ("K", false, GValue.vInt 1)],
       GValue.vStruct [("Name", false, GValue.vString "T6"), ("K", false, GValue.vInt 1)],
       GValue.vStruct [("Name", false, GValue.vString "T7"), ("K", false, GValue.vInt 1)],
       GValue.vStruct [("Name", false, GValue.vString "T8"), ("K", false, GValue.vInt 1)],
       GValue.vStruct [("Name", false, GValue.vString "T9"), ("K", false, GValue.vInt 1)],
       GValue.vStruct [("Name", false, GValue.vString "T10"), ("K", false, GValue.vInt 1)],
       GValue.vStruct [("Name", false, GValue.vString "T11"), ("K", false, GValue.vInt 1)],
       GValue.vStruct [("Name", false, GValue.vString "Z"), ("K", false, GValue.vInt 0)]].filter (SpecSide.sameKey "K" (GValue.vInt 1))) := by
  refine ⟨by rfl, ?_, by rfl, ?_⟩
  · intro h
    exact absurd
      (congrArg (List.map (fun r => match r with
        | GValue.vStruct ((_, _, GValue.vString s) :: _) => s
        | _ => "")) h)
      (by decide)
  · intro h
    exact absurd
      (congrArg (List.map (fun r => match r with
        | GValue.vStruct ((_, _, GValue.vString s) :: _) => s
        | _ => "")) h)
      (by decide)

/-- C2 amended: the sort is stable only where Go's pdqsort runs pure
insertion sort.  On slices of at most 12 elements sorted ascending, every
tie class (elements whose key values compare equal) keeps its original
relative order; with `descending = true` the inverted comparator makes
insertion sort swap equal-keyed neighbours, so even a two-element tie of
any supported kind comes back reversed; for longer slices the quicksort
machinery gives no stability guarantee in either direction
(`C2_counterexample` exhibits a 13-element ascending reordering). -/
theorem C2_amended_stability :
    (∀ (slice : List GValue) (col : String) (k : GValue) (out : List GValue),
      slice.length ≤ 12 →
      GoModel.GenericSortInterface slice col false = some out →
      out.filter (SpecSide.sameKey col k) = slice.filter (SpecSide.sameKey col k)) ∧
    (∀ (col : String) (k x y fx fy : GValue),
      SpecSide.fieldOf x col = some fx → SpecSide.fieldOf y col = some fy →
      SpecSide.vLe fx k = true → SpecSide.vLe k fx = true →
      SpecSide.vLe fy k = true → SpecSide.vLe k fy = true →
      GoModel.GenericSortInterface [x, y] col true = some [y, x]) :=
  ⟨GoModel.genericSort_asc_stable_small,
   fun _col _k _x _y _fx _fy hfx hfy hx1 hx2 hy1 hy2 =>
     GoModel.genericSort_two_desc_tie hfx hfy hx1 hx2 hy1 hy2⟩

/-- Witness for C2's amended statement at the two-record tie of the
counterexample: ascending keeps the order, descending reverses it. -/
theorem C2_amended_stability_witness :
    (([GValue.vStruct [("Name", false, GValue.vString "A"), ("Age", false, GValue.vInt 1)],
       GValue.vStruct [("Name", false, GValue.vString "B"), ("Age", false, GValue.vInt 1)]] :
        List GValue).length ≤ 12 ∧
     GoModel.GenericSortInterface
        [GValue.vStruct [("Name", false, GValue.vString "A"), ("Age", false, GValue.vInt 1)],
         GValue.vStruct [("Name", false, GValue.vString "B"), ("Age", false, GValue.vInt 1)]]
        "Age" false
       = some
        [GValue.vStruct [("Name", false, GValue.vString "A"), ("Age", false, GValue.vInt 1)],
         GValue.vStruct [("Name", false, GValue.vString "B"), ("Age", false, GValue.vInt 1)]] ∧
     ([GValue.vStruct [("Name", false, GValue.vString "A"), ("Age", false, GValue.vInt 1)],
       GValue.vStruct [("Name", false, GValue.vString "B"), ("Age", false, GValue.vInt 1)]] :
        List GValue).filter (SpecSide.sameKey "Age" (GValue.vInt 1)) =
       [GValue.vStruct [("Name", false, GValue.vString "A"), ("Age", false, GValue.vInt 1)],
        GValue.vStruct [("Name", false, GValue.vString "B"), ("Age", false, GValue.vInt 1)]].filter
         (SpecSide.sameKey "Age" (GValue.vInt 1))) ∧
    GoModel.GenericSortInterface
        [GValue.vStruct [("Name", false, GValue.vString "A"), ("Age", false, GValue.vInt 1)],
         GValue.vStruct [("Name", false, GValue.vString "B"), ("Age", false, GValue.vInt 1)]]
        "Age" true
      = some
        [GValue.vStruct [("Name", false, GValue.vString "B"), ("Age", false, GValue.vInt 1)],
         GValue.vStruct [("Name", false, GValue.vString "A"), ("Age", false, GValue.vInt 1)]] :=
  ⟨⟨by decide,
    by rfl,
    C2_amended_stability.1
      [GValue.vStruct [("Name", false, GValue.vString "A"), ("Age", false, GValue.vInt 1)],
       GValue.vStruct [("Name", false, GValue.vString "B"), ("Age", false, GValue.vInt 1)]]
      "Age" (GValue.vInt 1)
      [GValue.vStruct [("Name", false, GValue.vString "A"), ("Age", false, GValue.vInt 1)],
       GValue.vStruct [("Name", false, GValue.vString "B"), ("Age", false, GValue.vInt 1)]]
      (by decide) (by rfl)⟩,
   C2_amended_stability.2 "Age" (GValue.vInt 1) _ _ (GValue.vInt 1) (GValue.vInt 1)
     (by rfl) (by rfl) (by rfl) (by rfl) (by rfl) (by rfl)⟩

namespace GoModel

section ConstFalse

variable {α : Type} [Inhabited α] (c : α → α → Bool) (l : List α)

theorem insertInner_id (hc : ∀ i j : Nat, c (rd l i) (rd l j) = false) (a : Nat) : ∀ j, insertInner c a j l = l := by
  intro j
  cases j with
  | zero => rfl
  | succ j => rw [insertInner, if_neg (by simp [hc])]

theorem insLoop_id (hc : ∀ i j : Nat, c (rd l i) (rd l j) = false) (a b : Nat) : ∀ (fuel i : Nat), insLoop c a b fuel i l = l := by
  intro fuel
  induction fuel with
  | zero => intro i; rfl
  | succ fuel ih =>
    intro i
    rw [insLoop]
    split
    · rw [insertInner_id c l hc, ih]
    · rfl

theorem insertionSort_id (hc : ∀ i j : Nat, c (rd l i) (rd l j) = false) (a b : Nat) : insertionSort c a b l = l :=
  insLoop_id c l hc a b b (a + 1)

theorem order2_id (hc : ∀ i j : Nat, c (rd l i) (rd l j) = false) (a b s : Nat) : order2 c l a b s = (a, b, s) := by
  rw [order2, if_neg (by simp [hc])]

theorem median_id (hc : ∀ i j : Nat, c (rd l i) (rd l j) = false) (a b d s : Nat) : median c l a b d s = (b, s) := by
  rw [median]
  simp only [order2_id c l hc]

theorem medianAdjacent_id (hc : ∀ i j : Nat, c (rd l i) (rd l j) = false) (a s : Nat) : medianAdjacent c l a s = (a, s) := by
  rw [medianAdjacent, median_id c l hc]

theorem choosePivot_hint (hc : ∀ i j : Nat, c (rd l i) (rd l j) = false) (a b : Nat) :
    (choosePivot c a b l).2 = SortHint.increasing := by
  rw [choosePivot]
  dsimp only
  split
  · split
    · simp [medianAdjacent_id c l hc, median_id c l hc]
    · simp [median_id c l hc]
  · rfl

theorem partialScan_full (hc : ∀ i j : Nat, c (rd l i) (rd l j) = false) (b : Nat) :
    ∀ (fuel i : Nat), i ≤ b → b - i ≤ fuel → partialScan c b fuel i l = b := by
  intro fuel
  induction fuel with
  | zero =>
    intro i hib hfuel
    have : i = b := by omega
    rw [this]; rfl
  | succ fuel ih =>
    intro i hib hfuel
    rw [partialScan]
    by_cases hlt : i < b
    · rw [if_pos ⟨hlt, by simp [hc]⟩]
      exact ih (i + 1) (by omega) (by omega)
    · rw [if_neg (by simp [hlt])]
      omega

theorem partialInsertionSort_true (hc : ∀ i j : Nat, c (rd l i) (rd l j) = false) (a b : Nat) (hab : a + 1 ≤ b) :
    partialInsertionSort c a b l = (true, l) := by
  rw [partialInsertionSort, pisLoop]
  rw [partialScan_full c l hc b b (a + 1) hab (by omega)]
  rw [if_pos rfl]

theorem pdqsort_id (hc : ∀ i j : Nat, c (rd l i) (rd l j) = false) (n : Nat) : pdqsort c n l = l := by
  rw [pdqsort, pdqsortLoop]
  by_cases h12 : n - 0 ≤ 12
  · rw [if_pos h12, insertionSort_id c l hc]
  · rw [if_neg h12]
    have hlim : ¬ bitsLen n = 0 := by
      rw [bitsLen]
      have : ¬ n = 0 := by omega
      rw [if_neg this]
      omega
    rw [if_neg hlim]
    dsimp only
    rw [if_neg (show ¬ (¬ true = true) by simp)]
    dsimp only
    rw [choosePivot_hint c l hc 0 n]
    rw [if_neg (show ¬ SortHint.increasing = SortHint.decreasing by simp)]
    dsimp only
    rw [if_pos (⟨rfl, rfl, rfl⟩ : true = true ∧ true = true ∧ SortHint.increasing = SortHint.increasing)]
    rw [partialInsertionSort_true c l hc 0 n (by omega)]
    simp

end ConstFalse

end GoModel

namespace GoModel

/-- Shorthand for C3's hypothesis on one record: the sort column is absent
from its flattened field set (no unambiguous match), or matches a field of
a kind the comparator does not support (bool or struct — e.g. a
`time.Time` value). -/
def unsortableOn (col : String) (r : GValue) : Prop :=
  fieldByNameFunc r (fun n => eqFold n col) = some none ∨
  ∃ f, fieldByNameFunc r (fun n => eqFold n col) = some (some f) ∧
       ((∃ b, f = GValue.vBool b) ∨ (∃ fs, f = GValue.vStruct fs))

theorem sortLess_unsortable {col : String} {x : GValue} (desc : Bool)
    (hx : unsortableOn col x) {y : GValue} {oy : Option GValue}
    (hy : fieldByNameFunc y (fun n => eqFold n col) = some oy) :
    sortLess col desc x y = some false := by
  unfold sortLess
  rcases hx with hx | ⟨f, hx, hf⟩
  · rw [hx, hy]
  · rw [hx, hy]
    cases oy with
    | none => rfl
    | some fj =>
      rcases hf with ⟨b, rfl⟩ | ⟨fs, rfl⟩ <;> rfl

theorem sortLess_left_none {col : String} {x y : GValue} (desc : Bool)
    (hx : fieldByNameFunc x (fun n => eqFold n col) = none) :
    sortLess col desc x y = none := by
  unfold sortLess
  rw [hx]

theorem sortLess_right_none {col : String} {x y : GValue} (desc : Bool)
    {ox : Option GValue}
    (hx : fieldByNameFunc x (fun n => eqFold n col) = some ox)
    (hy : fieldByNameFunc y (fun n => eqFold n col) = none) :
    sortLess col desc x y = none := by
  unfold sortLess
  rw [hx, hy]

theorem unsortable_hpos (slice : List GValue) (col : String) (desc : Bool)
    (h : ∀ r ∈ slice, unsortableOn col r) :
    ∀ i j : Nat,
      (fun x y => (sortLess col desc x y).getD false) (rd slice i) (rd slice j) = false := by
  intro i j
  dsimp only
  by_cases hi : i < slice.length
  · have hxmem : rd slice i ∈ slice := by
      rw [rd, List.getD_eq_getElem slice default hi]
      exact List.getElem_mem hi
    have hx := h _ hxmem
    by_cases hj : j < slice.length
    · have hymem : rd slice j ∈ slice := by
        rw [rd, List.getD_eq_getElem slice default hj]
        exact List.getElem_mem hj
      have hy := h _ hymem
      rcases hy with hy | ⟨f, hy, _⟩
      · rw [sortLess_unsortable desc hx hy]; rfl
      · rw [sortLess_unsortable desc hx hy]; rfl
    · have hyd : rd slice j = default := by
        rw [rd, List.getD_eq_default]
        omega
      rcases hx with hx | ⟨f, hx, _⟩
      · rw [hyd, sortLess_right_none desc hx (by rfl)]; rfl
      · rw [hyd, sortLess_right_none desc hx (by rfl)]; rfl
  · have hxd : rd slice i = default := by
      rw [rd, List.getD_eq_default]
      omega
    rw [hxd, sortLess_left_none desc (by rfl)]
    rfl

theorem genericSort_unsortable_id (slice : List GValue) (col : String) (desc : Bool)
    (h : ∀ r ∈ slice, unsortableOn col r) :
    GenericSortInterface slice col desc = some slice := by
  rw [GenericSortInterface]
  by_cases h1 : slice.length ≤ 1
  · rw [if_pos h1]
  · rw [if_neg h1, if_pos, pdqsort_id _ slice (unsortable_hpos slice col desc h)]
    show slice.all (fun x => slice.all fun y => (sortLess col desc x y).isSome) = true
    rw [List.all_eq_true]
    intro x hx
    rw [List.all_eq_true]
    intro y hy
    have hxu := h x hx
    have hyu := h y hy
    have hysome : ∃ oy, fieldByNameFunc y (fun n => eqFold n col) = some oy := by
      rcases hyu with hy' | ⟨f, hy', _⟩
      · exact ⟨none, hy'⟩
      · exact ⟨some f, hy'⟩
    obtain ⟨oy, hoy⟩ := hysome
    rw [sortLess_unsortable desc hxu hoy]
    rfl

end GoModel

/-- C3: sorting by a field name absent from every element's flattened
field set — or matched only by a field of unsupported kind, such as a
`time.Time` struct — leaves the slice unchanged, in either direction, and
sorting twice yields the same order as sorting once. -/
theorem C3_absent_field_noop :
    ∀ (slice : List GValue) (col : String) (desc : Bool),
      (∀ r ∈ slice, GoModel.unsortableOn col r) →
      GoModel.GenericSortInterface slice col desc = some slice ∧
      (GoModel.GenericSortInterface slice col desc).bind
        (fun out => GoModel.GenericSortInterface out col desc) = some slice := by
  intro slice col desc h
  have h1 := GoModel.genericSort_unsortable_id slice col desc h
  refine ⟨h1, ?_⟩
  rw [h1]
  simpa using h1

/-- Witness for C3 on the `Event`/`time.Time` fixture shape: two records
whose `Timestamp` field is a struct (unsupported kind), plus a lookup of a
nonexistent column on the same data. -/
theorem C3_absent_field_noop_witness :
    (∀ r ∈ ([GValue.vStruct [("Name", false, GValue.vString "Event 2"),
                             ("Timestamp", false, GValue.vStruct [("wall", false, GValue.vUint 2)])],
             GValue.vStruct [("Name", false, GValue.vString "Event 1"),
                             ("Timestamp", false, GValue.vStruct [("wall", false, GValue.vUint 1)])]] :
              List GValue),
       GoModel.unsortableOn "Timestamp" r) ∧
    GoModel.GenericSortInterface
        [GValue.vStruct [("Name", false, GValue.vString "Event 2"),
                         ("Timestamp", false, GValue.vStruct [("wall", false, GValue.vUint 2)])],
         GValue.vStruct [("Name", false, GValue.vString "Event 1"),
                         ("Timestamp", false, GValue.vStruct [("wall", false, GValue.vUint 1)])]]
        "Timestamp" false
      = some
        [GValue.vStruct [("Name", false, GValue.vString "Event 2"),
                         ("Timestamp", false, GValue.vStruct [("wall", false, GValue.vUint 2)])],
         GValue.vStruct [("Name", false, GValue.vString "Event 1"),
                         ("Timestamp", false, GValue.vStruct [("wall", false, GValue.vUint 1)])]] := by
  have hun : ∀ r ∈ ([GValue.vStruct [("Name", false, GValue.vString "Event 2"),
                             ("Timestamp", false, GValue.vStruct [("wall", false, GValue.vUint 2)])],
             GValue.vStruct [("Name", false, GValue.vString "Event 1"),
                             ("Timestamp", false, GValue.vStruct [("wall", false, GValue.vUint 1)])]] :
              List GValue),
       GoModel.unsortableOn "Timestamp" r := by
    intro r hr
    simp only [List.mem_cons, List.not_mem_nil, or_false] at hr
    rcases hr with rfl | rfl
    · exact Or.inr ⟨_, by rfl, Or.inr ⟨_, rfl⟩⟩
    · exact Or.inr ⟨_, by rfl, Or.inr ⟨_, rfl⟩⟩
  exact ⟨hun, (C3_absent_field_noop _ "Timestamp" false hun).1⟩

namespace GoModel

section SortProofs

variable {α : Type} [Inhabited α]

/-! ## Core swap lemmas -/

theorem rd_swapL_of_ne (l : List α) (i j k : Nat) (hki : k ≠ i) (hkj : k ≠ j) :
    rd (swapL l i j) k = rd l k := by
  unfold rd swapL
  rw [List.getD_eq_getElem?_getD, List.getElem?_set_ne (Ne.symm hkj),
    List.getElem?_set_ne (Ne.symm hki), ← List.getD_eq_getElem?_getD]

theorem rd_swapL_right (l : List α) (i j : Nat) (hj : j < l.length) :
    rd (swapL l i j) j = rd l i := by
  unfold rd swapL
  rw [List.getD_eq_getElem?_getD, List.getElem?_set_self (by simpa using hj)]
  rfl

theorem rd_swapL_left (l : List α) (i j : Nat) (hi : i < l.length) :
    rd (swapL l i j) i = rd l j := by
  by_cases hij : i = j
  · subst hij
    exact rd_swapL_right l i i hi
  · unfold rd swapL
    rw [List.getD_eq_getElem?_getD, List.getElem?_set_ne fun h => hij h.symm,
      List.getElem?_set_self hi]
    rfl

theorem swapL_length (l : List α) (i j : Nat) : (swapL l i j).length = l.length := by
  simp [swapL]

/-! ## Preorder and segment-invariant algebra -/

theorem RelOK.rfl {c : α → α → Bool} {S : α → Prop} {R : α → α → Prop}
    (hok : RelOK c S R) {x : α} (hx : S x) : R x x := by
  cases h : c x x
  · exact hok.h2 x x hx hx h
  · exact hok.h1 x x hx hx h

section SegAlgebra

variable {c : α → α → Bool} {S : α → Prop} {R : α → α → Prop} {a b : Nat}

theorem SegInv.refl (hok : RelOK c S R) (hab : a ≤ b) {l : List α} (hG : Good S b l) :
    SegInv S R a b l l where
  len := rfl
  outer := fun _ _ => rfl
  leftF := fun k hk => hok.rfl (hG k (lt_of_lt_of_le hk hab))
  leftB := fun k hk => hok.rfl (hG k (lt_of_lt_of_le hk hab))
  ub := fun _ _ h => h
  lb := fun _ _ h => h
  keep := fun _ h => h

theorem SegInv.good {l0 l1 : List α} (h : SegInv S R a b l0 l1) (hG : Good S b l0) :
    Good S b l1 := h.keep S hG

theorem SegInv.comp (hok : RelOK c S R) (hab : a ≤ b) {l0 l1 l2 : List α}
    (hG : Good S b l0) (g1 : SegInv S R a b l0 l1) (g2 : SegInv S R a b l1 l2) :
    SegInv S R a b l0 l2 where
  len := g2.len.trans g1.len
  outer := fun k hk => (g2.outer k hk).trans (g1.outer k hk)
  leftF := fun k hk => by
    have s0 := hG k (lt_of_lt_of_le hk hab)
    have s1 := g1.good hG k (lt_of_lt_of_le hk hab)
    have s2 := g2.good (g1.good hG) k (lt_of_lt_of_le hk hab)
    exact hok.tr _ _ _ s2 s1 s0 (g2.leftF k hk) (g1.leftF k hk)
  leftB := fun k hk => by
    have s0 := hG k (lt_of_lt_of_le hk hab)
    have s1 := g1.good hG k (lt_of_lt_of_le hk hab)
    have s2 := g2.good (g1.good hG) k (lt_of_lt_of_le hk hab)
    exact hok.tr _ _ _ s0 s1 s2 (g1.leftB k hk) (g2.leftB k hk)
  ub := fun v hv h => g2.ub v hv (g1.ub v hv h)
  lb := fun v hv h => g2.lb v hv (g1.lb v hv h)
  keep := fun P h => g2.keep P (g1.keep P h)

theorem SegInv.widen (hok : RelOK c S R) {a' b' : Nat} (haa : a ≤ a') (hbb : b' ≤ b)
    (hab' : a' ≤ b') {l0 l1 : List α} (hG : Good S b l0) (h : SegInv S R a' b' l0 l1) :
    SegInv S R a b l0 l1 where
  len := h.len
  outer := fun k hk => h.outer k (le_trans hbb hk)
  leftF := fun k hk => h.leftF k (lt_of_lt_of_le hk haa)
  leftB := fun k hk => h.leftB k (lt_of_lt_of_le hk haa)
  ub := fun v hv hbnd k hak hkb => by
    by_cases hk1 : k < a'
    · have s1 : S (rd l1 k) := h.keep S (fun m hm => hG m (lt_of_lt_of_le hm hbb))
        k (lt_of_lt_of_le hk1 hab')
      have s0 : S (rd l0 k) := hG k hkb
      exact hok.tr _ _ _ s1 s0 hv (h.leftF k hk1) (hbnd k hak hkb)
    · by_cases hk2 : k < b'
      · exact h.ub v hv (fun m hm1 hm2 => hbnd m (le_trans haa hm1) (lt_of_lt_of_le hm2 hbb))
          k (le_of_not_lt hk1) hk2
      · rw [h.outer k (le_of_not_lt hk2)]
        exact hbnd k hak hkb
  lb := fun v hv hbnd k hak hkb => by
    by_cases hk1 : k < a'
    · have s1 : S (rd l1 k) := h.keep S (fun m hm => hG m (lt_of_lt_of_le hm hbb))
        k (lt_of_lt_of_le hk1 hab')
      have s0 : S (rd l0 k) := hG k hkb
      exact hok.tr _ _ _ hv s0 s1 (hbnd k hak hkb) (h.leftB k hk1)
    · by_cases hk2 : k < b'
      · exact h.lb v hv (fun m hm1 hm2 => hbnd m (le_trans haa hm1) (lt_of_lt_of_le hm2 hbb))
          k (le_of_not_lt hk1) hk2
      · rw [h.outer k (le_of_not_lt hk2)]
        exact hbnd k hak hkb
  keep := fun P hP k hk => by
    by_cases hk2 : k < b'
    · exact h.keep P (fun m hm => hP m (lt_of_lt_of_le hm hbb)) k hk2
    · rw [h.outer k (le_of_not_lt hk2)]
      exact hP k hk

theorem SegInv.swapIn (hok : RelOK c S R) {l : List α} (hG : Good S b l)
    (hlen : b ≤ l.length) {i j : Nat} (hai : a ≤ i) (hib : i < b) (haj : a ≤ j)
    (hjb : j < b) : SegInv S R a b l (swapL l i j) where
  len := swapL_length l i j
  outer := fun k hk => rd_swapL_of_ne l i j k
    (fun h => absurd (h ▸ hk) (not_le.mpr hib)) (fun h => absurd (h ▸ hk) (not_le.mpr hjb))
  leftF := fun k hk => by
    rw [rd_swapL_of_ne l i j k (fun h => absurd (h ▸ hai) (not_le.mpr hk))
      (fun h => absurd (h ▸ haj) (not_le.mpr hk))]
    exact hok.rfl (hG k (lt_trans hk (lt_of_le_of_lt hai hib)))
  leftB := fun k hk => by
    rw [rd_swapL_of_ne l i j k (fun h => absurd (h ▸ hai) (not_le.mpr hk))
      (fun h => absurd (h ▸ haj) (not_le.mpr hk))]
    exact hok.rfl (hG k (lt_trans hk (lt_of_le_of_lt hai hib)))
  ub := fun v hv hbnd k hak hkb => by
    by_cases hkj : k = j
    · subst hkj
      rw [rd_swapL_right l i k (lt_of_lt_of_le hjb hlen)]
      exact hbnd i hai hib
    · by_cases hki : k = i
      · subst hki
        rw [rd_swapL_left l k j (lt_of_lt_of_le hib hlen)]
        exact hbnd j haj hjb
      · rw [rd_swapL_of_ne l i j k hki hkj]
        exact hbnd k hak hkb
  lb := fun v hv hbnd k hak hkb => by
    by_cases hkj : k = j
    · subst hkj
      rw [rd_swapL_right l i k (lt_of_lt_of_le hjb hlen)]
      exact hbnd i hai hib
    · by_cases hki : k = i
      · subst hki
        rw [rd_swapL_left l k j (lt_of_lt_of_le hib hlen)]
        exact hbnd j haj hjb
      · rw [rd_swapL_of_ne l i j k hki hkj]
        exact hbnd k hak hkb
  keep := fun P hP k hk => by
    by_cases hkj : k = j
    · subst hkj
      rw [rd_swapL_right l i k (lt_of_lt_of_le hjb hlen)]
      exact hP i (lt_of_lt_of_le hib (le_refl b))
    · by_cases hki : k = i
      · subst hki
        rw [rd_swapL_left l k j (lt_of_lt_of_le hib hlen)]
        exact hP j hjb
      · rw [rd_swapL_of_ne l i j k hki hkj]
        exact hP k hk

theorem SegInv.swapCross (hok : RelOK c S R) {l : List α} (hG : Good S b l)
    (hlen : b ≤ l.length) {i j : Nat} (hia : i < a) (hab : a ≤ b) (haj : a ≤ j)
    (hjb : j < b) (hf : R (rd l i) (rd l j)) (hr : R (rd l j) (rd l i)) :
    SegInv S R a b l (swapL l i j) where
  len := swapL_length l i j
  outer := fun k hk => rd_swapL_of_ne l i j k
    (fun h => absurd (h ▸ lt_of_lt_of_le hia hab) (not_lt.mpr hk))
    (fun h => absurd (h ▸ hk) (not_le.mpr hjb))
  leftF := fun k hk => by
    by_cases hki : k = i
    · subst hki
      rw [rd_swapL_left l k j (lt_of_lt_of_le (lt_of_lt_of_le hia hab) hlen)]
      exact hr
    · rw [rd_swapL_of_ne l i j k hki (fun h => absurd (h ▸ haj) (not_le.mpr hk))]
      exact hok.rfl (hG k (lt_of_lt_of_le hk hab))
  leftB := fun k hk => by
    by_cases hki : k = i
    · subst hki
      rw [rd_swapL_left l k j (lt_of_lt_of_le (lt_of_lt_of_le hia hab) hlen)]
      exact hf
    · rw [rd_swapL_of_ne l i j k hki (fun h => absurd (h ▸ haj) (not_le.mpr hk))]
      exact hok.rfl (hG k (lt_of_lt_of_le hk hab))
  ub := fun v hv hbnd k hak hkb => by
    by_cases hkj : k = j
    · subst hkj
      rw [rd_swapL_right l i k (lt_of_lt_of_le hjb hlen)]
      exact hok.tr _ _ _ (hG i (lt_of_lt_of_le hia hab)) (hG k hjb) hv hf (hbnd k haj hjb)
    · rw [rd_swapL_of_ne l i j k (fun h => absurd (h ▸ hak) (not_le.mpr (h ▸ hia)))
        hkj]
      exact hbnd k hak hkb
  lb := fun v hv hbnd k hak hkb => by
    by_cases hkj : k = j
    · subst hkj
      rw [rd_swapL_right l i k (lt_of_lt_of_le hjb hlen)]
      exact hok.tr _ _ _ hv (hG k hjb) (hG i (lt_of_lt_of_le hia hab)) (hbnd k haj hjb) hr
    · rw [rd_swapL_of_ne l i j k (fun h => absurd (h ▸ hak) (not_le.mpr (h ▸ hia)))
        hkj]
      exact hbnd k hak hkb
  keep := fun P hP k hk => by
    by_cases hkj : k = j
    · subst hkj
      rw [rd_swapL_right l i k (lt_of_lt_of_le hjb hlen)]
      exact hP i (lt_of_lt_of_le hia hab)
    · by_cases hki : k = i
      · subst hki
        rw [rd_swapL_left l k j (lt_of_lt_of_le (lt_of_lt_of_le hia hab) hlen)]
        exact hP j hjb
      · rw [rd_swapL_of_ne l i j k hki hkj]
        exact hP k hk

theorem lbOn_seg (hok : RelOK c S R) (hab : a ≤ b) {l0 l1 : List α}
    (hG : Good S b l0) (hLb : LbOn R a b l0) (h : SegInv S R a b l0 l1) :
    LbOn R a b l1 := fun k hk m ham hmb => by
  have s1 : S (rd l1 k) := h.good hG k (lt_of_lt_of_le hk hab)
  have s0 : S (rd l0 k) := hG k (lt_of_lt_of_le hk hab)
  have s2 : S (rd l1 m) := h.good hG m hmb
  exact hok.tr _ _ _ s1 s0 s2 (h.leftF k hk)
    (h.lb (rd l0 k) s0 (fun m' hm1 hm2 => hLb k hk m' hm1 hm2) m ham hmb)

theorem chainOn_of_equiv (hok : RelOK c S R) {K : Nat} (hKb : K ≤ b) {l l' : List α}
    (hG : Good S b l) (hG' : Good S b l')
    (he1 : ∀ k, k < K → R (rd l' k) (rd l k)) (he2 : ∀ k, k < K → R (rd l k) (rd l' k))
    (hc : ChainOn R a K l) : ChainOn R a K l' := fun i hai hi1 => by
  have h1 : i < K := lt_of_le_of_lt (Nat.le_succ i) hi1
  have g1 : S (rd l' i) := hG' i (lt_of_lt_of_le h1 hKb)
  have g2 : S (rd l i) := hG i (lt_of_lt_of_le h1 hKb)
  have g3 : S (rd l (i + 1)) := hG (i + 1) (lt_of_lt_of_le hi1 hKb)
  have g4 : S (rd l' (i + 1)) := hG' (i + 1) (lt_of_lt_of_le hi1 hKb)
  exact hok.tr _ _ _ g1 g3 g4
    (hok.tr _ _ _ g1 g2 g3 (he1 i h1) (hc i hai hi1)) (he2 (i + 1) hi1)

end SegAlgebra

section SegAlgebra2

variable {c : α → α → Bool} {S : α → Prop} {R : α → α → Prop} {a b : Nat}

theorem SegInv.swapLeft (hok : RelOK c S R) {l : List α} (hG : Good S b l)
    (hlen : b ≤ l.length) {i j : Nat} (hia : i < a) (hja : j < a) (hab : a ≤ b)
    (hf : R (rd l i) (rd l j)) (hr : R (rd l j) (rd l i)) :
    SegInv S R a b l (swapL l i j) where
  len := swapL_length l i j
  outer := fun k hk => rd_swapL_of_ne l i j k
    (fun h => absurd (h ▸ lt_of_lt_of_le hia hab) (not_lt.mpr hk))
    (fun h => absurd (h ▸ lt_of_lt_of_le hja hab) (not_lt.mpr hk))
  leftF := fun k hk => by
    by_cases hkj : k = j
    · subst hkj
      rw [rd_swapL_right l i k (lt_of_lt_of_le (lt_of_lt_of_le hja hab) hlen)]
      exact hf
    · by_cases hki : k = i
      · subst hki
        rw [rd_swapL_left l k j (lt_of_lt_of_le (lt_of_lt_of_le hia hab) hlen)]
        exact hr
      · rw [rd_swapL_of_ne l i j k hki hkj]
        exact hok.rfl (hG k (lt_of_lt_of_le hk hab))
  leftB := fun k hk => by
    by_cases hkj : k = j
    · subst hkj
      rw [rd_swapL_right l i k (lt_of_lt_of_le (lt_of_lt_of_le hja hab) hlen)]
      exact hr
    · by_cases hki : k = i
      · subst hki
        rw [rd_swapL_left l k j (lt_of_lt_of_le (lt_of_lt_of_le hia hab) hlen)]
        exact hf
      · rw [rd_swapL_of_ne l i j k hki hkj]
        exact hok.rfl (hG k (lt_of_lt_of_le hk hab))
  ub := fun v hv hbnd k hak hkb => by
    rw [rd_swapL_of_ne l i j k (fun h => absurd (h ▸ hak) (not_le.mpr (h ▸ hia)))
      (fun h => absurd (h ▸ hak) (not_le.mpr (h ▸ hja)))]
    exact hbnd k hak hkb
  lb := fun v hv hbnd k hak hkb => by
    rw [rd_swapL_of_ne l i j k (fun h => absurd (h ▸ hak) (not_le.mpr (h ▸ hia)))
      (fun h => absurd (h ▸ hak) (not_le.mpr (h ▸ hja)))]
    exact hbnd k hak hkb
  keep := fun P hP k hk => by
    by_cases hkj : k = j
    · subst hkj
      rw [rd_swapL_right l i k (lt_of_lt_of_le (lt_of_lt_of_le hja hab) hlen)]
      exact hP i (lt_of_lt_of_le hia hab)
    · by_cases hki : k = i
      · subst hki
        rw [rd_swapL_left l k j (lt_of_lt_of_le (lt_of_lt_of_le hia hab) hlen)]
        exact hP j (lt_of_lt_of_le hja hab)
      · rw [rd_swapL_of_ne l i j k hki hkj]
        exact hP k hk

theorem SegInv.swapCrossR (hok : RelOK c S R) {l : List α} (hG : Good S b l)
    (hlen : b ≤ l.length) {i j : Nat} (hja : j < a) (hab : a ≤ b) (hai : a ≤ i)
    (hib : i < b) (hf : R (rd l i) (rd l j)) (hr : R (rd l j) (rd l i)) :
    SegInv S R a b l (swapL l i j) where
  len := swapL_length l i j
  outer := fun k hk => rd_swapL_of_ne l i j k
    (fun h => absurd (h ▸ hk) (not_le.mpr hib))
    (fun h => absurd (h ▸ lt_of_lt_of_le hja hab) (not_lt.mpr hk))
  leftF := fun k hk => by
    by_cases hkj : k = j
    · subst hkj
      rw [rd_swapL_right l i k (lt_of_lt_of_le (lt_of_lt_of_le hja hab) hlen)]
      exact hf
    · rw [rd_swapL_of_ne l i j k (fun h => absurd (h ▸ hai) (not_le.mpr hk)) hkj]
      exact hok.rfl (hG k (lt_of_lt_of_le hk hab))
  leftB := fun k hk => by
    by_cases hkj : k = j
    · subst hkj
      rw [rd_swapL_right l i k (lt_of_lt_of_le (lt_of_lt_of_le hja hab) hlen)]
      exact hr
    · rw [rd_swapL_of_ne l i j k (fun h => absurd (h ▸ hai) (not_le.mpr hk)) hkj]
      exact hok.rfl (hG k (lt_of_lt_of_le hk hab))
  ub := fun v hv hbnd k hak hkb => by
    by_cases hki : k = i
    · subst hki
      rw [rd_swapL_left l k j (lt_of_lt_of_le hib hlen)]
      exact hok.tr _ _ _ (hG j (lt_of_lt_of_le hja hab)) (hG k hkb) hv hr (hbnd k hak hkb)
    · rw [rd_swapL_of_ne l i j k hki (fun h => absurd (h ▸ hak) (not_le.mpr (h ▸ hja)))]
      exact hbnd k hak hkb
  lb := fun v hv hbnd k hak hkb => by
    by_cases hki : k = i
    · subst hki
      rw [rd_swapL_left l k j (lt_of_lt_of_le hib hlen)]
      exact hok.tr _ _ _ hv (hG k hkb) (hG j (lt_of_lt_of_le hja hab)) (hbnd k hak hkb) hf
    · rw [rd_swapL_of_ne l i j k hki (fun h => absurd (h ▸ hak) (not_le.mpr (h ▸ hja)))]
      exact hbnd k hak hkb
  keep := fun P hP k hk => by
    by_cases hkj : k = j
    · subst hkj
      rw [rd_swapL_right l i k (lt_of_lt_of_le (lt_of_lt_of_le hja hab) hlen)]
      exact hP i hib
    · by_cases hki : k = i
      · subst hki
        rw [rd_swapL_left l k j (lt_of_lt_of_le hib hlen)]
        exact hP j (lt_of_lt_of_le hja hab)
      · rw [rd_swapL_of_ne l i j k hki hkj]
        exact hP k hk

theorem Good.swap {l : List α} (hG : Good S b l) (hlen : b ≤ l.length)
    {i j : Nat} (hib : i < b) (hjb : j < b) : Good S b (swapL l i j) := fun k hk => by
  by_cases hkj : k = j
  · subst hkj
    rw [rd_swapL_right l i k (lt_of_lt_of_le hjb hlen)]
    exact hG i hib
  · by_cases hki : k = i
    · subst hki
      rw [rd_swapL_left l k j (lt_of_lt_of_le hib hlen)]
      exact hG j hjb
    · rw [rd_swapL_of_ne l i j k hki hkj]
      exact hG k hk

end SegAlgebra2

section InsertSpec

variable {c : α → α → Bool} {S : α → Prop} {R : α → α → Prop}

theorem insertInner_spec (hok : RelOK c S R) (g a b T : Nat) (hga : g ≤ a)
    (hab : a ≤ b) (hTb : T ≤ b) :
    ∀ J l, J < T → b ≤ l.length → Good S b l →
      (∀ k, a ≤ k → k + 1 < T → k ≠ J → k + 1 ≠ J → R (rd l k) (rd l (k + 1))) →
      (a + 1 ≤ J → J + 1 < T → R (rd l (J - 1)) (rd l (J + 1))) →
      (J + 1 < T → R (rd l J) (rd l (J + 1))) →
      (∀ k, k < a → k ≠ J → R (rd l k) (rd l J)) →
      SegInv S R a b l (insertInner c g J l) ∧
      ChainOn R a T (insertInner c g J l) := by
  intro J
  induction J with
  | zero =>
    intro l hJT hlen hG hSC _hBr hE _hX
    refine ⟨SegInv.refl hok hab hG, fun k hak hk1 => ?_⟩
    by_cases hk0 : k = 0
    · subst hk0
      exact hE hk1
    · exact hSC k hak hk1 hk0 (by omega)
  | succ j ih =>
    intro l hJT hlen hG hSC hBr hE hX
    by_cases hgd : g < j + 1 ∧ c (rd l (j + 1)) (rd l j) = true
    · have hstep : insertInner c g (j + 1) l = insertInner c g j (swapL l (j + 1) j) := by
        rw [insertInner, if_pos hgd]
      have hjb : j < b := by omega
      have hj1b : j + 1 < b := by omega
      have hjlen : j < l.length := lt_of_lt_of_le hjb hlen
      have hj1len : j + 1 < l.length := lt_of_lt_of_le hj1b hlen
      have hrdj : rd (swapL l (j + 1) j) j = rd l (j + 1) := rd_swapL_right l (j + 1) j hjlen
      have hrdj1 : rd (swapL l (j + 1) j) (j + 1) = rd l j := rd_swapL_left l (j + 1) j hj1len
      have hrdo : ∀ k, k ≠ j → k ≠ j + 1 → rd (swapL l (j + 1) j) k = rd l k := by
        intro k h1 h2
        exact rd_swapL_of_ne l (j + 1) j k h2 h1
      have hG2 : Good S b (swapL l (j + 1) j) := hG.swap hlen hj1b hjb
      have hRxw : R (rd l (j + 1)) (rd l j) :=
        hok.h1 _ _ (hG (j + 1) hj1b) (hG j hjb) hgd.2
      have main := ih (swapL l (j + 1) j) (by omega)
        (by rw [swapL_length]; exact hlen) hG2
        (by
          intro k hak hk1 hkj hk1j
          by_cases hkj1 : k = j + 1
          · subst hkj1
            rw [hrdj1, hrdo (j + 2) (by omega) (by omega)]
            by_cases haj : a ≤ j
            · exact hBr (by omega) hk1
            · have hRwx : R (rd l j) (rd l (j + 1)) := hX j (by omega) (by omega)
              have hxup : R (rd l (j + 1)) (rd l (j + 2)) := hE hk1
              exact hok.tr _ _ _ (hG j hjb) (hG (j + 1) hj1b)
                (hG (j + 2) (by omega)) hRwx hxup
          · rw [hrdo k hkj hkj1, hrdo (k + 1) hk1j (by omega)]
            exact hSC k hak hk1 hkj1 (by omega))
        (by
          intro haj hjT
          rw [hrdo (j - 1) (by omega) (by omega), hrdj1]
          have h := hSC (j - 1) (by omega) (by omega) (by omega) (by omega)
          rwa [Nat.sub_add_cancel (by omega : 1 ≤ j)] at h)
        (by
          intro hjT
          rw [hrdj, hrdj1]
          exact hRxw)
        (by
          intro k hka hkj
          by_cases hkj1 : k = j + 1
          · subst hkj1
            rw [hrdj1, hrdj]
            exact hX j (by omega) (by omega)
          · rw [hrdo k hkj hkj1, hrdj]
            exact hX k hka (by omega))
      rw [hstep]
      refine ⟨?_, main.2⟩
      have hswap : SegInv S R a b l (swapL l (j + 1) j) := by
        by_cases haj : a ≤ j
        · exact SegInv.swapIn hok hG hlen (by omega) hj1b haj hjb
        · by_cases haj1 : a ≤ j + 1
          · have hRwx : R (rd l j) (rd l (j + 1)) := hX j (by omega) (by omega)
            exact SegInv.swapCrossR hok hG hlen (by omega) hab haj1 hj1b hRxw hRwx
          · have hRwx : R (rd l j) (rd l (j + 1)) := hX j (by omega) (by omega)
            exact SegInv.swapLeft hok hG hlen (by omega) (by omega) hab hRxw hRwx
      exact SegInv.comp hok hab hG hswap main.1
    · have hstep : insertInner c g (j + 1) l = l := by
        rw [insertInner, if_neg hgd]
      rw [hstep]
      refine ⟨SegInv.refl hok hab hG, fun k hak hk1 => ?_⟩
      by_cases hkj1 : k = j + 1
      · subst hkj1
        exact hE hk1
      · by_cases hkj : k + 1 = j + 1
        · have hkeq : k = j := by omega
          rw [hkeq]
          by_cases hgj : g < j + 1
          · have hc : c (rd l (j + 1)) (rd l j) = false := by
              cases hcv : c (rd l (j + 1)) (rd l j)
              · rfl
              · exact absurd ⟨hgj, hcv⟩ hgd
            exact hok.h2 _ _ (hG (j + 1) (by omega)) (hG j (by omega)) hc
          · omega
        · exact hSC k hak hk1 hkj1 hkj
    
end InsertSpec

section InsLoopSpec

variable {c : α → α → Bool} {S : α → Prop} {R : α → α → Prop}

theorem insLoop_spec (hok : RelOK c S R) (a b : Nat) (hab : a ≤ b) :
    ∀ fuel i l, a + 1 ≤ i → b ≤ fuel + i → b ≤ l.length → Good S b l →
      LbOn R a b l → ChainOn R a i l →
      SegInv S R a b l (insLoop c a b fuel i l) ∧
      ChainOn R a b (insLoop c a b fuel i l) := by
  intro fuel
  induction fuel with
  | zero =>
    intro i l hai hbf hlen hG hLb hch
    refine ⟨SegInv.refl hok hab hG, fun k hak hk1 => hch k hak (by omega)⟩
  | succ fuel ih =>
    intro i l hai hbf hlen hG hLb hch
    by_cases hib : i < b
    · have hstep : insLoop c a b (fuel + 1) i l =
          insLoop c a b fuel (i + 1) (insertInner c a i l) := by
        rw [insLoop, if_pos hib]
      have gi := insertInner_spec hok a a b (i + 1) (le_refl a) hab (by omega) i l
        (by omega) hlen hG
        (fun k hak hk1 hki hk1i => hch k hak (by omega))
        (fun _ h => absurd h (by omega))
        (fun h => absurd h (by omega))
        (fun k hk hki => hLb k hk i (by omega) hib)
      have hlen1 : b ≤ (insertInner c a i l).length := by
        rw [gi.1.len]; exact hlen
      have hG1 : Good S b (insertInner c a i l) := gi.1.good hG
      have hLb1 : LbOn R a b (insertInner c a i l) := lbOn_seg hok hab hG hLb gi.1
      have main := ih (i + 1) (insertInner c a i l) (by omega) (by omega) hlen1 hG1 hLb1 gi.2
      rw [hstep]
      exact ⟨SegInv.comp hok hab hG gi.1 main.1, main.2⟩
    · have hstep : insLoop c a b (fuel + 1) i l = l := by
        rw [insLoop, if_neg hib]
      rw [hstep]
      exact ⟨SegInv.refl hok hab hG, fun k hak hk1 => hch k hak (by omega)⟩

theorem insertionSort_spec (hok : RelOK c S R) {a b : Nat} (hab : a ≤ b) {l : List α}
    (hlen : b ≤ l.length) (hG : Good S b l) (hLb : LbOn R a b l) :
    SegInv S R a b l (insertionSort c a b l) ∧ ChainOn R a b (insertionSort c a b l) :=
  insLoop_spec hok a b hab b (a + 1) l (le_refl (a + 1)) (by omega) hlen hG hLb
    (fun k hak hk1 => absurd hk1 (by omega))

end InsLoopSpec

section ScanSpec

theorem scanUp_ge (cond : Nat → Bool) (jj : Nat) :
    ∀ fuel i, i ≤ scanUp cond jj fuel i := by
  intro fuel
  induction fuel with
  | zero => intro i; exact le_refl i
  | succ fuel ih =>
    intro i
    rw [scanUp]
    by_cases h : i + 1 ≤ jj ∧ cond i = true
    · rw [if_pos h]
      exact le_trans (by omega) (ih (i + 1))
    · rw [if_neg h]

theorem scanUp_le (cond : Nat → Bool) (jj : Nat) :
    ∀ fuel i, i ≤ jj → scanUp cond jj fuel i ≤ jj := by
  intro fuel
  induction fuel with
  | zero => intro i h; exact h
  | succ fuel ih =>
    intro i h
    rw [scanUp]
    by_cases hc : i + 1 ≤ jj ∧ cond i = true
    · rw [if_pos hc]
      exact ih (i + 1) hc.1
    · rw [if_neg hc]
      exact h

theorem scanUp_scanned (cond : Nat → Bool) (jj : Nat) :
    ∀ fuel i k, i ≤ k → k < scanUp cond jj fuel i → cond k = true := by
  intro fuel
  induction fuel with
  | zero =>
    intro i k h1 h2
    rw [scanUp] at h2
    omega
  | succ fuel ih =>
    intro i k h1 h2
    rw [scanUp] at h2
    by_cases hc : i + 1 ≤ jj ∧ cond i = true
    · rw [if_pos hc] at h2
      by_cases hik : k = i
      · exact hik ▸ hc.2
      · exact ih (i + 1) k (by omega) h2
    · rw [if_neg hc] at h2
      omega

theorem scanUp_stop (cond : Nat → Bool) (jj : Nat) :
    ∀ fuel i, jj ≤ fuel + i → scanUp cond jj fuel i + 1 ≤ jj →
      cond (scanUp cond jj fuel i) = false := by
  intro fuel
  induction fuel with
  | zero =>
    intro i h1 h2
    rw [scanUp] at h2 ⊢
    omega
  | succ fuel ih =>
    intro i h1 h2
    rw [scanUp] at h2 ⊢
    by_cases hc : i + 1 ≤ jj ∧ cond i = true
    · rw [if_pos hc] at h2 ⊢
      exact ih (i + 1) (by omega) h2
    · rw [if_neg hc] at h2 ⊢
      cases hcv : cond i
      · rfl
      · exact absurd ⟨by omega, hcv⟩ hc

theorem scanDown_le (cond : Nat → Bool) (i : Nat) :
    ∀ jj, scanDown cond i jj ≤ jj := by
  intro jj
  induction jj with
  | zero => rw [scanDown]
  | succ jj ih =>
    rw [scanDown]
    by_cases hc : i ≤ jj ∧ cond jj = true
    · rw [if_pos hc]
      exact le_trans ih (by omega)
    · rw [if_neg hc]

theorem scanDown_ge (cond : Nat → Bool) (i : Nat) :
    ∀ jj, i ≤ jj → i ≤ scanDown cond i jj := by
  intro jj
  induction jj with
  | zero => intro h; rw [scanDown]; omega
  | succ jj ih =>
    intro h
    rw [scanDown]
    by_cases hc : i ≤ jj ∧ cond jj = true
    · rw [if_pos hc]
      exact ih hc.1
    · rw [if_neg hc]
      omega

theorem scanDown_scanned (cond : Nat → Bool) (i : Nat) :
    ∀ jj k, scanDown cond i jj ≤ k → k < jj → cond k = true := by
  intro jj
  induction jj with
  | zero => intro k h1 h2; omega
  | succ jj ih =>
    intro k h1 h2
    rw [scanDown] at h1
    by_cases hc : i ≤ jj ∧ cond jj = true
    · rw [if_pos hc] at h1
      by_cases hkj : k = jj
      · exact hkj ▸ hc.2
      · exact ih k h1 (by omega)
    · rw [if_neg hc] at h1
      omega

theorem scanDown_stop (cond : Nat → Bool) (i : Nat) :
    ∀ jj, i < scanDown cond i jj → cond (scanDown cond i jj - 1) = false := by
  intro jj
  induction jj with
  | zero => intro h; rw [scanDown] at h; omega
  | succ jj ih =>
    intro h
    rw [scanDown] at h ⊢
    by_cases hc : i ≤ jj ∧ cond jj = true
    · rw [if_pos hc] at h ⊢
      exact ih h
    · rw [if_neg hc] at h ⊢
      cases hcv : cond jj
      · simpa using hcv
      · exact absurd ⟨by omega, hcv⟩ hc

end ScanSpec

section PartialSpec

variable {c : α → α → Bool} {S : α → Prop} {R : α → α → Prop}

theorem partialScan_ge (b : Nat) :
    ∀ fuel i (l : List α), i ≤ partialScan c b fuel i l := by
  intro fuel
  induction fuel with
  | zero => intro i l; rw [partialScan]
  | succ fuel ih =>
    intro i l
    rw [partialScan]
    by_cases h : i < b ∧ ¬ c (rd l i) (rd l (i - 1)) = true
    · rw [if_pos h]
      exact le_trans (by omega) (ih (i + 1) l)
    · rw [if_neg h]

theorem partialScan_le (b : Nat) :
    ∀ fuel i (l : List α), i ≤ b → partialScan c b fuel i l ≤ b := by
  intro fuel
  induction fuel with
  | zero => intro i l h; rw [partialScan]; exact h
  | succ fuel ih =>
    intro i l h
    rw [partialScan]
    by_cases hc : i < b ∧ ¬ c (rd l i) (rd l (i - 1)) = true
    · rw [if_pos hc]
      exact ih (i + 1) l (by omega)
    · rw [if_neg hc]
      exact h

theorem partialScan_scanned (b : Nat) :
    ∀ fuel i (l : List α) k, i ≤ k → k < partialScan c b fuel i l →
      c (rd l k) (rd l (k - 1)) = false := by
  intro fuel
  induction fuel with
  | zero => intro i l k h1 h2; rw [partialScan] at h2; omega
  | succ fuel ih =>
    intro i l k h1 h2
    rw [partialScan] at h2
    by_cases hc : i < b ∧ ¬ c (rd l i) (rd l (i - 1)) = true
    · rw [if_pos hc] at h2
      by_cases hik : k = i
      · subst hik
        cases hcv : c (rd l k) (rd l (k - 1))
        · rfl
        · exact absurd hcv hc.2
      · exact ih (i + 1) l k (by omega) h2
    · rw [if_neg hc] at h2
      omega

theorem partialScan_stop (b : Nat) :
    ∀ fuel i (l : List α), b ≤ fuel + i → partialScan c b fuel i l < b →
      c (rd l (partialScan c b fuel i l)) (rd l (partialScan c b fuel i l - 1)) = true := by
  intro fuel
  induction fuel with
  | zero => intro i l h1 h2; rw [partialScan] at h2 ⊢; omega
  | succ fuel ih =>
    intro i l h1 h2
    rw [partialScan] at h2 ⊢
    by_cases hc : i < b ∧ ¬ c (rd l i) (rd l (i - 1)) = true
    · rw [if_pos hc] at h2 ⊢
      exact ih (i + 1) l (by omega) h2
    · rw [if_neg hc] at h2 ⊢
      cases hcv : c (rd l i) (rd l (i - 1))
      · exact absurd ⟨h2, by simp [hcv]⟩ hc
      · rfl

theorem shiftLeft_eq_insertInner :
    ∀ j (l : List α), shiftLeft c j l = insertInner c 0 j l := by
  intro j
  induction j with
  | zero => intro l; rw [shiftLeft, insertInner]
  | succ j ih =>
    intro l
    by_cases hc : c (rd l (j + 1)) (rd l j) = true
    · rw [shiftLeft, insertInner, if_pos hc, if_pos ⟨by omega, hc⟩, ih]
    · rw [shiftLeft, insertInner, if_neg hc, if_neg (fun h => hc h.2)]

theorem shiftRight_spec (hok : RelOK c S R) {a b : Nat} (hab : a ≤ b) :
    ∀ fuel j (l : List α), a + 1 ≤ j → b ≤ l.length → Good S b l →
      SegInv S R a b l (shiftRight c b fuel j l) ∧
      (∀ k, k + 1 < j → rd (shiftRight c b fuel j l) k = rd l k) := by
  intro fuel
  induction fuel with
  | zero =>
    intro j l haj hlen hG
    rw [shiftRight]
    exact ⟨SegInv.refl hok hab hG, fun k _ => rfl⟩
  | succ fuel ih =>
    intro j l haj hlen hG
    rw [shiftRight]
    by_cases hc : j < b ∧ c (rd l j) (rd l (j - 1)) = true
    · rw [if_pos hc]
      have hswap : SegInv S R a b l (swapL l j (j - 1)) :=
        SegInv.swapIn hok hG hlen (by omega) hc.1 (by omega) (by omega)
      have main := ih (j + 1) (swapL l j (j - 1)) (by omega)
        (by rw [swapL_length]; exact hlen) (hG.swap hlen hc.1 (by omega))
      refine ⟨SegInv.comp hok hab hG hswap main.1, fun k hk => ?_⟩
      rw [main.2 k (by omega), rd_swapL_of_ne l j (j - 1) k (by omega) (by omega)]
    · rw [if_neg hc]
      exact ⟨SegInv.refl hok hab hG, fun k _ => rfl⟩

theorem pisLoop_spec (hok : RelOK c S R) {a b : Nat} (hab : a ≤ b) :
    ∀ steps i (l : List α), a + 1 ≤ i → i ≤ b → b ≤ l.length → Good S b l →
      LbOn R a b l → ChainOn R a i l →
      SegInv S R a b l (pisLoop c a b steps i l).2 ∧
      ((pisLoop c a b steps i l).1 = true → ChainOn R a b (pisLoop c a b steps i l).2) := by
  intro steps
  induction steps with
  | zero =>
    intro i l hai hib hlen hG hLb hch
    rw [pisLoop]
    exact ⟨SegInv.refl hok hab hG, fun h => by simp at h⟩
  | succ steps ih =>
    intro i l hai hib hlen hG hLb hch
    rw [pisLoop]
    dsimp only
    have hge : i ≤ partialScan c b b i l := partialScan_ge b b i l
    have hle : partialScan c b b i l ≤ b := partialScan_le b b i l hib
    have hchr : ChainOn R a (partialScan c b b i l) l := by
      intro k hak hk1
      by_cases hki : k + 1 < i
      · exact hch k hak hki
      · have hsc : c (rd l (k + 1)) (rd l (k + 1 - 1)) = false := partialScan_scanned b b i l (k + 1) (by omega) hk1
        rw [Nat.add_sub_cancel] at hsc
        exact hok.h2 _ _ (hG (k + 1) (by omega)) (hG k (by omega)) hsc
    by_cases hr : partialScan c b b i l = b
    · rw [if_pos hr]
      refine ⟨SegInv.refl hok hab hG, fun _ => ?_⟩
      rw [← hr]
      exact hchr
    · rw [if_neg hr]
      by_cases h50 : b - a < 50
      · rw [if_pos h50]
        exact ⟨SegInv.refl hok hab hG, fun h => by simp at h⟩
      · rw [if_neg h50]
        set r := partialScan c b b i l with hrdef
        have hrb : r < b := by omega
        have hstop : c (rd l (partialScan c b b i l)) (rd l (partialScan c b b i l - 1)) = true := partialScan_stop b b i l (by omega) hrb
        rw [← hrdef] at hstop
        have hra : a + 1 ≤ r := by omega
        set l1 := swapL l r (r - 1) with hl1def
        have hswap : SegInv S R a b l l1 :=
          SegInv.swapIn hok hG hlen (by omega) hrb (by omega) (by omega)
        have hlen1 : b ≤ l1.length := by
          rw [hl1def, swapL_length]; exact hlen
        have hG1 : Good S b l1 := hG.swap hlen hrb (by omega)
        have hrd1 : rd l1 (r - 1) = rd l r := rd_swapL_right l _ _ (by omega)
        have hrdo : ∀ k, k ≠ r - 1 → k ≠ r → rd l1 k = rd l k :=
          fun k h1 h2 => rd_swapL_of_ne l _ _ k h2 h1
        set l2 := if 2 ≤ r - a then shiftLeft c (r - 1) l1 else l1 with hl2def
        have hshl : SegInv S R a b l1 l2 ∧ ChainOn R a r l2 := by
          by_cases hsh : 2 ≤ r - a
          · rw [hl2def, if_pos hsh, shiftLeft_eq_insertInner]
            refine insertInner_spec hok 0 a b r (by omega) hab
              (by omega) (r - 1) l1 (by omega) hlen1 hG1 ?_ ?_ ?_ ?_
            · intro k hak hk1 hkj hk1j
              rw [hrdo k hkj (by omega), hrdo (k + 1) hk1j (by omega)]
              exact hchr k hak hk1
            · intro h1 h2
              omega
            · intro h1
              omega
            · intro k hka hkj
              rw [hrdo k (by omega) (by omega), hrd1]
              exact hLb k hka r (by omega) hrb
          · rw [hl2def, if_neg hsh]
            exact ⟨SegInv.refl hok hab hG1, fun k hak hk1 => absurd hk1 (by omega)⟩
        have hlen2 : b ≤ l2.length := by rw [hshl.1.len]; exact hlen1
        have hG2 : Good S b l2 := hshl.1.good hG1
        set l3 := if 2 ≤ b - r then shiftRight c b b (r + 1) l2 else l2 with hl3def
        have hshr : SegInv S R a b l2 l3 ∧ ChainOn R a r l3 := by
          by_cases hsh : 2 ≤ b - r
          · rw [hl3def, if_pos hsh]
            have hsr := shiftRight_spec hok hab b (r + 1) l2 (by omega) hlen2 hG2
            refine ⟨hsr.1, ?_⟩
            intro k hak hk1
            rw [hsr.2 k (by omega), hsr.2 (k + 1) (by omega)]
            exact hshl.2 k hak hk1
          · rw [hl3def, if_neg hsh]
            exact ⟨SegInv.refl hok hab hG2, hshl.2⟩
        have hseg3 : SegInv S R a b l l3 :=
          SegInv.comp hok hab hG hswap (SegInv.comp hok hab (hswap.good hG) hshl.1 hshr.1)
        have main := ih r l3 hra (by omega)
          (by rw [hseg3.len]; exact hlen) (hseg3.good hG)
          (lbOn_seg hok hab hG hLb hseg3) hshr.2
        exact ⟨SegInv.comp hok hab hG hseg3 main.1, main.2⟩

theorem partialInsertionSort_spec (hok : RelOK c S R) {a b : Nat} (hab : a + 1 ≤ b)
    {l : List α} (hlen : b ≤ l.length) (hG : Good S b l) (hLb : LbOn R a b l) :
    SegInv S R a b l (partialInsertionSort c a b l).2 ∧
    ((partialInsertionSort c a b l).1 = true →
      ChainOn R a b (partialInsertionSort c a b l).2) :=
  pisLoop_spec hok (by omega) 5 (a + 1) l (le_refl (a + 1)) hab hlen hG hLb
    (fun k hak hk1 => absurd hk1 (by omega))

end PartialSpec

section ScanSpec2

theorem scanUp_le1 (cond : Nat → Bool) (jj : Nat) :
    ∀ fuel i, i ≤ jj + 1 → scanUp cond jj fuel i ≤ jj + 1 := by
  intro fuel
  induction fuel with
  | zero => intro i h; exact h
  | succ fuel ih =>
    intro i h
    rw [scanUp]
    by_cases hc : i + 1 ≤ jj ∧ cond i = true
    · rw [if_pos hc]
      exact ih (i + 1) (by omega)
    · rw [if_neg hc]
      exact h

theorem scanUp_le2 (cond : Nat → Bool) (jj b : Nat) (hjb : jj ≤ b) :
    ∀ fuel i, i ≤ b → scanUp cond jj fuel i ≤ b := by
  intro fuel
  induction fuel with
  | zero => intro i h; exact h
  | succ fuel ih =>
    intro i h
    rw [scanUp]
    by_cases hc : i + 1 ≤ jj ∧ cond i = true
    · rw [if_pos hc]
      exact ih (i + 1) (by omega)
    · rw [if_neg hc]
      exact h

theorem scanDown_of_gt (cond : Nat → Bool) (i : Nat) :
    ∀ jj, 1 ≤ jj → jj < i → scanDown cond i jj = jj := by
  intro jj h1 h2
  match jj, h1 with
  | m + 1, _ =>
    rw [scanDown, if_neg (fun h => by omega)]

end ScanSpec2

section PartitionSpec

variable {c : α → α → Bool} {S : α → Prop} {R : α → α → Prop}

theorem partitionLoop_spec (hok : RelOK c S R) (a b : Nat) :
    ∀ fuel i jj (l : List α), a + 1 ≤ i → i ≤ b → i ≤ jj + 1 → a + 1 ≤ jj → jj < b →
      b + 1 ≤ fuel + i → b ≤ l.length → Good S b l →
      (∀ k, a + 1 ≤ k → k < i → c (rd l k) (rd l a) = true) →
      (∀ k, jj ≤ k → k < b → c (rd l k) (rd l a) = false) →
      SegInv S R a b l (partitionLoop c a fuel i jj l).2 ∧
      a ≤ (partitionLoop c a fuel i jj l).1 ∧ (partitionLoop c a fuel i jj l).1 < b ∧
      (∀ k, a ≤ k → k < (partitionLoop c a fuel i jj l).1 →
        R (rd (partitionLoop c a fuel i jj l).2 k)
          (rd (partitionLoop c a fuel i jj l).2 (partitionLoop c a fuel i jj l).1)) ∧
      (∀ k, (partitionLoop c a fuel i jj l).1 < k → k < b →
        R (rd (partitionLoop c a fuel i jj l).2 (partitionLoop c a fuel i jj l).1)
          (rd (partitionLoop c a fuel i jj l).2 k)) := by
  intro fuel
  induction fuel with
  | zero =>
    intro i jj l hai hib hij haj hjb hfuel hlen hG hleft hright
    omega
  | succ fuel ih =>
    intro i jj l hai hib hij haj hjb hfuel hlen hG hleft hright
    rw [partitionLoop]
    set i1 := scanUp (fun k => c (rd l k) (rd l a)) jj jj i with hi1def
    set jj1 := scanDown (fun k => ¬ c (rd l k) (rd l a)) i1 jj with hjj1def
    have hi1ge : i ≤ i1 := scanUp_ge _ jj jj i
    have hi1le : i1 ≤ jj + 1 := scanUp_le1 _ jj jj i hij
    have hi1b : i1 ≤ b := scanUp_le2 _ jj b (by omega) jj i hib
    have hjj1le : jj1 ≤ jj := scanDown_le _ i1 jj
    have hjj1ge : a + 1 ≤ jj1 := by
      by_cases hcase : i1 ≤ jj
      · have h := scanDown_ge (fun k => ¬ c (rd l k) (rd l a)) i1 jj hcase
        rw [← hjj1def] at h
        omega
      · rw [hjj1def, scanDown_of_gt _ i1 jj (by omega) (by omega)]
        exact haj
    have hup : ∀ k, a + 1 ≤ k → k < i1 → c (rd l k) (rd l a) = true := by
      intro k h1 h2
      by_cases hk : k < i
      · exact hleft k h1 hk
      · exact scanUp_scanned _ jj jj i k (by omega) h2
    have hdown : ∀ k, jj1 ≤ k → k < b → c (rd l k) (rd l a) = false := by
      intro k h1 h2
      by_cases hk : jj ≤ k
      · exact hright k hk h2
      · have h := scanDown_scanned (fun k => ¬ c (rd l k) (rd l a)) i1 jj k h1 (by omega)
        have h' := of_decide_eq_true h
        cases hcv : c (rd l k) (rd l a)
        · rfl
        · exact absurd hcv h'
    by_cases hbr : jj1 ≤ i1
    · rw [if_pos hbr]
      have hmb : jj1 - 1 < b := by omega
      have hma : a ≤ jj1 - 1 := by omega
      have hseg : SegInv S R a b l (swapL l (jj1 - 1) a) :=
        SegInv.swapIn hok hG hlen hma hmb (le_refl a) (by omega)
      have hrdm : rd (swapL l (jj1 - 1) a) (jj1 - 1) = rd l a :=
        rd_swapL_left l (jj1 - 1) a (by omega)
      have hrda : rd (swapL l (jj1 - 1) a) a = rd l (jj1 - 1) :=
        rd_swapL_right l (jj1 - 1) a (by omega)
      have hrdo : ∀ k, k ≠ jj1 - 1 → k ≠ a → rd (swapL l (jj1 - 1) a) k = rd l k :=
        fun k h1 h2 => rd_swapL_of_ne l (jj1 - 1) a k h1 h2
      refine ⟨hseg, hma, hmb, ?_, ?_⟩
      · intro k hak hkm
        rw [hrdm]
        by_cases hka : k = a
        · rw [hka, hrda]
          have hm1 : c (rd l (jj1 - 1)) (rd l a) = true := hup (jj1 - 1) (by omega) (by omega)
          exact hok.h1 _ _ (hG (jj1 - 1) (by omega)) (hG a (by omega)) hm1
        · rw [hrdo k (by omega) hka]
          exact hok.h1 _ _ (hG k (by omega)) (hG a (by omega)) (hup k (by omega) (by omega))
      · intro k hmk hkb
        rw [hrdm, hrdo k (by omega) (by omega)]
        exact hok.h2 _ _ (hG k hkb) (hG a (by omega)) (hdown k (by omega) hkb)
    · rw [if_neg hbr]
      have hlt : i1 < jj1 := by omega
      have hi1a : a + 1 ≤ i1 := by omega
      have hjj1b : jj1 - 1 < b := by omega
      have hseg : SegInv S R a b l (swapL l i1 (jj1 - 1)) :=
        SegInv.swapIn hok hG hlen (by omega) (by omega) (by omega) hjj1b
      have hrdi : rd (swapL l i1 (jj1 - 1)) i1 = rd l (jj1 - 1) :=
        rd_swapL_left l i1 (jj1 - 1) (by omega)
      have hrdj : rd (swapL l i1 (jj1 - 1)) (jj1 - 1) = rd l i1 := by
        by_cases he : i1 = jj1 - 1
        · rw [← he]
          exact rd_swapL_left l i1 i1 (by omega)
        · exact rd_swapL_right l i1 (jj1 - 1) (by omega)
      have hrdo : ∀ k, k ≠ i1 → k ≠ jj1 - 1 → rd (swapL l i1 (jj1 - 1)) k = rd l k :=
        fun k h1 h2 => rd_swapL_of_ne l i1 (jj1 - 1) k h1 h2
      have hrda : rd (swapL l i1 (jj1 - 1)) a = rd l a :=
        hrdo a (by omega) (by omega)
      have hstopu : c (rd l i1) (rd l a) = false := by
        have h := scanUp_stop (fun k => c (rd l k) (rd l a)) jj jj i (by omega)
          (by rw [← hi1def]; omega)
        rw [← hi1def] at h
        exact h
      have hstopd : c (rd l (jj1 - 1)) (rd l a) = true := by
        have h := scanDown_stop (fun k => ¬ c (rd l k) (rd l a)) i1 jj
          (by rw [← hjj1def]; omega)
        rw [← hjj1def] at h
        have h' := of_decide_eq_false h
        exact not_not.mp h'
      have main := ih (i1 + 1) (jj1 - 1) (swapL l i1 (jj1 - 1)) (by omega) (by omega)
        (by omega) (by omega) (by omega) (by omega)
        (by rw [swapL_length]; exact hlen)
        (hG.swap hlen (by omega) hjj1b)
        (by
          intro k h1 h2
          rw [hrda]
          by_cases hki : k = i1
          · rw [hki, hrdi]
            exact hstopd
          · rw [hrdo k hki (by omega)]
            exact hup k h1 (by omega))
        (by
          intro k h1 h2
          rw [hrda]
          by_cases hkj : k = jj1 - 1
          · rw [hkj, hrdj]
            exact hstopu
          · rw [hrdo k (by omega) hkj]
            exact hdown k (by omega) h2)
      exact ⟨SegInv.comp hok (by omega) hG hseg main.1, main.2.1, main.2.2.1,
        main.2.2.2.1, main.2.2.2.2⟩

end PartitionSpec

section PartitionSpec2

variable {c : α → α → Bool} {S : α → Prop} {R : α → α → Prop}

theorem partition_spec (hok : RelOK c S R) {a b pivot : Nat} (hap : a ≤ pivot)
    (hpb : pivot < b) {l : List α} (hlen : b ≤ l.length) (hG : Good S b l) :
    SegInv S R a b l (partition c a b pivot l).2.2 ∧
    a ≤ (partition c a b pivot l).1 ∧ (partition c a b pivot l).1 < b ∧
    (∀ k, a ≤ k → k < (partition c a b pivot l).1 →
      R (rd (partition c a b pivot l).2.2 k)
        (rd (partition c a b pivot l).2.2 (partition c a b pivot l).1)) ∧
    (∀ k, (partition c a b pivot l).1 < k → k < b →
      R (rd (partition c a b pivot l).2.2 (partition c a b pivot l).1)
        (rd (partition c a b pivot l).2.2 k)) := by
  have hab : a < b := lt_of_le_of_lt hap hpb
  rw [partition]
  set l0 := swapL l a pivot with hl0def
  set i0 := scanUp (fun k => c (rd l0 k) (rd l0 a)) b b (a + 1) with hi0def
  set jj0 := scanDown (fun k => ¬ c (rd l0 k) (rd l0 a)) i0 b with hjj0def
  have hsw : SegInv S R a b l l0 :=
    SegInv.swapIn hok hG hlen (le_refl a) hab hap hpb
  have hlen0 : b ≤ l0.length := by rw [hl0def, swapL_length]; exact hlen
  have hG0 : Good S b l0 := hG.swap hlen hab hpb
  have hi0ge : a + 1 ≤ i0 := scanUp_ge _ b b (a + 1)
  have hi0le : i0 ≤ b := scanUp_le _ b b (a + 1) hab
  have hup : ∀ k, a + 1 ≤ k → k < i0 → c (rd l0 k) (rd l0 a) = true :=
    fun k h1 h2 => scanUp_scanned _ b b (a + 1) k h1 h2
  have hjj0le : jj0 ≤ b := scanDown_le _ i0 b
  have hjj0ge : i0 ≤ jj0 := by
    have h := scanDown_ge (fun k => ¬ c (rd l0 k) (rd l0 a)) i0 b hi0le
    rw [← hjj0def] at h
    exact h
  have hdown : ∀ k, jj0 ≤ k → k < b → c (rd l0 k) (rd l0 a) = false := by
    intro k h1 h2
    have h := scanDown_scanned (fun k => ¬ c (rd l0 k) (rd l0 a)) i0 b k h1 h2
    have h' := of_decide_eq_true h
    cases hcv : c (rd l0 k) (rd l0 a)
    · rfl
    · exact absurd hcv h'
  by_cases hbr : jj0 ≤ i0
  · rw [if_pos hbr]
    have hmb : jj0 - 1 < b := by omega
    have hma : a ≤ jj0 - 1 := by omega
    have hseg : SegInv S R a b l0 (swapL l0 (jj0 - 1) a) :=
      SegInv.swapIn hok hG0 hlen0 hma hmb (le_refl a) hab
    have hrdm : rd (swapL l0 (jj0 - 1) a) (jj0 - 1) = rd l0 a :=
      rd_swapL_left l0 (jj0 - 1) a (by omega)
    have hrda : rd (swapL l0 (jj0 - 1) a) a = rd l0 (jj0 - 1) :=
      rd_swapL_right l0 (jj0 - 1) a (by omega)
    have hrdo : ∀ k, k ≠ jj0 - 1 → k ≠ a → rd (swapL l0 (jj0 - 1) a) k = rd l0 k :=
      fun k h1 h2 => rd_swapL_of_ne l0 (jj0 - 1) a k h1 h2
    refine ⟨SegInv.comp hok (by omega) hG hsw hseg, hma, hmb, ?_, ?_⟩
    · intro k hak hkm
      rw [hrdm]
      by_cases hka : k = a
      · rw [hka, hrda]
        have hm1 : c (rd l0 (jj0 - 1)) (rd l0 a) = true := hup (jj0 - 1) (by omega) (by omega)
        exact hok.h1 _ _ (hG0 (jj0 - 1) (by omega)) (hG0 a hab) hm1
      · rw [hrdo k (by omega) hka]
        exact hok.h1 _ _ (hG0 k (by omega)) (hG0 a hab) (hup k (by omega) (by omega))
    · intro k hmk hkb
      rw [hrdm, hrdo k (by omega) (by omega)]
      exact hok.h2 _ _ (hG0 k hkb) (hG0 a hab) (hdown k (by omega) hkb)
  · rw [if_neg hbr]
    have hlt : i0 < jj0 := by omega
    have hjj1b : jj0 - 1 < b := by omega
    have hseg : SegInv S R a b l0 (swapL l0 i0 (jj0 - 1)) :=
      SegInv.swapIn hok hG0 hlen0 (by omega) (by omega) (by omega) hjj1b
    have hrdi : rd (swapL l0 i0 (jj0 - 1)) i0 = rd l0 (jj0 - 1) :=
      rd_swapL_left l0 i0 (jj0 - 1) (by omega)
    have hrdj : rd (swapL l0 i0 (jj0 - 1)) (jj0 - 1) = rd l0 i0 := by
      by_cases he : i0 = jj0 - 1
      · rw [← he]
        exact rd_swapL_left l0 i0 i0 (by omega)
      · exact rd_swapL_right l0 i0 (jj0 - 1) (by omega)
    have hrdo : ∀ k, k ≠ i0 → k ≠ jj0 - 1 → rd (swapL l0 i0 (jj0 - 1)) k = rd l0 k :=
      fun k h1 h2 => rd_swapL_of_ne l0 i0 (jj0 - 1) k h1 h2
    have hrda : rd (swapL l0 i0 (jj0 - 1)) a = rd l0 a :=
      hrdo a (by omega) (by omega)
    have hstopu : c (rd l0 i0) (rd l0 a) = false := by
      have h := scanUp_stop (fun k => c (rd l0 k) (rd l0 a)) b b (a + 1) (by omega)
        (by rw [← hi0def]; omega)
      rw [← hi0def] at h
      exact h
    have hstopd : c (rd l0 (jj0 - 1)) (rd l0 a) = true := by
      have h := scanDown_stop (fun k => ¬ c (rd l0 k) (rd l0 a)) i0 b
        (by rw [← hjj0def]; omega)
      rw [← hjj0def] at h
      have h' := of_decide_eq_false h
      exact not_not.mp h'
    have main := partitionLoop_spec hok a b b (i0 + 1) (jj0 - 1) (swapL l0 i0 (jj0 - 1))
      (by omega) (by omega) (by omega) (by omega) (by omega) (by omega)
      (by rw [swapL_length]; exact hlen0)
      (hG0.swap hlen0 (by omega) hjj1b)
      (by
        intro k h1 h2
        rw [hrda]
        by_cases hki : k = i0
        · rw [hki, hrdi]
          exact hstopd
        · rw [hrdo k hki (by omega)]
          exact hup k h1 (by omega))
      (by
        intro k h1 h2
        rw [hrda]
        by_cases hkj : k = jj0 - 1
        · rw [hkj, hrdj]
          exact hstopu
        · rw [hrdo k (by omega) hkj]
          exact hdown k (by omega) h2)
    exact ⟨SegInv.comp hok (by omega) hG hsw (SegInv.comp hok (by omega) hG0 hseg main.1),
      main.2.1, main.2.2.1, main.2.2.2.1, main.2.2.2.2⟩

end PartitionSpec2

section PartitionEqualSpec

variable {c : α → α → Bool} {S : α → Prop} {R : α → α → Prop}

theorem partitionEqualLoop_spec (hok : RelOK c S R) (a b : Nat) :
    ∀ fuel i jj (l : List α), a + 1 ≤ i → i ≤ b → i ≤ jj + 1 → jj ≤ b →
      b + 1 ≤ fuel + i → b ≤ l.length → Good S b l →
      (∀ k, a + 1 ≤ k → k < i → c (rd l a) (rd l k) = false) →
      (∀ k, jj ≤ k → k < b → c (rd l a) (rd l k) = true) →
      SegInv S R a b l (partitionEqualLoop c a fuel i jj l).2 ∧
      a + 1 ≤ (partitionEqualLoop c a fuel i jj l).1 ∧
      (partitionEqualLoop c a fuel i jj l).1 ≤ b ∧
      rd (partitionEqualLoop c a fuel i jj l).2 a = rd l a ∧
      (∀ k, a + 1 ≤ k → k < (partitionEqualLoop c a fuel i jj l).1 →
        c (rd (partitionEqualLoop c a fuel i jj l).2 a)
          (rd (partitionEqualLoop c a fuel i jj l).2 k) = false) ∧
      (∀ k, (partitionEqualLoop c a fuel i jj l).1 ≤ k → k < b →
        c (rd (partitionEqualLoop c a fuel i jj l).2 a)
          (rd (partitionEqualLoop c a fuel i jj l).2 k) = true) := by
  intro fuel
  induction fuel with
  | zero =>
    intro i jj l hai hib hij hjb hfuel hlen hG hleft hright
    omega
  | succ fuel ih =>
    intro i jj l hai hib hij hjb hfuel hlen hG hleft hright
    rw [partitionEqualLoop]
    set i1 := scanUp (fun k => ¬ c (rd l a) (rd l k)) jj jj i with hi1def
    set jj1 := scanDown (fun k => c (rd l a) (rd l k)) i1 jj with hjj1def
    have hi1ge : i ≤ i1 := scanUp_ge _ jj jj i
    have hi1le : i1 ≤ jj + 1 := scanUp_le1 _ jj jj i hij
    have hi1b : i1 ≤ b := scanUp_le2 _ jj b hjb jj i hib
    have hjj1le : jj1 ≤ jj := scanDown_le _ i1 jj
    have hup : ∀ k, a + 1 ≤ k → k < i1 → c (rd l a) (rd l k) = false := by
      intro k h1 h2
      by_cases hk : k < i
      · exact hleft k h1 hk
      · have h := scanUp_scanned (fun k => ¬ c (rd l a) (rd l k)) jj jj i k (by omega) h2
        have h' := of_decide_eq_true h
        cases hcv : c (rd l a) (rd l k)
        · rfl
        · exact absurd hcv h'
    have hdown : ∀ k, jj1 ≤ k → k < b → c (rd l a) (rd l k) = true := by
      intro k h1 h2
      by_cases hk : jj ≤ k
      · exact hright k hk h2
      · exact scanDown_scanned (fun k => c (rd l a) (rd l k)) i1 jj k h1 (by omega)
    by_cases hbr : jj1 ≤ i1
    · rw [if_pos hbr]
      refine ⟨SegInv.refl hok (by omega) hG, by omega, hi1b, rfl, hup, ?_⟩
      intro k h1 h2
      exact hdown k (by omega) h2
    · rw [if_neg hbr]
      have hlt : i1 < jj1 := by omega
      have hjj1b : jj1 - 1 < b := by omega
      have hseg : SegInv S R a b l (swapL l i1 (jj1 - 1)) :=
        SegInv.swapIn hok hG hlen (by omega) (by omega) (by omega) hjj1b
      have hrdi : rd (swapL l i1 (jj1 - 1)) i1 = rd l (jj1 - 1) :=
        rd_swapL_left l i1 (jj1 - 1) (by omega)
      have hrdj : rd (swapL l i1 (jj1 - 1)) (jj1 - 1) = rd l i1 := by
        by_cases he : i1 = jj1 - 1
        · rw [← he]
          exact rd_swapL_left l i1 i1 (by omega)
        · exact rd_swapL_right l i1 (jj1 - 1) (by omega)
      have hrdo : ∀ k, k ≠ i1 → k ≠ jj1 - 1 → rd (swapL l i1 (jj1 - 1)) k = rd l k :=
        fun k h1 h2 => rd_swapL_of_ne l i1 (jj1 - 1) k h1 h2
      have hrda : rd (swapL l i1 (jj1 - 1)) a = rd l a :=
        hrdo a (by omega) (by omega)
      have hstopu : c (rd l a) (rd l i1) = true := by
        have h := scanUp_stop (fun k => ¬ c (rd l a) (rd l k)) jj jj i (by omega)
          (by rw [← hi1def]; omega)
        rw [← hi1def] at h
        have h' := of_decide_eq_false h
        exact not_not.mp h'
      have hstopd : c (rd l a) (rd l (jj1 - 1)) = false := by
        have h := scanDown_stop (fun k => c (rd l a) (rd l k)) i1 jj
          (by rw [← hjj1def]; omega)
        rw [← hjj1def] at h
        exact h
      have main := ih (i1 + 1) (jj1 - 1) (swapL l i1 (jj1 - 1)) (by omega) (by omega)
        (by omega) (by omega) (by omega)
        (by rw [swapL_length]; exact hlen)
        (hG.swap hlen (by omega) hjj1b)
        (by
          intro k h1 h2
          rw [hrda]
          by_cases hki : k = i1
          · rw [hki, hrdi]
            exact hstopd
          · rw [hrdo k hki (by omega)]
            exact hup k h1 (by omega))
        (by
          intro k h1 h2
          rw [hrda]
          by_cases hkj : k = jj1 - 1
          · rw [hkj, hrdj]
            exact hstopu
          · rw [hrdo k (by omega) hkj]
            exact hdown k (by omega) h2)
      refine ⟨SegInv.comp hok (by omega) hG hseg main.1, main.2.1, main.2.2.1, ?_,
        main.2.2.2.2.1, main.2.2.2.2.2⟩
      rw [main.2.2.2.1, hrda]

theorem partitionEqual_spec (hok : RelOK c S R) (a b pivot : Nat) (hap : a ≤ pivot)
    (hpb : pivot < b) {l : List α} (hlen : b ≤ l.length) (hG : Good S b l) :
    SegInv S R a b l (partitionEqual c a b pivot l).2 ∧
    a + 1 ≤ (partitionEqual c a b pivot l).1 ∧ (partitionEqual c a b pivot l).1 ≤ b ∧
    rd (partitionEqual c a b pivot l).2 a = rd l pivot ∧
    (∀ k, a ≤ k → k < (partitionEqual c a b pivot l).1 →
      R (rd (partitionEqual c a b pivot l).2 k) (rd (partitionEqual c a b pivot l).2 a)) ∧
    (∀ k, (partitionEqual c a b pivot l).1 ≤ k → k < b →
      R (rd (partitionEqual c a b pivot l).2 a) (rd (partitionEqual c a b pivot l).2 k)) := by
  have hab : a < b := lt_of_le_of_lt hap hpb
  rw [partitionEqual]
  set l0 := swapL l a pivot with hl0def
  have hsw : SegInv S R a b l l0 :=
    SegInv.swapIn hok hG hlen (le_refl a) hab hap hpb
  have hlen0 : b ≤ l0.length := by rw [hl0def, swapL_length]; exact hlen
  have hG0 : Good S b l0 := hG.swap hlen hab hpb
  have hrda : rd l0 a = rd l pivot := rd_swapL_left l a pivot (by omega)
  have main := partitionEqualLoop_spec hok a b b (a + 1) b l0 (le_refl (a + 1)) hab
    (by omega) (le_refl b) (by omega) hlen0 hG0
    (fun k h1 h2 => absurd h1 (by omega))
    (fun k h1 h2 => absurd h1 (by omega))
  have hGm : Good S b (partitionEqualLoop c a b (a + 1) b l0).2 := main.1.good hG0
  refine ⟨SegInv.comp hok (by omega) hG hsw main.1, main.2.1, main.2.2.1,
    by rw [main.2.2.2.1, hrda], ?_, ?_⟩
  · intro k hak hkm
    by_cases hka : k = a
    · rw [hka]
      exact hok.rfl (hGm a hab)
    · exact hok.h2 _ _ (hGm a hab) (hGm k (by omega))
        (main.2.2.2.2.1 k (by omega) hkm)
  · intro k hmk hkb
    exact hok.h1 _ _ (hGm a hab) (hGm k hkb) (main.2.2.2.2.2 k hmk hkb)

end PartitionEqualSpec

section PivotSpec

theorem order2_mem1 (c : α → α → Bool) (l : List α) (x y s : Nat) :
    (order2 c l x y s).1 = x ∨ (order2 c l x y s).1 = y := by
  rw [order2]
  by_cases h : c (rd l y) (rd l x) = true
  · rw [if_pos h]
    exact Or.inr rfl
  · rw [if_neg h]
    exact Or.inl rfl

theorem order2_mem2 (c : α → α → Bool) (l : List α) (x y s : Nat) :
    (order2 c l x y s).2.1 = x ∨ (order2 c l x y s).2.1 = y := by
  rw [order2]
  by_cases h : c (rd l y) (rd l x) = true
  · rw [if_pos h]
    exact Or.inl rfl
  · rw [if_neg h]
    exact Or.inr rfl

theorem median_mem (c : α → α → Bool) (l : List α) (x y z s : Nat) :
    (median c l x y z s).1 = x ∨ (median c l x y z s).1 = y ∨
      (median c l x y z s).1 = z := by
  rw [median]
  rcases order2_mem2 c l (order2 c l x y s).1
      (order2 c l (order2 c l x y s).2.1 z (order2 c l x y s).2.2).1
      (order2 c l (order2 c l x y s).2.1 z (order2 c l x y s).2.2).2.2 with h3 | h3
  · rw [h3]
    rcases order2_mem1 c l x y s with h1 | h1
    · exact Or.inl h1
    · exact Or.inr (Or.inl h1)
  · rw [h3]
    rcases order2_mem1 c l (order2 c l x y s).2.1 z (order2 c l x y s).2.2 with h2 | h2
    · rw [h2]
      rcases order2_mem2 c l x y s with h4 | h4
      · exact Or.inl h4
      · exact Or.inr (Or.inl h4)
    · exact Or.inr (Or.inr h2)

theorem medianAdjacent_mem (c : α → α → Bool) (l : List α) (x s : Nat) :
    (medianAdjacent c l x s).1 = x - 1 ∨ (medianAdjacent c l x s).1 = x ∨
      (medianAdjacent c l x s).1 = x + 1 := by
  rw [medianAdjacent]
  exact median_mem c l (x - 1) x (x + 1) s

theorem choosePivot_mem (c : α → α → Bool) (l : List α) (a b : Nat)
    (hab : 13 ≤ b - a) :
    a ≤ (choosePivot c a b l).1 ∧ (choosePivot c a b l).1 < b := by
  rw [choosePivot]
  have h8 : 8 ≤ b - a := by omega
  rw [if_pos h8]
  have hq : 3 ≤ (b - a) / 4 := by omega
  have hq4 : (b - a) / 4 * 4 ≤ b - a := by omega
  by_cases h50 : 50 ≤ b - a
  · rw [if_pos h50]
    have hq12 : 12 ≤ (b - a) / 4 := by omega
    rcases medianAdjacent_mem c l (a + (b - a) / 4 * 1) 0 with hi | hi | hi <;>
      rcases medianAdjacent_mem c l (a + (b - a) / 4 * 2)
        (medianAdjacent c l (a + (b - a) / 4 * 1) 0).2 with hj | hj | hj <;>
      rcases medianAdjacent_mem c l (a + (b - a) / 4 * 3)
        (medianAdjacent c l (a + (b - a) / 4 * 2)
          (medianAdjacent c l (a + (b - a) / 4 * 1) 0).2).2 with hk | hk | hk <;>
      rcases median_mem c l (medianAdjacent c l (a + (b - a) / 4 * 1) 0).1
        (medianAdjacent c l (a + (b - a) / 4 * 2)
          (medianAdjacent c l (a + (b - a) / 4 * 1) 0).2).1
        (medianAdjacent c l (a + (b - a) / 4 * 3)
          (medianAdjacent c l (a + (b - a) / 4 * 2)
            (medianAdjacent c l (a + (b - a) / 4 * 1) 0).2).2).1
        (medianAdjacent c l (a + (b - a) / 4 * 3)
          (medianAdjacent c l (a + (b - a) / 4 * 2)
            (medianAdjacent c l (a + (b - a) / 4 * 1) 0).2).2).2 with hm | hm | hm <;>
      rw [hm] <;> omega
  · rw [if_neg h50]
    rcases median_mem c l (a + (b - a) / 4 * 1) (a + (b - a) / 4 * 2)
        (a + (b - a) / 4 * 3) 0 with hm | hm | hm <;>
      rw [hm] <;> omega

end PivotSpec

section ScatterSpec

variable {c : α → α → Bool} {S : α → Prop} {R : α → α → Prop}

theorem revLoop_seg (hok : RelOK c S R) (a b : Nat) (hab : a ≤ b) :
    ∀ fuel i j (l : List α), a ≤ i → j < b → b ≤ l.length → Good S b l →
      SegInv S R a b l (revLoop fuel i j l) := by
  intro fuel
  induction fuel with
  | zero =>
    intro i j l hai hjb hlen hG
    rw [revLoop]
    exact SegInv.refl hok hab hG
  | succ fuel ih =>
    intro i j l hai hjb hlen hG
    rw [revLoop]
    by_cases hij : i < j
    · rw [if_pos hij]
      have hswap : SegInv S R a b l (swapL l i j) :=
        SegInv.swapIn hok hG hlen hai (by omega) (by omega) hjb
      have main := ih (i + 1) (j - 1) (swapL l i j) (by omega) (by omega)
        (by rw [swapL_length]; exact hlen) (hG.swap hlen (by omega) hjb)
      exact SegInv.comp hok hab hG hswap main
    · rw [if_neg hij]
      exact SegInv.refl hok hab hG

theorem reverseRange_seg (hok : RelOK c S R) {a b : Nat} (hab : a < b) {l : List α}
    (hlen : b ≤ l.length) (hG : Good S b l) :
    SegInv S R a b l (reverseRange a b l) := by
  rw [reverseRange]
  exact revLoop_seg hok a b (by omega) b a (b - 1) l (le_refl a) (by omega) hlen hG

theorem breakPatterns_seg (hok : RelOK c S R) {a b : Nat} (hab : a ≤ b) {l : List α}
    (hlen : b ≤ l.length) (hG : Good S b l) :
    SegInv S R a b l (breakPatterns a b l) := by
  rw [breakPatterns]
  by_cases h8 : 8 ≤ b - a
  · rw [if_pos h8]
    have hmod : ∀ x : Nat, x &&& (1 <<< bitsLen (b - a) - 1) ≤ 2 * (b - a) - 1 := by
      intro x
      have h1 : x &&& (1 <<< bitsLen (b - a) - 1) ≤ 1 <<< bitsLen (b - a) - 1 :=
        Nat.and_le_right
      have h2 : 1 <<< bitsLen (b - a) ≤ 2 * (b - a) := by
        rw [Nat.one_shiftLeft, bitsLen, if_neg (show ¬ b - a = 0 by omega), pow_succ]
        have h3 := Nat.log2_self_le (show b - a ≠ 0 by omega)
        omega
      omega
    have hoth : ∀ x : Nat, x ≤ 2 * (b - a) - 1 →
        (if b - a ≤ x then x - (b - a) else x) < b - a := by
      intro x hx
      split <;> omega
    have hstep : ∀ (r t : Nat) (ll : List α), t ≤ 2 → b ≤ ll.length → Good S b ll →
        SegInv S R a b ll (swapL ll (a + (b - a) / 4 * 2 - 1 - 1 + t)
          (a + (if b - a ≤ xorshiftNext r &&& (1 <<< bitsLen (b - a) - 1) then
            (xorshiftNext r &&& (1 <<< bitsLen (b - a) - 1)) - (b - a)
          else xorshiftNext r &&& (1 <<< bitsLen (b - a) - 1)))) := by
      intro r t ll ht hllen hllG
      have hq : 2 ≤ (b - a) / 4 := by omega
      have hq4 : (b - a) / 4 * 4 ≤ b - a := by omega
      have ho := hoth _ (hmod (xorshiftNext r))
      exact SegInv.swapIn hok hllG hllen (by omega) (by omega) (by omega) (by omega)
    have hg1 := hstep (b - a) 0 l (by omega) hlen hG
    have hg2 := hstep (xorshiftNext (b - a)) 1 (swapL l (a + (b - a) / 4 * 2 - 1 - 1 + 0) (a + (if b - a ≤ xorshiftNext (b - a) &&& (1 <<< bitsLen (b - a) - 1) then (xorshiftNext (b - a) &&& (1 <<< bitsLen (b - a) - 1)) - (b - a) else xorshiftNext (b - a) &&& (1 <<< bitsLen (b - a) - 1)))) (by omega)
      (by rw [swapL_length]; exact hlen) (hg1.good hG)
    have hg3 := hstep (xorshiftNext (xorshiftNext (b - a))) 2 (swapL (swapL l (a + (b - a) / 4 * 2 - 1 - 1 + 0) (a + (if b - a ≤ xorshiftNext (b - a) &&& (1 <<< bitsLen (b - a) - 1) then (xorshiftNext (b - a) &&& (1 <<< bitsLen (b - a) - 1)) - (b - a) else xorshiftNext (b - a) &&& (1 <<< bitsLen (b - a) - 1)))) (a + (b - a) / 4 * 2 - 1 - 1 + 1) (a + (if b - a ≤ xorshiftNext (xorshiftNext (b - a)) &&& (1 <<< bitsLen (b - a) - 1) then (xorshiftNext (xorshiftNext (b - a)) &&& (1 <<< bitsLen (b - a) - 1)) - (b - a) else xorshiftNext (xorshiftNext (b - a)) &&& (1 <<< bitsLen (b - a) - 1)))) (by omega)
      (by rw [swapL_length, swapL_length]; exact hlen) (hg2.good (hg1.good hG))
    exact SegInv.comp hok hab hG hg1 (SegInv.comp hok hab (hg1.good hG) hg2 hg3)
  · rw [if_neg h8]
    exact SegInv.refl hok hab hG

end ScatterSpec

section HeapSpec

variable {c : α → α → Bool} {S : α → Prop} {R : α → α → Prop}

theorem siftDown_out (hi first : Nat) :
    ∀ fuel root (l : List α) k, (k < first + root ∨ first + hi ≤ k) →
      rd (siftDown c hi first fuel root l) k = rd l k := by
  intro fuel
  induction fuel with
  | zero => intro root l k hk; rw [siftDown]
  | succ fuel ih =>
    intro root l k hk
    rw [siftDown]
    by_cases hg : 2 * root + 1 < hi
    · rw [if_pos hg]
      set child := if 2 * root + 2 < hi ∧
          c (rd l (first + (2 * root + 1))) (rd l (first + (2 * root + 2))) = true
        then 2 * root + 2 else 2 * root + 1 with hchdef
      have hch1 : 2 * root + 1 ≤ child := by
        rw [hchdef]; split <;> omega
      have hch2 : child < hi := by
        rw [hchdef]; split
        · omega
        · exact hg
      by_cases hc : c (rd l (first + root)) (rd l (first + child)) = true
      · rw [if_pos hc, ih child _ k (by omega),
          rd_swapL_of_ne l (first + root) (first + child) k (by omega) (by omega)]
      · rw [if_neg hc]
    · rw [if_neg hg]

theorem siftDown_touch (hi first : Nat) :
    ∀ fuel root (l : List α) k, k ≠ first + root → k < first + (2 * root + 1) →
      rd (siftDown c hi first fuel root l) k = rd l k := by
  intro fuel
  induction fuel with
  | zero => intro root l k h1 h2; rw [siftDown]
  | succ fuel ih =>
    intro root l k h1 h2
    rw [siftDown]
    by_cases hg : 2 * root + 1 < hi
    · rw [if_pos hg]
      set child := if 2 * root + 2 < hi ∧
          c (rd l (first + (2 * root + 1))) (rd l (first + (2 * root + 2))) = true
        then 2 * root + 2 else 2 * root + 1 with hchdef
      have hch1 : 2 * root + 1 ≤ child := by
        rw [hchdef]; split <;> omega
      by_cases hc : c (rd l (first + root)) (rd l (first + child)) = true
      · rw [if_pos hc, ih child _ k (by omega) (by omega),
          rd_swapL_of_ne l (first + root) (first + child) k h1 (by omega)]
      · rw [if_neg hc]
    · rw [if_neg hg]

theorem siftDown_root (hi first : Nat) :
    ∀ fuel root (l : List α), first + hi ≤ l.length →
      rd (siftDown c hi first fuel root l) (first + root) = rd l (first + root) ∨
      (2 * root + 1 < hi ∧ rd (siftDown c hi first fuel root l) (first + root) =
        rd l (first + (2 * root + 1))) ∨
      (2 * root + 2 < hi ∧ rd (siftDown c hi first fuel root l) (first + root) =
        rd l (first + (2 * root + 2))) := by
  intro fuel
  induction fuel with
  | zero => intro root l hlen; rw [siftDown]; exact Or.inl rfl
  | succ fuel ih =>
    intro root l hlen
    rw [siftDown]
    by_cases hg : 2 * root + 1 < hi
    · rw [if_pos hg]
      set child := if 2 * root + 2 < hi ∧
          c (rd l (first + (2 * root + 1))) (rd l (first + (2 * root + 2))) = true
        then 2 * root + 2 else 2 * root + 1 with hchdef
      have hch1 : 2 * root + 1 ≤ child := by
        rw [hchdef]; split <;> omega
      have hch2 : child < hi := by
        rw [hchdef]; split
        · omega
        · exact hg
      have hchor : child = 2 * root + 1 ∨ child = 2 * root + 2 := by
        rw [hchdef]; split
        · exact Or.inr rfl
        · exact Or.inl rfl
      by_cases hc : c (rd l (first + root)) (rd l (first + child)) = true
      · rw [if_pos hc]
        have huntouched : rd (siftDown c hi first fuel child
            (swapL l (first + root) (first + child))) (first + root) =
            rd (swapL l (first + root) (first + child)) (first + root) :=
          siftDown_touch hi first fuel child _ (first + root) (by omega) (by omega)
        have hval : rd (swapL l (first + root) (first + child)) (first + root) =
            rd l (first + child) :=
          rd_swapL_left l (first + root) (first + child) (by omega)
        rw [huntouched, hval]
        rcases hchor with hco | hco
        · exact Or.inr (Or.inl ⟨hg, by rw [hco]⟩)
        · refine Or.inr (Or.inr ⟨?_, by rw [hco]⟩)
          omega
      · rw [if_neg hc]
        exact Or.inl rfl
    · rw [if_neg hg]
      exact Or.inl rfl

theorem siftDown_seg (hok : RelOK c S R) {a b : Nat} (hab : a ≤ b) {hi first : Nat}
    (haf : a ≤ first) (hfb : first + hi ≤ b) :
    ∀ fuel root (l : List α), b ≤ l.length → Good S b l →
      SegInv S R a b l (siftDown c hi first fuel root l) := by
  intro fuel
  induction fuel with
  | zero =>
    intro root l hlen hG
    rw [siftDown]
    exact SegInv.refl hok hab hG
  | succ fuel ih =>
    intro root l hlen hG
    rw [siftDown]
    by_cases hg : 2 * root + 1 < hi
    · rw [if_pos hg]
      set child := if 2 * root + 2 < hi ∧
          c (rd l (first + (2 * root + 1))) (rd l (first + (2 * root + 2))) = true
        then 2 * root + 2 else 2 * root + 1 with hchdef
      have hch1 : 2 * root + 1 ≤ child := by
        rw [hchdef]; split <;> omega
      have hch2 : child < hi := by
        rw [hchdef]; split
        · omega
        · exact hg
      by_cases hc : c (rd l (first + root)) (rd l (first + child)) = true
      · rw [if_pos hc]
        have hswap : SegInv S R a b l (swapL l (first + root) (first + child)) :=
          SegInv.swapIn hok hG hlen (by omega) (by omega) (by omega) (by omega)
        have main := ih child (swapL l (first + root) (first + child))
          (by rw [swapL_length]; exact hlen) (hG.swap hlen (by omega) (by omega))
        exact SegInv.comp hok hab hG hswap main
      · rw [if_neg hc]
        exact SegInv.refl hok hab hG
    · rw [if_neg hg]
      exact SegInv.refl hok hab hG

theorem siftDown_heap (hok : RelOK c S R) {b hi first : Nat} (hfb : first + hi ≤ b) :
    ∀ fuel root (l : List α), hi ≤ fuel + root → b ≤ l.length → Good S b l →
      (∀ r ch, root < r → ch < hi → (ch = 2 * r + 1 ∨ ch = 2 * r + 2) →
        R (rd l (first + ch)) (rd l (first + r))) →
      ∀ r ch, root ≤ r → ch < hi → (ch = 2 * r + 1 ∨ ch = 2 * r + 2) →
        R (rd (siftDown c hi first fuel root l) (first + ch))
          (rd (siftDown c hi first fuel root l) (first + r)) := by
  intro fuel
  induction fuel with
  | zero =>
    intro root l hfuel hlen hG hpre r ch hr hch hrel
    omega
  | succ fuel ih =>
    intro root l hfuel hlen hG hpre
    rw [siftDown]
    by_cases hg : 2 * root + 1 < hi
    · rw [if_pos hg]
      set child := if 2 * root + 2 < hi ∧
          c (rd l (first + (2 * root + 1))) (rd l (first + (2 * root + 2))) = true
        then 2 * root + 2 else 2 * root + 1 with hchdef
      have hch1 : 2 * root + 1 ≤ child := by
        rw [hchdef]; split <;> omega
      have hch2 : child < hi := by
        rw [hchdef]; split
        · omega
        · exact hg
      have hchor : child = 2 * root + 1 ∨ child = 2 * root + 2 := by
        rw [hchdef]; split
        · exact Or.inr rfl
        · exact Or.inl rfl
      have hsib : ∀ other, other < hi → (other = 2 * root + 1 ∨ other = 2 * root + 2) →
          R (rd l (first + other)) (rd l (first + child)) := by
        intro other hoh hor
        by_cases hsel : 2 * root + 2 < hi ∧
            c (rd l (first + (2 * root + 1))) (rd l (first + (2 * root + 2))) = true
        · have hce : child = 2 * root + 2 := by rw [hchdef, if_pos hsel]
          rcases hor with ho | ho
          · rw [ho, hce]
            exact hok.h1 _ _ (hG _ (by omega)) (hG _ (by omega)) hsel.2
          · rw [ho, hce]
            exact hok.rfl (hG _ (by omega))
        · have hce : child = 2 * root + 1 := by rw [hchdef, if_neg hsel]
          rcases hor with ho | ho
          · rw [ho, hce]
            exact hok.rfl (hG _ (by omega))
          · rw [ho, hce]
            have hcf : c (rd l (first + (2 * root + 1))) (rd l (first + (2 * root + 2))) =
                false := by
              cases hcv : c (rd l (first + (2 * root + 1))) (rd l (first + (2 * root + 2)))
              · rfl
              · exact absurd ⟨by omega, hcv⟩ hsel
            exact hok.h2 _ _ (hG _ (by omega)) (hG _ (by omega)) hcf
      by_cases hc : c (rd l (first + root)) (rd l (first + child)) = true
      · rw [if_pos hc]
        have hlen2 : b ≤ (swapL l (first + root) (first + child)).length := by
          rw [swapL_length]; exact hlen
        have hG2 : Good S b (swapL l (first + root) (first + child)) :=
          hG.swap hlen (by omega) (by omega)
        have hrdroot : rd (swapL l (first + root) (first + child)) (first + root) =
            rd l (first + child) :=
          rd_swapL_left l (first + root) (first + child) (by omega)
        have hrdchild : rd (swapL l (first + root) (first + child)) (first + child) =
            rd l (first + root) :=
          rd_swapL_right l (first + root) (first + child) (by omega)
        have hrdo : ∀ k, k ≠ first + root → k ≠ first + child →
            rd (swapL l (first + root) (first + child)) k = rd l k :=
          fun k h1 h2 => rd_swapL_of_ne l (first + root) (first + child) k h1 h2
        have hpre2 : ∀ r ch, child < r → ch < hi → (ch = 2 * r + 1 ∨ ch = 2 * r + 2) →
            R (rd (swapL l (first + root) (first + child)) (first + ch))
              (rd (swapL l (first + root) (first + child)) (first + r)) := by
          intro r ch hr hch hrel
          rw [hrdo (first + ch) (by omega) (by omega),
            hrdo (first + r) (by omega) (by omega)]
          exact hpre r ch (by omega) hch hrel
        have main := ih child (swapL l (first + root) (first + child)) (by omega)
          hlen2 hG2 hpre2
        have hlow : rd (siftDown c hi first fuel child
            (swapL l (first + root) (first + child))) (first + root) =
            rd l (first + child) := by
          rw [siftDown_out hi first fuel child _ (first + root) (Or.inl (by omega)),
            hrdroot]
        intro r ch hr hch hrel
        by_cases hrchild : child ≤ r
        · exact main r ch hrchild hch hrel
        · by_cases hrroot : r = root
          · rw [hrroot] at hrel ⊢
            rw [hlow]
            by_cases hcheq : ch = child
            · rw [hcheq]
              rcases siftDown_root hi first fuel child
                  (swapL l (first + root) (first + child)) (by omega) with hv | hv | hv
              · rw [hv, hrdchild]
                exact hok.h1 _ _ (hG _ (by omega)) (hG _ (by omega)) hc
              · obtain ⟨hv1, hv2⟩ := hv
                rw [hv2, hrdo (first + (2 * child + 1)) (by omega) (by omega)]
                exact hpre child (2 * child + 1) (by omega) (by omega) (Or.inl rfl)
              · obtain ⟨hv1, hv2⟩ := hv
                rw [hv2, hrdo (first + (2 * child + 2)) (by omega) (by omega)]
                exact hpre child (2 * child + 2) (by omega) (by omega) (Or.inr rfl)
            · have huntouch : rd (siftDown c hi first fuel child
                  (swapL l (first + root) (first + child))) (first + ch) =
                  rd l (first + ch) := by
                rw [siftDown_touch hi first fuel child _ (first + ch) (by omega) (by omega),
                  hrdo (first + ch) (by omega) (by omega)]
              rw [huntouch]
              exact hsib ch hch hrel
          · have hrmid : root < r ∧ r < child := by omega
            have hchne : ch ≠ child := by
              rcases hchor with hco | hco <;> omega
            have hp1 : rd (siftDown c hi first fuel child
                (swapL l (first + root) (first + child))) (first + r) =
                rd l (first + r) := by
              rw [siftDown_touch hi first fuel child _ (first + r) (by omega) (by omega),
                hrdo (first + r) (by omega) (by omega)]
            have hp2 : rd (siftDown c hi first fuel child
                (swapL l (first + root) (first + child))) (first + ch) =
                rd l (first + ch) := by
              rw [siftDown_touch hi first fuel child _ (first + ch) (by omega) (by omega),
                hrdo (first + ch) (by omega) (by omega)]
            rw [hp1, hp2]
            exact hpre r ch (by omega) hch hrel
      · rw [if_neg hc]
        intro r ch hr hch hrel
        by_cases hrroot : r = root
        · rw [hrroot] at hrel ⊢
          have hcf : R (rd l (first + child)) (rd l (first + root)) :=
            hok.h2 _ _ (hG _ (by omega)) (hG _ (by omega))
              (by cases hcv : c (rd l (first + root)) (rd l (first + child))
                  · rfl
                  · exact absurd hcv hc)
          exact hok.tr _ _ _ (hG _ (by omega)) (hG _ (by omega)) (hG _ (by omega))
            (hsib ch hch hrel) hcf
        · exact hpre r ch (by omega) hch hrel
    · rw [if_neg hg]
      intro r ch hr hch hrel
      by_cases hrroot : r = root
      · omega
      · exact hpre r ch (by omega) hch hrel

theorem heap_root_max (hok : RelOK c S R) {b first cnt : Nat} (hfb : first + cnt ≤ b)
    {l : List α} (hG : Good S b l)
    (hheap : ∀ r ch, ch < cnt → (ch = 2 * r + 1 ∨ ch = 2 * r + 2) →
      R (rd l (first + ch)) (rd l (first + r))) :
    ∀ k, k < cnt → R (rd l (first + k)) (rd l first) := by
  intro k
  induction k using Nat.strong_induction_on with
  | _ k ih =>
    intro hk
    by_cases hk0 : k = 0
    · rw [hk0]
      have : first + 0 = first := by omega
      rw [this]
      exact hok.rfl (hG first (by omega))
    · have hpar : k = 2 * ((k - 1) / 2) + 1 ∨ k = 2 * ((k - 1) / 2) + 2 := by omega
      have h1 : R (rd l (first + k)) (rd l (first + (k - 1) / 2)) :=
        hheap ((k - 1) / 2) k hk hpar
      have h2 : R (rd l (first + (k - 1) / 2)) (rd l first) :=
        ih ((k - 1) / 2) (by omega) (by omega)
      exact hok.tr _ _ _ (hG _ (by omega)) (hG _ (by omega)) (hG _ (by omega)) h1 h2

theorem heapBuild_spec (hok : RelOK c S R) {a b hi : Nat} (hab : a ≤ b)
    (hfb : a + hi ≤ b) :
    ∀ num (l : List α), b ≤ l.length → Good S b l →
      (∀ r ch, num ≤ r → ch < hi → (ch = 2 * r + 1 ∨ ch = 2 * r + 2) →
        R (rd l (a + ch)) (rd l (a + r))) →
      SegInv S R a b l (loopDown (fun i l => siftDown c hi a hi i l) 0 num l) ∧
      (∀ r ch, ch < hi → (ch = 2 * r + 1 ∨ ch = 2 * r + 2) →
        R (rd (loopDown (fun i l => siftDown c hi a hi i l) 0 num l) (a + ch))
          (rd (loopDown (fun i l => siftDown c hi a hi i l) 0 num l) (a + r))) := by
  intro num
  induction num with
  | zero =>
    intro l hlen hG hpre
    rw [loopDown]
    exact ⟨SegInv.refl hok hab hG, fun r ch h1 h2 => hpre r ch (by omega) h1 h2⟩
  | succ num ih =>
    intro l hlen hG hpre
    rw [loopDown]
    have hz : 0 + num = num := by omega
    rw [hz]
    have hsd : ∀ r ch, num ≤ r → ch < hi → (ch = 2 * r + 1 ∨ ch = 2 * r + 2) →
        R (rd (siftDown c hi a hi num l) (a + ch)) (rd (siftDown c hi a hi num l) (a + r)) :=
      siftDown_heap hok hfb hi num l (by omega) hlen hG
        (fun r ch hr h1 h2 => hpre r ch (by omega) h1 h2)
    have hseg : SegInv S R a b l (siftDown c hi a hi num l) :=
      siftDown_seg hok hab (le_refl a) hfb hi num l hlen hG
    have main := ih (siftDown c hi a hi num l)
      (by rw [hseg.len]; exact hlen) (hseg.good hG) hsd
    exact ⟨SegInv.comp hok hab hG hseg main.1, main.2⟩

theorem heapPop_spec (hok : RelOK c S R) {a b hi : Nat} (hab : a ≤ b)
    (hfb : a + hi ≤ b) :
    ∀ num (l : List α), num + 1 ≤ hi → b ≤ l.length → Good S b l →
      (∀ r ch, ch < num + 1 → (ch = 2 * r + 1 ∨ ch = 2 * r + 2) →
        R (rd l (a + ch)) (rd l (a + r))) →
      ChainOn R (a + num + 1) (a + hi) l →
      (∀ k k', k ≤ num → num + 1 ≤ k' → k' < hi → R (rd l (a + k)) (rd l (a + k'))) →
      SegInv S R a b l
        (loopDown (fun i l => siftDown c i a i 0 (swapL l a (a + i))) 1 num l) ∧
      ChainOn R a (a + hi)
        (loopDown (fun i l => siftDown c i a i 0 (swapL l a (a + i))) 1 num l) := by
  intro num
  induction num with
  | zero =>
    intro l hnum hlen hG hheap hchain hcross
    rw [loopDown]
    refine ⟨SegInv.refl hok hab hG, fun i hai hi1 => ?_⟩
    by_cases hia : i = a
    · rw [hia]
      have h1 : a + 1 = a + 0 + 1 := by omega
      exact hcross 0 1 (by omega) (by omega) (by omega)
    · exact hchain i (by omega) hi1
  | succ num ih =>
    intro l hnum hlen hG hheap hchain hcross
    rw [loopDown]
    have hz : 1 + num = num + 1 := by omega
    rw [hz]
    have hn1b : a + (num + 1) < b := by omega
    have hswapseg : SegInv S R a b l (swapL l a (a + (num + 1))) :=
      SegInv.swapIn hok hG hlen (le_refl a) (by omega) (by omega) hn1b
    have hlen1 : b ≤ (swapL l a (a + (num + 1))).length := by
      rw [swapL_length]; exact hlen
    have hG1 : Good S b (swapL l a (a + (num + 1))) := hG.swap hlen (by omega) hn1b
    have hrda : rd (swapL l a (a + (num + 1))) a = rd l (a + (num + 1)) :=
      rd_swapL_left l a (a + (num + 1)) (by omega)
    have hrdn : rd (swapL l a (a + (num + 1))) (a + (num + 1)) = rd l a :=
      rd_swapL_right l a (a + (num + 1)) (by omega)
    have hrdo : ∀ k, k ≠ a → k ≠ a + (num + 1) →
        rd (swapL l a (a + (num + 1))) k = rd l k :=
      fun k h1 h2 => rd_swapL_of_ne l a (a + (num + 1)) k h1 h2
    have hmax : ∀ k, k < num + 2 → R (rd l (a + k)) (rd l a) :=
      heap_root_max hok (by omega) hG hheap
    have hpre2 : ∀ r ch, 0 < r → ch < num + 1 → (ch = 2 * r + 1 ∨ ch = 2 * r + 2) →
        R (rd (swapL l a (a + (num + 1))) (a + ch))
          (rd (swapL l a (a + (num + 1))) (a + r)) := by
      intro r ch hr hch hrel
      rw [hrdo (a + ch) (by omega) (by omega), hrdo (a + r) (by omega) (by omega)]
      exact hheap r ch (by omega) hrel
    have hheap2 : ∀ r ch, ch < num + 1 → (ch = 2 * r + 1 ∨ ch = 2 * r + 2) →
        R (rd (siftDown c (num + 1) a (num + 1) 0 (swapL l a (a + (num + 1)))) (a + ch))
          (rd (siftDown c (num + 1) a (num + 1) 0 (swapL l a (a + (num + 1)))) (a + r)) :=
      fun r ch h1 h2 => siftDown_heap hok (show a + (num + 1) ≤ b by omega) (num + 1) 0
        (swapL l a (a + (num + 1))) (by omega) hlen1 hG1 (fun r ch hr h1 h2 => hpre2 r ch hr h1 h2)
        r ch (by omega) h1 h2
    have hsdseg : SegInv S R a b (swapL l a (a + (num + 1)))
        (siftDown c (num + 1) a (num + 1) 0 (swapL l a (a + (num + 1)))) :=
      siftDown_seg hok hab (le_refl a) (by omega) (num + 1) 0 _ hlen1 hG1
    have hsdsegN : SegInv S R a (a + (num + 1)) (swapL l a (a + (num + 1)))
        (siftDown c (num + 1) a (num + 1) 0 (swapL l a (a + (num + 1)))) :=
      siftDown_seg hok (by omega) (le_refl a) (le_refl (a + (num + 1))) (num + 1) 0 _
        (by omega) (fun k hk => hG1 k (by omega))
    have hhigh : ∀ k, a + (num + 1) ≤ k →
        rd (siftDown c (num + 1) a (num + 1) 0 (swapL l a (a + (num + 1)))) k =
        rd (swapL l a (a + (num + 1))) k :=
      fun k hk => siftDown_out (num + 1) a (num + 1) 0 _ k (Or.inr hk)
    set l2 := siftDown c (num + 1) a (num + 1) 0 (swapL l a (a + (num + 1))) with hl2def
    have hG2 : Good S b l2 := hsdseg.good hG1
    have hchain2 : ChainOn R (a + num + 1) (a + hi) l2 := by
      intro i hi1 hi2
      have he1 : rd l2 i = rd (swapL l a (a + (num + 1))) i := hhigh i (by omega)
      have he2 : rd l2 (i + 1) = rd (swapL l a (a + (num + 1))) (i + 1) :=
        hhigh (i + 1) (by omega)
      rw [he1, he2]
      by_cases hieq : i = a + (num + 1)
      · rw [hieq, hrdn, hrdo (a + (num + 1) + 1) (by omega) (by omega)]
        have h2 : a + (num + 1) + 1 = a + (num + 2) := by omega
        rw [h2]
        exact hcross 0 (num + 2) (by omega) (by omega) (by omega)
      · rw [hrdo i (by omega) (by omega), hrdo (i + 1) (by omega) (by omega)]
        exact hchain i (by omega) hi2
    have hub : ∀ k, k ≤ num → R (rd l2 (a + k)) (rd l a) := by
      intro k hk
      refine hsdsegN.ub (rd l a) (hG a (by omega)) ?_ (a + k) (by omega) (by omega)
      intro m ham hmb
      by_cases hma : m = a
      · rw [hma, hrda]
        exact hmax (num + 1) (by omega)
      · rw [hrdo m hma (by omega)]
        have hmk : m - a < num + 2 := by omega
        have h := hmax (m - a) hmk
        have hme : a + (m - a) = m := by omega
        rw [hme] at h
        exact h
    have hcross2 : ∀ k k', k ≤ num → num + 1 ≤ k' → k' < hi →
        R (rd l2 (a + k)) (rd l2 (a + k')) := by
      intro k k' hk hk1 hk2
      have hrk : rd l2 (a + k') = rd (swapL l a (a + (num + 1))) (a + k') :=
        hhigh (a + k') (by omega)
      by_cases hkn : k' = num + 1
      · rw [hrk, hkn, hrdn]
        exact hub k hk
      · rw [hrk, hrdo (a + k') (by omega) (by omega)]
        have hMk : R (rd l a) (rd l (a + k')) := hcross 0 k' (by omega) (by omega) hk2
        exact hok.tr _ _ _ (hG2 _ (by omega)) (hG a (by omega)) (hG _ (by omega))
          (hub k hk) hMk
    have main := ih l2 (by omega) (by rw [hsdseg.len, swapL_length]; exact hlen) hG2
      hheap2 hchain2 hcross2
    refine ⟨SegInv.comp hok hab hG hswapseg (SegInv.comp hok hab hG1 hsdseg main.1),
      main.2⟩

theorem heapSort_spec (hok : RelOK c S R) {a b : Nat} (hab : a ≤ b) {l : List α}
    (hlen : b ≤ l.length) (hG : Good S b l) :
    SegInv S R a b l (heapSort c a b l) ∧ ChainOn R a b (heapSort c a b l) := by
  rw [heapSort]
  have hbuild := heapBuild_spec hok hab (show a + (b - a) ≤ b by omega)
    ((b - a - 1) / 2 + 1) l hlen hG
    (fun r ch hr h1 h2 => absurd h1 (by omega))
  set lb := loopDown (fun i l => siftDown c (b - a) a (b - a) i l) 0
    ((b - a - 1) / 2 + 1) l with hlbdef
  by_cases hba : b - a = 0
  · have hpop : loopDown (fun i l => siftDown c i a i 0 (swapL l a (a + i))) 1
        (b - a - 1) lb = lb := by
      rw [hba]
      rw [loopDown]
    rw [hpop]
    exact ⟨hbuild.1, fun i hi1 hi2 => absurd hi2 (by omega)⟩
  · have hpop := heapPop_spec hok hab (show a + (b - a) ≤ b by omega) (b - a - 1) lb
      (by omega) (by rw [hbuild.1.len]; exact hlen) (hbuild.1.good hG)
      (fun r ch h1 h2 => hbuild.2 r ch (by omega) h2)
      (fun i hi1 hi2 => absurd hi2 (by omega))
      (fun k k' hk hk1 hk2 => absurd hk1 (by omega))
    refine ⟨SegInv.comp hok hab hG hbuild.1 hpop.1, ?_⟩
    have h := hpop.2
    have he : a + (b - a) = b := by omega
    rw [he] at h
    exact h

end HeapSpec

section MasterSpec

variable {c : α → α → Bool} {S : α → Prop} {R : α → α → Prop}

theorem pdqsortLoop_spec (hok : RelOK c S R) :
    ∀ fuel a b limit wb wp (l : List α), a ≤ b → b ≤ l.length → b - a < fuel →
      Good S b l → LbOn R a b l →
      SegInv S R a b l (pdqsortLoop c fuel a b limit wb wp l) ∧
      ChainOn R a b (pdqsortLoop c fuel a b limit wb wp l) := by
  intro fuel
  induction fuel with
  | zero =>
    intro a b limit wb wp l hab hlen hfuel hG hLb
    omega
  | succ fuel ih =>
    intro a b limit wb wp l hab hlen hfuel hG hLb
    rw [pdqsortLoop]
    by_cases h12 : b - a ≤ 12
    · rw [if_pos h12]
      exact insertionSort_spec hok hab hlen hG hLb
    · rw [if_neg h12]
      by_cases hlim : limit = 0
      · rw [if_pos hlim]
        exact heapSort_spec hok hab hlen hG
      · rw [if_neg hlim]
        set gl := if ¬ wb = true then (breakPatterns a b l, limit - 1) else (l, limit)
          with hgldef
        have hseg1 : SegInv S R a b l gl.1 := by
          rw [hgldef]
          split
          · exact breakPatterns_seg hok hab hlen hG
          · exact SegInv.refl hok hab hG
        have hlen1 : b ≤ gl.1.length := by rw [hseg1.len]; exact hlen
        have hG1 : Good S b gl.1 := hseg1.good hG
        have hLb1 : LbOn R a b gl.1 := lbOn_seg hok hab hG hLb hseg1
        set ph := choosePivot c a b gl.1 with hphdef
        set phl := if ph.2 = SortHint.decreasing
          then ((b - 1) - (ph.1 - a), SortHint.increasing, reverseRange a b gl.1)
          else (ph.1, ph.2, gl.1) with hphldef
        have hpm : a ≤ ph.1 ∧ ph.1 < b := by
          rw [hphdef]
          exact choosePivot_mem c gl.1 a b (by omega)
        have hpiv : a ≤ phl.1 ∧ phl.1 < b := by
          rw [hphldef]
          split
          · constructor
            · omega
            · omega
          · exact hpm
        have hseg2 : SegInv S R a b gl.1 phl.2.2 := by
          rw [hphldef]
          split
          · exact reverseRange_seg hok (by omega) hlen1 hG1
          · exact SegInv.refl hok hab hG1
        have hlen2 : b ≤ phl.2.2.length := by rw [hseg2.len]; exact hlen1
        have hG2 : Good S b phl.2.2 := hseg2.good hG1
        have hLb2 : LbOn R a b phl.2.2 := lbOn_seg hok hab hG1 hLb1 hseg2
        set pres := if wb = true ∧ wp = true ∧ phl.2.1 = SortHint.increasing
          then partialInsertionSort c a b phl.2.2
          else (false, phl.2.2) with hpresdef
        have hseg3 : SegInv S R a b phl.2.2 pres.2 ∧
            (pres.1 = true → ChainOn R a b pres.2) := by
          rw [hpresdef]
          split
          · exact partialInsertionSort_spec hok (by omega) hlen2 hG2 hLb2
          · exact ⟨SegInv.refl hok hab hG2, fun h => by simp at h⟩
        have hsegTo3 : SegInv S R a b l pres.2 :=
          SegInv.comp hok hab hG hseg1 (SegInv.comp hok hab hG1 hseg2 hseg3.1)
        have hlen3 : b ≤ pres.2.length := by rw [hsegTo3.len]; exact hlen
        have hG3 : Good S b pres.2 := hsegTo3.good hG
        have hLb3 : LbOn R a b pres.2 := lbOn_seg hok hab hG hLb hsegTo3
        by_cases hps : pres.1 = true
        · rw [if_pos hps]
          exact ⟨hsegTo3, hseg3.2 hps⟩
        · rw [if_neg hps]
          by_cases hpe : 0 < a ∧ ¬ c (rd pres.2 (a - 1)) (rd pres.2 phl.1) = true
          · rw [if_pos hpe]
            have hpeS := partitionEqual_spec hok a b phl.1 hpiv.1 hpiv.2 hlen3 hG3
            set pe := partitionEqual c a b phl.1 pres.2 with hpedef
            have hm1 : a + 1 ≤ pe.1 := hpeS.2.1
            have hm2 : pe.1 ≤ b := hpeS.2.2.1
            have hguard : c (rd pres.2 (a - 1)) (rd pres.2 phl.1) = false := by
              cases hcv : c (rd pres.2 (a - 1)) (rd pres.2 phl.1)
              · rfl
              · exact absurd hcv hpe.2
            have hpv1 : R (rd pres.2 phl.1) (rd pres.2 (a - 1)) :=
              hok.h2 _ _ (hG3 _ (by omega)) (hG3 _ hpiv.2) hguard
            have hpvlb3 : ∀ m, a ≤ m → m < b → R (rd pres.2 phl.1) (rd pres.2 m) := by
              intro m ham hmb
              exact hok.tr _ _ _ (hG3 _ hpiv.2) (hG3 _ (by omega)) (hG3 _ hmb)
                hpv1 (hLb3 (a - 1) (by omega) m ham hmb)
            have hlen4 : b ≤ pe.2.length := by rw [hpeS.1.len]; exact hlen3
            have hG4 : Good S b pe.2 := hpeS.1.good hG3
            have hpvlb : ∀ m, a ≤ m → m < b → R (rd pe.2 a) (rd pe.2 m) := by
              intro m ham hmb
              rw [hpeS.2.2.2.1]
              exact hpeS.1.lb (rd pres.2 phl.1) (hG3 _ hpiv.2) hpvlb3 m ham hmb
            have hLb4 : LbOn R a b pe.2 := lbOn_seg hok hab hG3 hLb3 hpeS.1
            have hLb4m : LbOn R pe.1 b pe.2 := by
              intro k hk m ham hmb
              by_cases hka : k < a
              · exact hLb4 k hka m (by omega) hmb
              · have h1 : R (rd pe.2 k) (rd pe.2 a) :=
                  hpeS.2.2.2.2.1 k (by omega) (by omega)
                have h2 : R (rd pe.2 a) (rd pe.2 m) := hpvlb m (by omega) hmb
                exact hok.tr _ _ _ (hG4 _ (by omega)) (hG4 _ (by omega)) (hG4 _ hmb) h1 h2
            have main := ih pe.1 b gl.2 wb wp pe.2 hm2 hlen4 (by omega) hG4 hLb4m
            have hG5 : Good S b (pdqsortLoop c fuel pe.1 b gl.2 wb wp pe.2) :=
              main.1.good hG4
            refine ⟨SegInv.comp hok hab hG hsegTo3 (SegInv.comp hok hab hG3 hpeS.1
              (SegInv.widen hok (by omega) (le_refl b) hm2 hG4 main.1)), ?_⟩
            intro i hai hi1
            by_cases hi2 : pe.1 ≤ i
            · exact main.2 i hi2 hi1
            · have e1 : R (rd (pdqsortLoop c fuel pe.1 b gl.2 wb wp pe.2) i)
                  (rd pe.2 i) := main.1.leftF i (by omega)
              have h1 : R (rd pe.2 i) (rd pe.2 a) :=
                hpeS.2.2.2.2.1 i hai (by omega)
              have e3 : R (rd pe.2 a)
                  (rd (pdqsortLoop c fuel pe.1 b gl.2 wb wp pe.2) (i + 1)) := by
                by_cases hi3 : i + 1 < pe.1
                · exact hok.tr _ _ _ (hG4 a (by omega)) (hG4 (i + 1) (by omega))
                    (hG5 (i + 1) (by omega)) (hpvlb (i + 1) (by omega) (by omega))
                    (main.1.leftB (i + 1) hi3)
                · exact main.1.lb (rd pe.2 a) (hG4 a (by omega))
                    (fun m ham hmb => hpvlb m (by omega) hmb) (i + 1) (by omega) hi1
              exact hok.tr _ _ _ (hG5 i (by omega)) (hG4 a (by omega))
                (hG5 (i + 1) (by omega))
                (hok.tr _ _ _ (hG5 i (by omega)) (hG4 i (by omega)) (hG4 a (by omega))
                  e1 h1) e3
          · rw [if_neg hpe]
            have hprS := partition_spec hok hpiv.1 hpiv.2 hlen3 hG3
            set pr := partition c a b phl.1 pres.2 with hprdef
            have hma : a ≤ pr.1 := hprS.2.1
            have hmb : pr.1 < b := hprS.2.2.1
            have hlen4 : b ≤ pr.2.2.length := by rw [hprS.1.len]; exact hlen3
            have hG4 : Good S b pr.2.2 := hprS.1.good hG3
            have hLb4 : LbOn R a b pr.2.2 := lbOn_seg hok hab hG3 hLb3 hprS.1
            have hP4 := hprS.2.2.2.1
            have hP5 := hprS.2.2.2.2
            have hSpv : S (rd pr.2.2 pr.1) := hG4 pr.1 hmb
            by_cases hlr : pr.1 - a < b - pr.1
            · rw [if_pos hlr]
              have rec1 := ih a pr.1 gl.2 true true pr.2.2 hma (by omega) (by omega)
                (fun k hk => hG4 k (by omega))
                (fun k hk m ham hmb2 => hLb4 k hk m ham (by omega))
              set l5 := pdqsortLoop c fuel a pr.1 gl.2 true true pr.2.2 with hl5def
              have houter5 : ∀ k, pr.1 ≤ k → rd l5 k = rd pr.2.2 k := rec1.1.outer
              have hub5 : ∀ k, a ≤ k → k < pr.1 → R (rd l5 k) (rd pr.2.2 pr.1) :=
                rec1.1.ub (rd pr.2.2 pr.1) hSpv hP4
              have hG5 : Good S b l5 := by
                intro k hk
                by_cases hk1 : k < pr.1
                · exact rec1.1.good (fun m hm => hG4 m (by omega)) k hk1
                · rw [houter5 k (by omega)]
                  exact hG4 k hk
              have hlen5 : b ≤ l5.length := by rw [rec1.1.len]; exact hlen4
              have hseg5w : SegInv S R a b pr.2.2 l5 :=
                SegInv.widen hok (le_refl a) (le_of_lt hmb) hma hG4 rec1.1
              have hLb5 : LbOn R a b l5 := lbOn_seg hok hab hG4 hLb4 hseg5w
              have hLb5m : LbOn R (pr.1 + 1) b l5 := by
                intro k hk m ham hmb2
                have hm5 : rd l5 m = rd pr.2.2 m := houter5 m (by omega)
                by_cases hka : k < a
                · exact hLb5 k hka m (by omega) hmb2
                · by_cases hkm : k < pr.1
                  · rw [hm5]
                    exact hok.tr _ _ _ (hG5 k (by omega)) hSpv (hG4 m hmb2)
                      (hub5 k (by omega) hkm) (hP5 m (by omega) hmb2)
                  · have hke : k = pr.1 := by omega
                    rw [hke, houter5 pr.1 (le_refl pr.1), hm5]
                    exact hP5 m (by omega) hmb2
              have rec2 := ih (pr.1 + 1) b gl.2
                (decide ((b - a) / 8 ≤ min (pr.1 - a) (b - pr.1))) pr.2.1 l5
                (by omega) hlen5 (by omega) hG5 hLb5m
              set out := pdqsortLoop c fuel (pr.1 + 1) b gl.2
                (decide ((b - a) / 8 ≤ min (pr.1 - a) (b - pr.1))) pr.2.1 l5 with houtdef
              have hGout : Good S b out := rec2.1.good hG5
              have hpvout : ∀ m, pr.1 + 1 ≤ m → m < b →
                  R (rd pr.2.2 pr.1) (rd out m) := by
                refine rec2.1.lb (rd pr.2.2 pr.1) hSpv ?_
                intro m ham hmb2
                rw [houter5 m (by omega)]
                exact hP5 m (by omega) hmb2
              refine ⟨SegInv.comp hok hab hG hsegTo3 (SegInv.comp hok hab hG3 hprS.1
                (SegInv.comp hok hab hG4 hseg5w
                  (SegInv.widen hok (by omega) (le_refl b) (by omega) hG5 rec2.1))), ?_⟩
              intro i hai hi1
              by_cases hi2 : pr.1 + 1 ≤ i
              · exact rec2.2 i hi2 hi1
              · by_cases hi3 : i + 1 < pr.1
                · exact hok.tr _ _ _ (hGout i (by omega)) (hG5 (i + 1) (by omega))
                    (hGout (i + 1) (by omega))
                    (hok.tr _ _ _ (hGout i (by omega)) (hG5 i (by omega))
                      (hG5 (i + 1) (by omega)) (rec2.1.leftF i (by omega))
                      (rec1.2 i hai hi3))
                    (rec2.1.leftB (i + 1) (by omega))
                · by_cases hi4 : i + 1 = pr.1
                  · have hx1 : R (rd out i) (rd l5 i) := rec2.1.leftF i (by omega)
                    have hx2 : R (rd l5 i) (rd pr.2.2 pr.1) := hub5 i hai (by omega)
                    have hx3 : R (rd pr.2.2 pr.1) (rd out pr.1) := by
                      have h5 : rd l5 pr.1 = rd pr.2.2 pr.1 := houter5 pr.1 (le_refl pr.1)
                      have hb5 : R (rd l5 pr.1) (rd out pr.1) :=
                        rec2.1.leftB pr.1 (by omega)
                      rw [h5] at hb5
                      exact hb5
                    rw [hi4]
                    exact hok.tr _ _ _ (hGout i (by omega)) hSpv (hGout pr.1 (by omega))
                      (hok.tr _ _ _ (hGout i (by omega)) (hG5 i (by omega)) hSpv hx1 hx2)
                      hx3
                  · have hie : i = pr.1 := by omega
                    have hx1 : R (rd out pr.1) (rd pr.2.2 pr.1) := by
                      have h5 : rd l5 pr.1 = rd pr.2.2 pr.1 := houter5 pr.1 (le_refl pr.1)
                      have hf5 : R (rd out pr.1) (rd l5 pr.1) :=
                        rec2.1.leftF pr.1 (by omega)
                      rw [h5] at hf5
                      exact hf5
                    rw [hie]
                    exact hok.tr _ _ _ (hGout pr.1 (by omega)) hSpv
                      (hGout (pr.1 + 1) (by omega)) hx1
                      (hpvout (pr.1 + 1) (le_refl (pr.1 + 1)) (by omega))
            · rw [if_neg hlr]
              have hLb4m : LbOn R (pr.1 + 1) b pr.2.2 := by
                intro k hk m ham hmb2
                by_cases hka : k < a
                · exact hLb4 k hka m (by omega) hmb2
                · by_cases hkm : k < pr.1
                  · exact hok.tr _ _ _ (hG4 k (by omega)) hSpv (hG4 m hmb2)
                      (hP4 k (by omega) hkm) (hP5 m (by omega) hmb2)
                  · have hke : k = pr.1 := by omega
                    rw [hke]
                    exact hP5 m (by omega) hmb2
              have rec1 := ih (pr.1 + 1) b gl.2 true true pr.2.2 (by omega) hlen4
                (by omega) hG4 hLb4m
              set l5 := pdqsortLoop c fuel (pr.1 + 1) b gl.2 true true pr.2.2 with hl5def
              have hG5 : Good S b l5 := rec1.1.good hG4
              have hlen5 : b ≤ l5.length := by rw [rec1.1.len]; exact hlen4
              have hseg5w : SegInv S R a b pr.2.2 l5 :=
                SegInv.widen hok (by omega) (le_refl b) (by omega) hG4 rec1.1
              have hub5 : ∀ k, a ≤ k → k < pr.1 → R (rd l5 k) (rd l5 pr.1) := by
                intro k hak hkm
                have hx1 : R (rd l5 k) (rd pr.2.2 k) := rec1.1.leftF k (by omega)
                have hx2 : R (rd pr.2.2 k) (rd pr.2.2 pr.1) := hP4 k hak hkm
                have hx3 : R (rd pr.2.2 pr.1) (rd l5 pr.1) := rec1.1.leftB pr.1 (by omega)
                exact hok.tr _ _ _ (hG5 k (by omega)) hSpv (hG5 pr.1 (by omega))
                  (hok.tr _ _ _ (hG5 k (by omega)) (hG4 k (by omega)) hSpv hx1 hx2) hx3
              have hpvr5 : ∀ m, pr.1 + 1 ≤ m → m < b → R (rd pr.2.2 pr.1) (rd l5 m) :=
                rec1.1.lb (rd pr.2.2 pr.1) hSpv (fun m ham hmb2 => hP5 m (by omega) hmb2)
              have hLb5 : LbOn R a b l5 := lbOn_seg hok hab hG4 hLb4 hseg5w
              have rec2 := ih a pr.1 gl.2
                (decide ((b - a) / 8 ≤ min (pr.1 - a) (b - pr.1))) pr.2.1 l5
                hma (by omega) (by omega) (fun k hk => hG5 k (by omega))
                (fun k hk m ham hmb2 => hLb5 k hk m ham (by omega))
              set out := pdqsortLoop c fuel a pr.1 gl.2
                (decide ((b - a) / 8 ≤ min (pr.1 - a) (b - pr.1))) pr.2.1 l5 with houtdef
              have houtero : ∀ k, pr.1 ≤ k → rd out k = rd l5 k := rec2.1.outer
              have hseg2w : SegInv S R a b l5 out :=
                SegInv.widen hok (le_refl a) (le_of_lt hmb) hma hG5 rec2.1
              have hGout : Good S b out := hseg2w.good hG5
              refine ⟨SegInv.comp hok hab hG hsegTo3 (SegInv.comp hok hab hG3 hprS.1
                (SegInv.comp hok hab hG4 hseg5w hseg2w)), ?_⟩
              intro i hai hi1
              by_cases hi2 : i + 1 < pr.1
              · exact rec2.2 i hai hi2
              · by_cases hi3 : i + 1 = pr.1
                · have hx : R (rd out i) (rd l5 pr.1) :=
                    rec2.1.ub (rd l5 pr.1) (hG5 pr.1 (by omega)) hub5 i hai (by omega)
                  rw [hi3, houtero pr.1 (le_refl pr.1)]
                  exact hx
                · by_cases hi4 : i = pr.1
                  · rw [hi4, houtero pr.1 (le_refl pr.1), houtero (pr.1 + 1) (by omega)]
                    have hx1 : R (rd l5 pr.1) (rd pr.2.2 pr.1) :=
                      rec1.1.leftF pr.1 (by omega)
                    exact hok.tr _ _ _ (hG5 pr.1 (by omega)) hSpv
                      (hG5 (pr.1 + 1) (by omega)) hx1
                      (hpvr5 (pr.1 + 1) (le_refl (pr.1 + 1)) (by omega))
                  · rw [houtero i (by omega), houtero (i + 1) (by omega)]
                    exact rec1.2 i (by omega) hi1

theorem pdqsort_spec (hok : RelOK c S R) (n : Nat) (l : List α) (hn : n ≤ l.length)
    (hG : Good S n l) :
    SegInv S R 0 n l (pdqsort c n l) ∧ ChainOn R 0 n (pdqsort c n l) := by
  rw [pdqsort]
  exact pdqsortLoop_spec hok (n + 1) 0 n (bitsLen n) true true l (by omega) hn (by omega)
    hG (fun k hk => absurd hk (by omega))

end MasterSpec

end SortProofs

end GoModel

namespace GoModel

section KindShapes

theorem kind_int_shape {v : GValue} (h : kindIs NKind.int v = true) :
    ∃ n, v = GValue.vInt n := by
  cases v <;> first | exact ⟨_, rfl⟩ | simp [kindIs] at h

theorem kind_uint_shape {v : GValue} (h : kindIs NKind.uint v = true) :
    ∃ n, v = GValue.vUint n := by
  cases v <;> first | exact ⟨_, rfl⟩ | simp [kindIs] at h

theorem kind_flt_shape {v : GValue} (h : kindIs NKind.flt v = true) :
    ∃ f, v = GValue.vFloat f ∧ f ≠ GFloat.nan := by
  cases v with
  | vFloat f =>
    cases f with
    | val q => exact ⟨GFloat.val q, rfl, by simp⟩
    | pinf => exact ⟨GFloat.pinf, rfl, by simp⟩
    | ninf => exact ⟨GFloat.ninf, rfl, by simp⟩
    | nan => simp [kindIs] at h
  | vString s => simp [kindIs] at h
  | vInt n => simp [kindIs] at h
  | vUint n => simp [kindIs] at h
  | vBool b => simp [kindIs] at h
  | vStruct fs => simp [kindIs] at h

theorem recOK_elim {col : String} {K : NKind} {r : GValue}
    (h : recOK col K r = true) :
    ∃ v, SpecSide.fieldOf r col = some v ∧ kindIs K v = true := by
  unfold recOK at h
  cases hf : SpecSide.fieldOf r col with
  | none => rw [hf] at h; exact absurd h (by simp)
  | some v => rw [hf] at h; exact ⟨v, rfl, h⟩

end KindShapes

section GFloatOrder

theorem gf_lt_le {x y : GFloat} (h : GFloat.lt x y = true) : GFloat.le x y = true := by
  cases x with
  | val a =>
    cases y with
    | val b =>
      simp [GFloat.lt] at h
      simp [GFloat.le]
      exact le_of_lt h
    | pinf => simp [GFloat.le]
    | ninf => simp [GFloat.lt] at h
    | nan => simp [GFloat.lt] at h
  | pinf => cases y <;> simp [GFloat.lt] at h
  | ninf =>
    cases y with
    | val b => simp [GFloat.le]
    | pinf => simp [GFloat.le]
    | ninf => simp [GFloat.lt] at h
    | nan => simp [GFloat.lt] at h
  | nan => cases y <;> simp [GFloat.lt] at h

theorem gf_total {x y : GFloat} (hx : x ≠ GFloat.nan) (hy : y ≠ GFloat.nan)
    (h : GFloat.lt x y = false) : GFloat.le y x = true := by
  cases x with
  | val a =>
    cases y with
    | val b =>
      simp [GFloat.lt] at h
      simp [GFloat.le]
      exact h
    | pinf => simp [GFloat.lt] at h
    | ninf => simp [GFloat.le]
    | nan => exact absurd rfl hy
  | pinf =>
    cases y with
    | val b => simp [GFloat.le]
    | pinf => simp [GFloat.le]
    | ninf => simp [GFloat.le]
    | nan => exact absurd rfl hy
  | ninf =>
    cases y with
    | val b => simp [GFloat.lt] at h
    | pinf => simp [GFloat.lt] at h
    | ninf => simp [GFloat.le]
    | nan => exact absurd rfl hy
  | nan => exact absurd rfl hx

theorem gf_le_trans {x y z : GFloat} (h1 : GFloat.le x y = true)
    (h2 : GFloat.le y z = true) : GFloat.le x z = true := by
  cases x <;> cases y <;> cases z <;>
    simp [GFloat.le] at h1 h2 ⊢ <;>
    exact le_trans h1 h2

end GFloatOrder

section SortLessEval

theorem sortLess_int_eval {col : String} {x y : GValue} {n m : Int} (desc : Bool)
    (hx : SpecSide.fieldOf x col = some (GValue.vInt n))
    (hy : SpecSide.fieldOf y col = some (GValue.vInt m)) :
    sortLess col desc x y =
      some (if desc then !(decide (n < m)) else decide (n < m)) := by
  unfold sortLess
  rw [fieldOf_eq_some hx, fieldOf_eq_some hy]

theorem sortLess_uint_eval {col : String} {x y : GValue} {n m : Nat} (desc : Bool)
    (hx : SpecSide.fieldOf x col = some (GValue.vUint n))
    (hy : SpecSide.fieldOf y col = some (GValue.vUint m)) :
    sortLess col desc x y =
      some (if desc then !(decide (n < m)) else decide (n < m)) := by
  unfold sortLess
  rw [fieldOf_eq_some hx, fieldOf_eq_some hy]

theorem sortLess_flt_eval {col : String} {x y : GValue} {f g : GFloat} (desc : Bool)
    (hx : SpecSide.fieldOf x col = some (GValue.vFloat f))
    (hy : SpecSide.fieldOf y col = some (GValue.vFloat g)) :
    sortLess col desc x y =
      some (if desc then !(GFloat.lt f g) else GFloat.lt f g) := by
  unfold sortLess
  rw [fieldOf_eq_some hx, fieldOf_eq_some hy]

theorem keyLe_eval {col : String} {x y fx fy : GValue}
    (hx : SpecSide.fieldOf x col = some fx) (hy : SpecSide.fieldOf y col = some fy) :
    SpecSide.keyLe col x y = SpecSide.vLe fx fy := by
  unfold SpecSide.keyLe
  rw [hx, hy]

end SortLessEval

end GoModel

namespace GoModel

section RelOKInstances

theorem relOK_asc (col : String) (K : NKind) :
    RelOK (fun x y => (sortLess col false x y).getD false)
      (fun r => recOK col K r = true)
      (fun x y => SpecSide.keyLe col x y = true) := by
  constructor
  · intro x y hx hy hc
    obtain ⟨fx, hfx, hkx⟩ := recOK_elim hx
    obtain ⟨fy, hfy, hky⟩ := recOK_elim hy
    rw [keyLe_eval hfx hfy]
    cases K with
    | int =>
      obtain ⟨n, rfl⟩ := kind_int_shape hkx
      obtain ⟨m, rfl⟩ := kind_int_shape hky
      rw [sortLess_int_eval false hfx hfy] at hc
      simp at hc
      simp [SpecSide.vLe]
      omega
    | uint =>
      obtain ⟨n, rfl⟩ := kind_uint_shape hkx
      obtain ⟨m, rfl⟩ := kind_uint_shape hky
      rw [sortLess_uint_eval false hfx hfy] at hc
      simp at hc
      simp [SpecSide.vLe]
      omega
    | flt =>
      obtain ⟨f, rfl, hfn⟩ := kind_flt_shape hkx
      obtain ⟨g, rfl, hgn⟩ := kind_flt_shape hky
      rw [sortLess_flt_eval false hfx hfy] at hc
      simp at hc
      show GFloat.le f g = true
      exact gf_lt_le hc
  · intro x y hx hy hc
    obtain ⟨fx, hfx, hkx⟩ := recOK_elim hx
    obtain ⟨fy, hfy, hky⟩ := recOK_elim hy
    rw [keyLe_eval hfy hfx]
    cases K with
    | int =>
      obtain ⟨n, rfl⟩ := kind_int_shape hkx
      obtain ⟨m, rfl⟩ := kind_int_shape hky
      rw [sortLess_int_eval false hfx hfy] at hc
      simp at hc
      simp [SpecSide.vLe]
      omega
    | uint =>
      obtain ⟨n, rfl⟩ := kind_uint_shape hkx
      obtain ⟨m, rfl⟩ := kind_uint_shape hky
      rw [sortLess_uint_eval false hfx hfy] at hc
      simp at hc
      simp [SpecSide.vLe]
      omega
    | flt =>
      obtain ⟨f, rfl, hfn⟩ := kind_flt_shape hkx
      obtain ⟨g, rfl, hgn⟩ := kind_flt_shape hky
      rw [sortLess_flt_eval false hfx hfy] at hc
      simp at hc
      show GFloat.le g f = true
      exact gf_total hfn hgn hc
  · intro x y z hx hy hz h1 h2
    obtain ⟨fx, hfx, hkx⟩ := recOK_elim hx
    obtain ⟨fy, hfy, hky⟩ := recOK_elim hy
    obtain ⟨fz, hfz, hkz⟩ := recOK_elim hz
    rw [keyLe_eval hfx hfy] at h1
    rw [keyLe_eval hfy hfz] at h2
    rw [keyLe_eval hfx hfz]
    cases K with
    | int =>
      obtain ⟨n, rfl⟩ := kind_int_shape hkx
      obtain ⟨m, rfl⟩ := kind_int_shape hky
      obtain ⟨p, rfl⟩ := kind_int_shape hkz
      simp [SpecSide.vLe] at h1 h2 ⊢
      omega
    | uint =>
      obtain ⟨n, rfl⟩ := kind_uint_shape hkx
      obtain ⟨m, rfl⟩ := kind_uint_shape hky
      obtain ⟨p, rfl⟩ := kind_uint_shape hkz
      simp [SpecSide.vLe] at h1 h2 ⊢
      omega
    | flt =>
      obtain ⟨f, rfl, hfn⟩ := kind_flt_shape hkx
      obtain ⟨g, rfl, hgn⟩ := kind_flt_shape hky
      obtain ⟨e, rfl, hen⟩ := kind_flt_shape hkz
      exact gf_le_trans h1 h2

theorem relOK_desc (col : String) (K : NKind) :
    RelOK (fun x y => (sortLess col true x y).getD false)
      (fun r => recOK col K r = true)
      (fun x y => SpecSide.keyLe col y x = true) := by
  constructor
  · intro x y hx hy hc
    obtain ⟨fx, hfx, hkx⟩ := recOK_elim hx
    obtain ⟨fy, hfy, hky⟩ := recOK_elim hy
    rw [keyLe_eval hfy hfx]
    cases K with
    | int =>
      obtain ⟨n, rfl⟩ := kind_int_shape hkx
      obtain ⟨m, rfl⟩ := kind_int_shape hky
      rw [sortLess_int_eval true hfx hfy] at hc
      simp at hc
      simp [SpecSide.vLe]
      omega
    | uint =>
      obtain ⟨n, rfl⟩ := kind_uint_shape hkx
      obtain ⟨m, rfl⟩ := kind_uint_shape hky
      rw [sortLess_uint_eval true hfx hfy] at hc
      simp at hc
      simp [SpecSide.vLe]
      omega
    | flt =>
      obtain ⟨f, rfl, hfn⟩ := kind_flt_shape hkx
      obtain ⟨g, rfl, hgn⟩ := kind_flt_shape hky
      rw [sortLess_flt_eval true hfx hfy] at hc
      simp at hc
      show GFloat.le g f = true
      exact gf_total hfn hgn hc
  · intro x y hx hy hc
    obtain ⟨fx, hfx, hkx⟩ := recOK_elim hx
    obtain ⟨fy, hfy, hky⟩ := recOK_elim hy
    rw [keyLe_eval hfx hfy]
    cases K with
    | int =>
      obtain ⟨n, rfl⟩ := kind_int_shape hkx
      obtain ⟨m, rfl⟩ := kind_int_shape hky
      rw [sortLess_int_eval true hfx hfy] at hc
      simp at hc
      simp [SpecSide.vLe]
      omega
    | uint =>
      obtain ⟨n, rfl⟩ := kind_uint_shape hkx
      obtain ⟨m, rfl⟩ := kind_uint_shape hky
      rw [sortLess_uint_eval true hfx hfy] at hc
      simp at hc
      simp [SpecSide.vLe]
      omega
    | flt =>
      obtain ⟨f, rfl, hfn⟩ := kind_flt_shape hkx
      obtain ⟨g, rfl, hgn⟩ := kind_flt_shape hky
      rw [sortLess_flt_eval true hfx hfy] at hc
      simp at hc
      show GFloat.le f g = true
      exact gf_lt_le hc
  · intro x y z hx hy hz h1 h2
    obtain ⟨fx, hfx, hkx⟩ := recOK_elim hx
    obtain ⟨fy, hfy, hky⟩ := recOK_elim hy
    obtain ⟨fz, hfz, hkz⟩ := recOK_elim hz
    rw [keyLe_eval hfy hfx] at h1
    rw [keyLe_eval hfz hfy] at h2
    rw [keyLe_eval hfz hfx]
    cases K with
    | int =>
      obtain ⟨n, rfl⟩ := kind_int_shape hkx
      obtain ⟨m, rfl⟩ := kind_int_shape hky
      obtain ⟨p, rfl⟩ := kind_int_shape hkz
      simp [SpecSide.vLe] at h1 h2 ⊢
      omega
    | uint =>
      obtain ⟨n, rfl⟩ := kind_uint_shape hkx
      obtain ⟨m, rfl⟩ := kind_uint_shape hky
      obtain ⟨p, rfl⟩ := kind_uint_shape hkz
      simp [SpecSide.vLe] at h1 h2 ⊢
      omega
    | flt =>
      obtain ⟨f, rfl, hfn⟩ := kind_flt_shape hkx
      obtain ⟨g, rfl, hgn⟩ := kind_flt_shape hky
      obtain ⟨e, rfl, hen⟩ := kind_flt_shape hkz
      exact gf_le_trans h2 h1

end RelOKInstances

end GoModel

namespace GoModel

section SortAssembly

theorem sortLess_isSome {col : String} {K : NKind} {x y : GValue} (desc : Bool)
    (hx : recOK col K x = true) (hy : recOK col K y = true) :
    (sortLess col desc x y).isSome = true := by
  obtain ⟨fx, hfx, hkx⟩ := recOK_elim hx
  obtain ⟨fy, hfy, hky⟩ := recOK_elim hy
  cases K with
  | int =>
    obtain ⟨n, rfl⟩ := kind_int_shape hkx
    obtain ⟨m, rfl⟩ := kind_int_shape hky
    rw [sortLess_int_eval desc hfx hfy]
    rfl
  | uint =>
    obtain ⟨n, rfl⟩ := kind_uint_shape hkx
    obtain ⟨m, rfl⟩ := kind_uint_shape hky
    rw [sortLess_uint_eval desc hfx hfy]
    rfl
  | flt =>
    obtain ⟨f, rfl, hfn⟩ := kind_flt_shape hkx
    obtain ⟨g, rfl, hgn⟩ := kind_flt_shape hky
    rw [sortLess_flt_eval desc hfx hfy]
    rfl

theorem genericSort_eq_pdqsort {slice : List GValue} {col : String} {K : NKind}
    (desc : Bool) (h2 : 2 ≤ slice.length)
    (hall : ∀ r ∈ slice, recOK col K r = true) :
    GenericSortInterface slice col desc =
      some (pdqsort (fun x y => (sortLess col desc x y).getD false)
        slice.length slice) := by
  unfold GenericSortInterface
  rw [if_neg (by omega), if_pos]
  rw [List.all_eq_true]
  intro x hx
  rw [List.all_eq_true]
  intro y hy
  exact sortLess_isSome desc (hall x hx) (hall y hy)

theorem good_of_mem {slice : List GValue} {col : String} {K : NKind}
    (hall : ∀ r ∈ slice, recOK col K r = true) :
    Good (fun r => recOK col K r = true) slice.length slice := by
  intro k hk
  have h1 : rd slice k = slice[k] := List.getD_eq_getElem slice default hk
  rw [h1]
  exact hall slice[k] (List.getElem_mem hk)

theorem chainLe_of_rdchain (col : String) :
    ∀ l : List GValue,
      (∀ i, i + 1 < l.length → SpecSide.keyLe col (rd l i) (rd l (i + 1)) = true) →
      SpecSide.chainLe col l = true := by
  intro l
  induction l with
  | nil => intro h; rfl
  | cons x rest ih =>
    cases rest with
    | nil => intro h; rfl
    | cons y rest2 =>
      intro h
      show (SpecSide.keyLe col x y && SpecSide.chainLe col (y :: rest2)) = true
      rw [Bool.and_eq_true]
      refine ⟨h 0 (by simp), ?_⟩
      exact ih (fun i hi => h (i + 1) (by simp at hi ⊢; omega))

theorem chainGe_of_rdchain (col : String) :
    ∀ l : List GValue,
      (∀ i, i + 1 < l.length → SpecSide.keyLe col (rd l (i + 1)) (rd l i) = true) →
      SpecSide.chainGe col l = true := by
  intro l
  induction l with
  | nil => intro h; rfl
  | cons x rest ih =>
    cases rest with
    | nil => intro h; rfl
    | cons y rest2 =>
      intro h
      show (SpecSide.keyLe col y x && SpecSide.chainGe col (y :: rest2)) = true
      rw [Bool.and_eq_true]
      refine ⟨h 0 (by simp), ?_⟩
      exact ih (fun i hi => h (i + 1) (by simp at hi ⊢; omega))

theorem genericSort_numeric_sorted (slice : List GValue) (col : String) (K : NKind)
    (hall : ∀ r ∈ slice, recOK col K r = true) :
    ∃ outAsc outDesc,
      GenericSortInterface slice col false = some outAsc ∧
      GenericSortInterface slice col true = some outDesc ∧
      SpecSide.chainLe col outAsc = true ∧
      SpecSide.chainGe col outDesc = true := by
  by_cases h1 : slice.length ≤ 1
  · refine ⟨slice, slice, ?_, ?_, ?_, ?_⟩
    · unfold GenericSortInterface
      rw [if_pos h1]
    · unfold GenericSortInterface
      rw [if_pos h1]
    · cases slice with
      | nil => rfl
      | cons x rest =>
        cases rest with
        | nil => rfl
        | cons y rest2 => simp at h1
    · cases slice with
      | nil => rfl
      | cons x rest =>
        cases rest with
        | nil => rfl
        | cons y rest2 => simp at h1
  · have h2 : 2 ≤ slice.length := by omega
    have hGood := good_of_mem hall
    have hasc := pdqsort_spec (relOK_asc col K) slice.length slice (le_refl _) hGood
    have hdesc := pdqsort_spec (relOK_desc col K) slice.length slice (le_refl _) hGood
    refine ⟨_, _, genericSort_eq_pdqsort false h2 hall, genericSort_eq_pdqsort true h2 hall,
      ?_, ?_⟩
    · refine chainLe_of_rdchain col _ (fun i hi => ?_)
      refine hasc.2 i (by omega) ?_
      rw [← hasc.1.len]
      exact hi
    · refine chainGe_of_rdchain col _ (fun i hi => ?_)
      refine hdesc.2 i (by omega) ?_
      rw [← hdesc.1.len]
      exact hi

end SortAssembly

end GoModel

/-- C4, counterexample to the claim as stated: NaN is a value of floating-point
kind, yet sorting three float-keyed records `[2.0, NaN, 1.0]` ascending by
their field returns the slice unchanged (every comparison against NaN is
false, so the insertion-sort pass swaps nothing), and the result is not
non-decreasing in the field.  The floating-point case of the claim therefore
fails without a NaN exclusion. -/
theorem C4_counterexample :
    (∀ r ∈ [GValue.vStruct [("V", false, GValue.vFloat (GFloat.val 2))],
            GValue.vStruct [("V", false, GValue.vFloat GFloat.nan)],
            GValue.vStruct [("V", false, GValue.vFloat (GFloat.val 1))]],
      ∃ f, SpecSide.fieldOf r "V" = some (GValue.vFloat f)) ∧
    GoModel.GenericSortInterface
      [GValue.vStruct [("V", false, GValue.vFloat (GFloat.val 2))],
       GValue.vStruct [("V", false, GValue.vFloat GFloat.nan)],
       GValue.vStruct [("V", false, GValue.vFloat (GFloat.val 1))]] "V" false =
      some [GValue.vStruct [("V", false, GValue.vFloat (GFloat.val 2))],
            GValue.vStruct [("V", false, GValue.vFloat GFloat.nan)],
            GValue.vStruct [("V", false, GValue.vFloat (GFloat.val 1))]] ∧
    SpecSide.chainLe "V"
      [GValue.vStruct [("V", false, GValue.vFloat (GFloat.val 2))],
       GValue.vStruct [("V", false, GValue.vFloat GFloat.nan)],
       GValue.vStruct [("V", false, GValue.vFloat (GFloat.val 1))]] = false := by
  refine ⟨?_, rfl, rfl⟩
  intro r hr
  simp only [List.mem_cons, List.not_mem_nil, or_false] at hr
  rcases hr with rfl | rfl | rfl
  · exact ⟨GFloat.val 2, rfl⟩
  · exact ⟨GFloat.nan, rfl⟩
  · exact ⟨GFloat.val 1, rfl⟩

/-- C4 (amended): for every non-empty slice of records that all carry a field
case-insensitively named `col` of one shared numeric kind — signed integer,
unsigned integer, or NaN-free floating point — `GenericSortInterface` returns
normally in both directions, the ascending result is non-decreasing in the
field, and the descending result is non-increasing. -/
theorem C4_amended_numeric_sorted (slice : List GValue) (col : String)
    (K : GoModel.NKind) (hne : slice ≠ [])
    (hall : ∀ r ∈ slice, GoModel.recOK col K r = true) :
    ∃ outAsc outDesc,
      GoModel.GenericSortInterface slice col false = some outAsc ∧
      GoModel.GenericSortInterface slice col true = some outDesc ∧
      SpecSide.chainLe col outAsc = true ∧
      SpecSide.chainGe col outDesc = true :=
  GoModel.genericSort_numeric_sorted slice col K hall

/-- C4, witness: the amended theorem applied to the three integer-keyed
records `[{Num:3}, {Num:1}, {Num:2}]`. -/
theorem C4_amended_numeric_sorted_witness :
    ([GValue.vStruct [("Num", false, GValue.vInt 3)],
      GValue.vStruct [("Num", false, GValue.vInt 1)],
      GValue.vStruct [("Num", false, GValue.vInt 2)]] ≠ ([] : List GValue)) ∧
    (∀ r ∈ [GValue.vStruct [("Num", false, GValue.vInt 3)],
            GValue.vStruct [("Num", false, GValue.vInt 1)],
            GValue.vStruct [("Num", false, GValue.vInt 2)]],
      GoModel.recOK "Num" GoModel.NKind.int r = true) ∧
    (∃ outAsc outDesc,
      GoModel.GenericSortInterface
        [GValue.vStruct [("Num", false, GValue.vInt 3)],
         GValue.vStruct [("Num", false, GValue.vInt 1)],
         GValue.vStruct [("Num", false, GValue.vInt 2)]] "Num" false = some outAsc ∧
      GoModel.GenericSortInterface
        [GValue.vStruct [("Num", false, GValue.vInt 3)],
         GValue.vStruct [("Num", false, GValue.vInt 1)],
         GValue.vStruct [("Num", false, GValue.vInt 2)]] "Num" true = some outDesc ∧
      SpecSide.chainLe "Num" outAsc = true ∧
      SpecSide.chainGe "Num" outDesc = true) := by
  refine ⟨by simp, ?_, ?_⟩
  · intro r hr
    simp only [List.mem_cons, List.not_mem_nil, or_false] at hr
    rcases hr with rfl | rfl | rfl <;> rfl
  · refine C4_amended_numeric_sorted _ "Num" GoModel.NKind.int (by simp) ?_
    intro r hr
    simp only [List.mem_cons, List.not_mem_nil, or_false] at hr
    rcases hr with rfl | rfl | rfl <;> rfl
